import Mathlib

/-!
# CoverFS directory layer (`src/SimpleFS/CDirectory.cpp`)

A shallow embedding of `CDirectory` at the level of bytes.  A directory node is a
sequence of bytes, read and written one block at a time; a block is reinterpreted as an
array of `DIRENTRY` records, exactly as the source does with `(DIRENTRY*)buf`.

Bytes are natural numbers and a `DIRENTRY` object is the list of its `sizeof(DIRENTRY)`
bytes.  The code only copies records (`memcpy`), compares and assigns the `id` field and
compares the `name` field (`strncmp`), so nothing else about a record is needed.
-/

namespace CoverFS

/-! ## Records -/

/-- Modelled from the spec: `sizeof(DIRENTRY)`.  The record is declared in `CDirectory.h`,
which is not part of the sources at hand; the spec (§8) gives 104 bytes, a 96-byte name
followed by the integer id with padding. -/
def sizeofDIRENTRY : Nat := 104

/-- Length of the name field, the `64+32` of the two `strncmp` calls. -/
def NAMELEN : Nat := 64 + 32

/-- A `DIRENTRY` object, as its bytes. -/
abbrev DIRENTRY := List Nat

/-- Modelled from the spec: `CFragmentDesc::INVALIDID`, declared outside the sources at
hand.  `AddEntry` fills the block it appends with `0xFF` so that its unused slots are
tombstones (spec §4.1, Insert), hence the sentinel is the 32-bit integer all of whose
bytes are `0xFF`. -/
def INVALIDID : Int := -1

/-- The 32-bit signed integer stored in four bytes (least significant first). -/
def int32OfBytes (bs : List Nat) : Int :=
  let u := bs.getD 0 0 + 256 * bs.getD 1 0 + 65536 * bs.getD 2 0 + 16777216 * bs.getD 3 0
  if u < 2147483648 then (u : Int) else (u : Int) - 4294967296

/-- The four bytes of a 32-bit signed integer (least significant first). -/
def bytesOfInt32 (v : Int) : List Nat :=
  let u := (v % 4294967296).toNat
  [u % 256, u / 256 % 256, u / 65536 % 256, u / 16777216 % 256]

/-- The field `de.name`: the first `NAMELEN` bytes of the record. -/
def DIRENTRY.name (de : DIRENTRY) : List Nat := de.take NAMELEN

/-- The field `de.id`: the integer stored right after the name. -/
def DIRENTRY.id (de : DIRENTRY) : Int := int32OfBytes ((de.drop NAMELEN).take 4)

/-- The assignment `de.id = v`. -/
def DIRENTRY.setId (de : DIRENTRY) (v : Int) : DIRENTRY :=
  de.take NAMELEN ++ bytesOfInt32 v ++ de.drop (NAMELEN + 4)

/-- The C string of a `std::string`: its bytes followed by the terminating zero. -/
def c_str (s : List Nat) : List Nat := s ++ [0]

/-- The libc `strncmp`: compares at most `n` characters and stops after a common zero. -/
def strncmp : List Nat → List Nat → Nat → Int
  | _, _, 0 => 0
  | a, b, n + 1 =>
    if a.headD 0 ≠ b.headD 0 then (a.headD 0 : Int) - (b.headD 0 : Int)
    else if a.headD 0 = 0 then 0
    else strncmp a.tail b.tail n

/-- The libc `memcpy(dst, src, n)`: the first `n` bytes of `dst` become those of `src`. -/
def memcpy (dst src : List Nat) (n : Nat) : List Nat := src.take n ++ dst.drop n

/-- The libc `memset` of a whole buffer of `n` bytes. -/
def memset (c n : Nat) : List Nat := List.replicate n c

/-- The record found at byte position `pos` of a buffer. -/
def entryAt (buf : List Nat) (pos : Nat) : DIRENTRY := (buf.drop pos).take sizeofDIRENTRY

/-- A buffer in which the bytes from position `pos` on are overwritten by `src`. -/
def putAt (buf : List Nat) (pos : Nat) (src : List Nat) : List Nat :=
  buf.take pos ++ src ++ buf.drop (pos + src.length)

/-! ## The node -/

/-- The type of a node; only `dir` is named by the source. -/
inductive INODETYPE
  | unknown
  | dir
  | file
  deriving DecidableEq, Repr

/-- Modelled from the spec: the directory node (§6), a file-like object holding bytes.
Its `size` is the number of bytes it holds. -/
structure INODE where
  type : INODETYPE
  data : List Nat
  deriving DecidableEq, Repr

/-- The attribute `size` of a node. -/
def INODE.size (node : INODE) : Nat := node.data.length

/-- Modelled from the spec: `ReadInternal(buffer, offset, length)` (§6) reads up to `length`
bytes at `offset`; the value is the bytes read, their number is what the call returns. -/
def INODE.ReadInternal (node : INODE) (ofs size : Nat) : List Nat :=
  (node.data.drop ofs).take size

/-- Modelled from the spec: `WriteInternal(buffer, offset, length)` (§6) writes exactly
`length` bytes at `offset`, extending the node when writing past its end. -/
def INODE.WriteInternal (node : INODE) (buf : List Nat) (ofs size : Nat) : INODE :=
  { node with
    data := node.data.take ofs ++ List.replicate (ofs - node.data.length) 0
              ++ buf.take size ++ node.data.drop (ofs + size) }

/-- Modelled from the spec: `Write(buffer, offset, length)` (§6), same contract as
`WriteInternal`. -/
def INODE.Write (node : INODE) (buf : List Nat) (ofs size : Nat) : INODE :=
  node.WriteInternal buf ofs size

/-- A call made to the node. -/
inductive IOEvent
  | read (ofs size got : Nat)
  | write (ofs size : Nat) (bytes : List Nat)
  deriving DecidableEq, Repr

/-- The bytes an event carries to the node: those of a write, none for a read. -/
def IOEvent.bytes : IOEvent → List Nat
  | .read _ _ _ => []
  | .write _ _ bytes => bytes

/-- Whether an event is a write. -/
def IOEvent.isWrite : IOEvent → Bool
  | .read _ _ _ => false
  | .write _ _ _ => true

/-! ## The scan -/

/-- The signal a visitor returns. -/
inductive FOREACHENTRYRET
  | OK
  | QUIT
  | WRITEANDQUIT
  deriving DecidableEq, Repr

/-- How a call ended: it returned, it stopped at the `assert` of the scan, the loop of the
scan was still running when the fuel ran out, or it wrote past the end of a local buffer,
from where on the behaviour of the program is undefined. -/
inductive Status
  | returned
  | assertFailed
  | outOfFuel
  | overrun
  deriving DecidableEq, Repr

/-- The outcome of an operation: how it ended, the node afterwards, the value it leaves
in the variables it was given by reference, and the calls it made to the node. -/
structure Outcome (σ : Type) where
  status : Status
  node : INODE
  st : σ
  io : List IOEvent

/-- The filesystem object, of which the directory uses `fs.bio->blocksize`. -/
structure CBlockIO where
  blocksize : Nat

/-- The filesystem a directory belongs to. -/
structure SimpleFilesystem where
  bio : CBlockIO

/-- The members of `CDirectory`. -/
structure CDirectory where
  dirnode : INODE
  blocksize : Nat

/-- The errors thrown by `CDirectory`. -/
inductive Errno
  | ENOTDIR
  | EEXIST
  deriving DecidableEq, Repr

/-- The constructor `CDirectory::CDirectory`. -/
def CDirectory.new (node : INODE) (fs : SimpleFilesystem) : Except Errno CDirectory :=
  let blocksize := fs.bio.blocksize
  if node.type ≠ INODETYPE.dir then .error Errno.ENOTDIR
  else .ok { dirnode := node, blocksize := blocksize }

/-- A visitor: the lambda handed to the scan.  It is given the record by reference and
the variables it captured, and returns a signal with both as it leaves them. -/
abbrev Visitor (σ : Type) := σ → DIRENTRY → FOREACHENTRYRET × DIRENTRY × σ

/-- The `for` loop of `ForEachEntryNonBlocking` over the records of one block buffer, with
`k` records left to visit and `j` the index of the next one. -/
def forEntries {σ : Type} (f : Visitor σ) :
    Nat → Nat → List Nat → σ → FOREACHENTRYRET × List Nat × σ
  | 0, _, buf, st => (FOREACHENTRYRET.OK, buf, st)
  | k + 1, j, buf, st =>
    match f st (entryAt buf (j * sizeofDIRENTRY)) with
    | (FOREACHENTRYRET.OK, de, st1) =>
      forEntries f k (j + 1) (putAt buf (j * sizeofDIRENTRY) de) st1
    | (ret, de, st1) => (ret, putAt buf (j * sizeofDIRENTRY) de, st1)

/-- The `do ... while` loop of `ForEachEntryNonBlocking`, one iteration per unit of fuel. -/
def scanLoop {σ : Type} (blocksize : Nat) (f : Visitor σ) :
    Nat → INODE → Nat → σ → List IOEvent → Outcome σ
  | 0, node, _, st, io => ⟨Status.outOfFuel, node, st, io⟩
  | fuel + 1, node, ofs, st, io =>
    let buf := node.ReadInternal ofs blocksize
    let size := buf.length
    let io1 := io ++ [IOEvent.read ofs blocksize size]
    if size = blocksize ∨ size = 0 then
      match forEntries f (size / sizeofDIRENTRY) 0 buf st with
      | (FOREACHENTRYRET.QUIT, _, st1) => ⟨Status.returned, node, st1, io1⟩
      | (FOREACHENTRYRET.WRITEANDQUIT, buf1, st1) =>
        ⟨Status.returned, node.WriteInternal buf1 ofs blocksize, st1,
          io1 ++ [IOEvent.write ofs blocksize (buf1.take blocksize)]⟩
      | (FOREACHENTRYRET.OK, _, st1) =>
        if size = blocksize then scanLoop blocksize f fuel node (ofs + size) st1 io1
        else ⟨Status.returned, node, st1, io1⟩
    else ⟨Status.assertFailed, node, st, io1⟩

/-- The scan `CDirectory::ForEachEntryNonBlocking`.  With a positive block size the loop
makes at most `size / blocksize + 1` iterations, which is the fuel it is given. -/
def CDirectory.ForEachEntryNonBlocking {σ : Type} (dir : CDirectory) (f : Visitor σ)
    (st : σ) : Outcome σ :=
  scanLoop dir.blocksize f (dir.dirnode.size / dir.blocksize + 1) dir.dirnode 0 st []

/-- The scan `CDirectory::ForEachEntry`: the same scan, made while holding the node's
mutex (which a sequential model does not show). -/
def CDirectory.ForEachEntry {σ : Type} (dir : CDirectory) (f : Visitor σ) (st : σ) :
    Outcome σ :=
  dir.ForEachEntryNonBlocking f st

/-! ## The operations -/

/-- `CDirectory::Create`.  The array `DIRENTRY buf[ndirperblock]` holds default-constructed
records; `dflt` is one of them (the constructor is declared in `CDirectory.h`).  The write
takes `blocksize` bytes starting at the array, so when the records do not fill a block it
also takes the bytes that lie behind the array: `mem i` is the byte `i` places past its
end. -/
def CDirectory.Create (dir : CDirectory) (dflt : DIRENTRY) (mem : Nat → Nat) :
    Outcome Unit :=
  let ndirperblock := dir.blocksize / sizeofDIRENTRY
  let buf := (List.replicate ndirperblock dflt).flatten
    ++ (List.range (dir.blocksize - ndirperblock * sizeofDIRENTRY)).map mem
  ⟨Status.returned, dir.dirnode.Write buf 0 dir.blocksize, (),
    [IOEvent.write 0 dir.blocksize (buf.take dir.blocksize)]⟩

/-- The lambda of `AddEntry`; the captured variable is `written`. -/
def addVisitor (denew : DIRENTRY) : Visitor Bool := fun written de =>
  if DIRENTRY.id de = INVALIDID then
    (FOREACHENTRYRET.WRITEANDQUIT, memcpy de denew sizeofDIRENTRY, true)
  else (FOREACHENTRYRET.OK, de, written)

/-- `CDirectory::AddEntry`; the value kept in the outcome is `written`.  The new block is
built in `int8_t buf[blocksize]`, and `memcpy(de, &denew, sizeof(DIRENTRY))` copies a whole
record to its start: when a block is smaller than a record the copy runs past the end of
the buffer, and the call ends there with the status `overrun`, before the write. -/
def CDirectory.AddEntry (dir : CDirectory) (denew : DIRENTRY) : Outcome Bool :=
  let r := dir.ForEachEntryNonBlocking (addVisitor denew) false
  if r.status ≠ Status.returned then r
  else if r.st then r
  else if dir.blocksize < sizeofDIRENTRY then ⟨Status.overrun, r.node, r.st, r.io⟩
  else
    let buf := memcpy (memset 0xFF dir.blocksize) denew sizeofDIRENTRY
    ⟨Status.returned, r.node.WriteInternal buf r.node.size dir.blocksize, r.st,
      r.io ++ [IOEvent.write r.node.size dir.blocksize (buf.take dir.blocksize)]⟩

/-- The lambda of `RemoveEntry`; the captured variable is the output entry `e`. -/
def removeVisitor (name : List Nat) : Visitor DIRENTRY := fun e de =>
  if DIRENTRY.id de = INVALIDID then (FOREACHENTRYRET.OK, de, e)
  else if strncmp (DIRENTRY.name de) (c_str name) (64 + 32) = 0 then
    (FOREACHENTRYRET.WRITEANDQUIT, DIRENTRY.setId de INVALIDID, memcpy e de sizeofDIRENTRY)
  else (FOREACHENTRYRET.OK, de, e)

/-- `CDirectory::RemoveEntry`; the value kept in the outcome is the output entry `e`. -/
def CDirectory.RemoveEntry (dir : CDirectory) (name : List Nat) (e : DIRENTRY) :
    Outcome DIRENTRY :=
  dir.ForEachEntry (removeVisitor name) (DIRENTRY.setId e INVALIDID)

/-- The lambda of `Find`; the captured variable is the output entry `e`. -/
def findVisitor (s : List Nat) : Visitor DIRENTRY := fun e de =>
  if DIRENTRY.id de = INVALIDID then (FOREACHENTRYRET.OK, de, e)
  else if strncmp (DIRENTRY.name de) (c_str s) (64 + 32) = 0 then
    (FOREACHENTRYRET.QUIT, de, memcpy e de sizeofDIRENTRY)
  else (FOREACHENTRYRET.OK, de, e)

/-- `CDirectory::Find`; the value kept in the outcome is the output entry `e`. -/
def CDirectory.Find (dir : CDirectory) (s : List Nat) (e : DIRENTRY) : Outcome DIRENTRY :=
  dir.ForEachEntry (findVisitor s) (DIRENTRY.setId e INVALIDID)

/-- The lambda of `IsEmpty`; the captured variable is `empty`. -/
def isEmptyVisitor : Visitor Bool := fun empty de =>
  if DIRENTRY.id de = INVALIDID then (FOREACHENTRYRET.OK, de, empty)
  else (FOREACHENTRYRET.QUIT, de, false)

/-- `CDirectory::IsEmpty`; the value kept in the outcome is the value returned. -/
def CDirectory.IsEmpty (dir : CDirectory) : Outcome Bool :=
  dir.ForEachEntry isEmptyVisitor true

/-- How a call of `MakeDirectory` or `MakeFile` ends.  `status` is `returned` when the call
came to its `throw` or to its `return`, and is the status of the lookup when that did not
return; `thrown` is the exception thrown, `value` the integer returned, `node` the node
afterwards, and `fsCalls` lists the names with which the creation routine of the filesystem
was called. -/
structure Creation where
  status : Status
  thrown : Option Errno
  value : Option Int
  node : INODE
  fsCalls : List (List Nat)
  deriving DecidableEq, Repr

/-- `CDirectory::MakeDirectory`.  The record `e` is the local object `DIRENTRY e("")`, whose
constructor is outside the sources at hand.  Modelled from the spec: `fs.MakeDirectory` is
the creation routine of the filesystem collaborator (§6); here it is the function
`fsMakeDirectory`, which is given the directory and the name and whose value is the node
as the routine leaves it together with the integer it returns. -/
def CDirectory.MakeDirectory (dir : CDirectory)
    (fsMakeDirectory : CDirectory → List Nat → INODE × Int) (e : DIRENTRY)
    (name : List Nat) : Creation :=
  let r := dir.Find name e
  if r.status ≠ Status.returned then ⟨r.status, none, none, r.node, []⟩
  else if DIRENTRY.id r.st ≠ INVALIDID then
    ⟨Status.returned, some Errno.EEXIST, none, r.node, []⟩
  else
    let c := fsMakeDirectory { dir with dirnode := r.node } name
    ⟨Status.returned, none, some c.2, c.1, [name]⟩

/-- `CDirectory::MakeFile`, written like `MakeDirectory`, with the routine `fs.MakeFile` of
the filesystem collaborator as the function `fsMakeFile`. -/
def CDirectory.MakeFile (dir : CDirectory)
    (fsMakeFile : CDirectory → List Nat → INODE × Int) (e : DIRENTRY)
    (name : List Nat) : Creation :=
  let r := dir.Find name e
  if r.status ≠ Status.returned then ⟨r.status, none, none, r.node, []⟩
  else if DIRENTRY.id r.st ≠ INVALIDID then
    ⟨Status.returned, some Errno.EEXIST, none, r.node, []⟩
  else
    let c := fsMakeFile { dir with dirnode := r.node } name
    ⟨Status.returned, none, some c.2, c.1, [name]⟩

/-! ## Reference notions used to state the properties -/

/-- The byte offsets of the record slots of block `b`, slot by slot. -/
def blockSlots (blocksize b : Nat) : List Nat :=
  (List.range (blocksize / sizeofDIRENTRY)).map fun j => b * blocksize + j * sizeofDIRENTRY

/-- The byte offsets of the record slots of a node of `size` bytes in storage order: block
by block over its full blocks, and slot by slot within a block. -/
def slotOffsets (blocksize size : Nat) : List Nat :=
  (List.range (size / blocksize)).flatMap (blockSlots blocksize)

/-- The offset of the first slot, in storage order, whose record satisfies `p`. -/
def firstSlot (p : DIRENTRY → Bool) (blocksize : Nat) (data : List Nat) : Option Nat :=
  (slotOffsets blocksize data.length).find? fun off => p (entryAt data off)

/-- A record is tombstoned: its id is `INVALIDID`. -/
def isTombstone (de : DIRENTRY) : Bool := decide (DIRENTRY.id de = INVALIDID)

/-- A record is live and its name field matches the name `s`, as `Find` and `RemoveEntry`
test it. -/
def matchesName (s : List Nat) (de : DIRENTRY) : Bool :=
  !isTombstone de && decide (strncmp (DIRENTRY.name de) (c_str s) (64 + 32) = 0)

/-- The node of a directory is made of whole blocks of positive size. -/
def CDirectory.WholeBlocks (dir : CDirectory) : Prop :=
  0 < dir.blocksize ∧ dir.blocksize ∣ dir.dirnode.size

instance (dir : CDirectory) : Decidable dir.WholeBlocks := by
  unfold CDirectory.WholeBlocks; infer_instance

/-- The same directory object bound to the node in a later state. -/
def CDirectory.withNode (dir : CDirectory) (node : INODE) : CDirectory :=
  { dir with dirnode := node }

/-- The directory after an operation: the same object, its node as the operation left
it. -/
def CDirectory.after {σ : Type} (dir : CDirectory) (r : Outcome σ) : CDirectory :=
  dir.withNode r.node

/-- An operation returned with the value `v`. -/
def Outcome.returns {σ : Type} (r : Outcome σ) (v : σ) : Prop :=
  r.status = Status.returned ∧ r.st = v

instance {σ : Type} [DecidableEq σ] (r : Outcome σ) (v : σ) : Decidable (r.returns v) := by
  unfold Outcome.returns; infer_instance

/-- `AddEntry` of the entries of a list, one call after the other; the value is the node
after the last call, and there is none if one of the calls does not return. -/
def CDirectory.addAll (dir : CDirectory) : List DIRENTRY → Option INODE
  | [] => some dir.dirnode
  | de :: rest =>
    if (dir.AddEntry de).status = Status.returned then
      (dir.after (dir.AddEntry de)).addAll rest
    else none

/-- The reads of `n` full blocks starting with block `b`. -/
def fullReads (blocksize b n : Nat) : List IOEvent :=
  (List.range' b n).map fun i => IOEvent.read (i * blocksize) blocksize blocksize

/-- A visitor that, with `st` in its captured variables, passes over a record outside `p`
leaving record and variables as they are, and stops at a record in `p`. -/
structure Searches {σ : Type} (f : Visitor σ) (p : DIRENTRY → Bool) (st : σ) : Prop where
  skip : ∀ de, p de = false → f st de = (FOREACHENTRYRET.OK, de, st)
  stop : ∀ de, p de = true → (f st de).1 ≠ FOREACHENTRYRET.OK

/-- The end of a scan whose visitor stops at the slot at byte offset `off`, after the
calls `io`: nothing more on `QUIT`, the write of the block that holds the slot, with the
visitor's change to the record, on `WRITEANDQUIT`. -/
def stopOutcome {σ : Type} (f : Visitor σ) (st : σ) (node : INODE) (blocksize : Nat)
    (io : List IOEvent) (off : Nat) : Outcome σ :=
  let r := f st (entryAt node.data off)
  let base := off / blocksize * blocksize
  let buf := putAt (node.ReadInternal base blocksize) (off - base) r.2.1
  if r.1 = FOREACHENTRYRET.WRITEANDQUIT then
    ⟨Status.returned, node.WriteInternal buf base blocksize, r.2.2,
      io ++ [IOEvent.write base blocksize (buf.take blocksize)]⟩
  else ⟨Status.returned, node, r.2.2, io⟩

/-- The end of a scan that visits every slot without being stopped: it has read every
full block and then the rest of the node, and it returns if that rest is empty and stops
at the `assert` if not. -/
def scanThrough {σ : Type} (dir : CDirectory) (st : σ) : Outcome σ :=
  ⟨if dir.dirnode.size % dir.blocksize = 0 then Status.returned else Status.assertFailed,
    dir.dirnode, st,
    fullReads dir.blocksize 0 (dir.dirnode.size / dir.blocksize)
      ++ [IOEvent.read (dir.dirnode.size / dir.blocksize * dir.blocksize) dir.blocksize
            (dir.dirnode.size % dir.blocksize)]⟩

/-- The write that ends a scan stopped with `WRITEANDQUIT` at the slot at offset `off`, the
record there being left as `de` by the visitor. -/
def blockWrite (node : INODE) (blocksize off : Nat) (de : DIRENTRY) : IOEvent :=
  IOEvent.write (off / blocksize * blocksize) blocksize
    (putAt (node.ReadInternal (off / blocksize * blocksize) blocksize)
      (off - off / blocksize * blocksize) de)

/-- The block that `Create` writes: the records of the array and the bytes behind it. -/
def createBlock (blocksize : Nat) (dflt : DIRENTRY) (mem : Nat → Nat) : List Nat :=
  (List.replicate (blocksize / sizeofDIRENTRY) dflt).flatten
    ++ (List.range (blocksize - blocksize / sizeofDIRENTRY * sizeofDIRENTRY)).map mem

/-- A visitor leaves a record its size, as every function on a `DIRENTRY &` does. -/
def LengthPreserving {σ : Type} (f : Visitor σ) : Prop :=
  ∀ st de, de.length = sizeofDIRENTRY → (f st de).2.1.length = sizeofDIRENTRY

/-- The result of visiting the slots of a list one after the other: the captured variables
at the end, the bytes with every visited record as its visitor call left it, and the slot
and signal at which the visitor stopped the visit, if it did. -/
structure Visit (σ : Type) where
  st : σ
  view : List Nat
  stop : Option (Nat × FOREACHENTRYRET)

/-- The reference fold: the visitor is called on the record of each slot of the list `offs`
in turn, up to and including the first slot at which it does not return `OK`. -/
def visitAll {σ : Type} (f : Visitor σ) : List Nat → List Nat → σ → Visit σ
  | [], view, st => ⟨st, view, none⟩
  | off :: rest, view, st =>
    match f st (entryAt view off) with
    | (FOREACHENTRYRET.OK, de, st1) => visitAll f rest (putAt view off de) st1
    | (ret, de, st1) => ⟨st1, putAt view off de, some (off, ret)⟩

/-- The signal with which a visit ends: `OK` when it was not stopped. -/
def Visit.signal {σ : Type} (r : Visit σ) : FOREACHENTRYRET :=
  match r.stop with
  | none => FOREACHENTRYRET.OK
  | some (_, ret) => ret

/-- The outcome of a scan, after the calls `io`, of the blocks `b`, ..., `b + n - 1` of a
node that has `rem` more bytes behind them, when the visit of their slots is `r`: a visit
that was not stopped ends with the read of the rest; one stopped with `WRITEANDQUIT` ends
with the write of the block of the slot, taken from the bytes the visit left. -/
def scanOutcome {σ : Type} (node : INODE) (blocksize : Nat) (io : List IOEvent)
    (b n rem : Nat) (r : Visit σ) : Outcome σ :=
  match r.stop with
  | none =>
    ⟨if rem = 0 then Status.returned else Status.assertFailed, node, r.st,
      io ++ fullReads blocksize b n ++ [IOEvent.read ((b + n) * blocksize) blocksize rem]⟩
  | some (off, ret) =>
    let base := off / blocksize * blocksize
    let buf := (r.view.drop base).take blocksize
    if ret = FOREACHENTRYRET.WRITEANDQUIT then
      ⟨Status.returned, node.WriteInternal buf base blocksize, r.st,
        io ++ fullReads blocksize b (off / blocksize + 1 - b)
          ++ [IOEvent.write base blocksize (buf.take blocksize)]⟩
    else ⟨Status.returned, node, r.st, io ++ fullReads blocksize b (off / blocksize + 1 - b)⟩

/-- The visitor `f` with one more captured variable, the list of the records it has been
called on, in the order of the calls. -/
def logCalls {σ : Type} (f : Visitor σ) : Visitor (σ × List DIRENTRY) :=
  fun s de => ((f s.1 de).1, (f s.1 de).2.1, ((f s.1 de).2.2, s.2 ++ [de]))

/-- The slots visited by a scan that was stopped at `stop`: all of them when it was not
stopped, and those up to the slot of the stop when it was. -/
def visitedSlots (offs : List Nat) : Option (Nat × FOREACHENTRYRET) → List Nat
  | none => offs
  | some (off, _) => offs.filter fun o => decide (o ≤ off)

/-- The reads among the calls made to a node. -/
def readsOf (io : List IOEvent) : List IOEvent := io.filter fun ev => !ev.isWrite

/-- The writes among the calls made to a node. -/
def writesOf (io : List IOEvent) : List IOEvent := io.filter fun ev => ev.isWrite

/-- The reference fold over the slots of the node of a directory, in storage order. -/
def CDirectory.visit {σ : Type} (dir : CDirectory) (f : Visitor σ) (st : σ) : Visit σ :=
  visitAll f (slotOffsets dir.blocksize dir.dirnode.size) dir.dirnode.data st

/-- The records on which a scan of the directory calls the visitor `f`, in the order of the
calls: what the scan leaves in the list kept by `logCalls f`. -/
def CDirectory.calls {σ : Type} (dir : CDirectory) (f : Visitor σ) (st : σ) :
    List DIRENTRY :=
  (dir.ForEachEntryNonBlocking (logCalls f) (st, [])).st.2

/-- A name as one block of `NAMELEN` bytes: cut to that length, or padded with zeros. -/
def nameBlock (s : List Nat) : List Nat :=
  (s ++ List.replicate NAMELEN 0).take NAMELEN

/-- The C string held in the first `n` bytes of a buffer: the bytes before the first zero
among them. -/
def cString (a : List Nat) (n : Nat) : List Nat :=
  (a.take n).takeWhile fun c => decide (c ≠ 0)

/-! ## Examples -/

/-- A record with the given name (cut or zero-padded to the name field), the given id and
zero padding. -/
def mkEntry (name : List Nat) (id : Int) : DIRENTRY :=
  (name ++ List.replicate NAMELEN 0).take NAMELEN ++ bytesOfInt32 id ++ [0, 0, 0, 0]

/-- A directory of one block with two slots: a tombstone, then the entry `a` with id 7. -/
def exDir : CDirectory :=
  { dirnode := { type := INODETYPE.dir, data := mkEntry [] INVALIDID ++ mkEntry [97] 7 },
    blocksize := 208 }

/-- A directory of one block with one slot, which holds the entry `a` with id 7. -/
def exFull : CDirectory :=
  { dirnode := { type := INODETYPE.dir, data := mkEntry [97] 7 }, blocksize := 104 }

/-- A directory object on a new, empty node, with room for two records in a block. -/
def exFresh : CDirectory :=
  { dirnode := { type := INODETYPE.dir, data := [] }, blocksize := 208 }

/-- The directory that `Create` makes of it when default-constructed records are
tombstones with an empty name. -/
def exCreated : CDirectory :=
  exFresh.after (exFresh.Create (mkEntry [] INVALIDID) (fun _ => 0))

/-- Forty entries with the one-letter names `A`, `B`, ... and the ids 1, 2, ... -/
def exEntry (i : Nat) : DIRENTRY := mkEntry [65 + i] (i + 1)

/-- The names of the forty entries. -/
def exName (i : Nat) : List Nat := [65 + i]

/-- A directory object with blocks of 4096 bytes on a new, empty node. -/
def exFresh4096 : CDirectory :=
  { dirnode := { type := INODETYPE.dir, data := [] }, blocksize := 4096 }

/-- A visitor that numbers the records: it writes the number of earlier calls into the id
of each record, and at a record whose id was 7 it returns the signal `ret`. -/
def exVisitor (ret : FOREACHENTRYRET) : Visitor Nat :=
  fun n de =>
    (if DIRENTRY.id de = 7 then ret else FOREACHENTRYRET.OK, DIRENTRY.setId de n, n + 1)

/-- A directory whose node holds one block of two records and three more bytes. -/
def exShort : CDirectory :=
  { dirnode :=
      { type := INODETYPE.dir, data := mkEntry [] INVALIDID ++ mkEntry [97] 7 ++ [1, 2, 3] },
    blocksize := 208 }

/-- A directory of one block with two slots, both live: `a` with id 7 and `b` with id 8. -/
def exFull2 : CDirectory :=
  { dirnode := { type := INODETYPE.dir, data := mkEntry [97] 7 ++ mkEntry [98] 8 },
    blocksize := 208 }

/-- A directory of one block with one slot, which holds a live record whose name field is
`a`, a zero byte, `b` and zeros. -/
def exJunk : CDirectory :=
  { dirnode := { type := INODETYPE.dir, data := mkEntry [97, 0, 98] 7 }, blocksize := 104 }

/-- A directory of one block with one slot, which holds a live record whose name field is
filled by 96 letters `A`, without a zero byte. -/
def exLong : CDirectory :=
  { dirnode := { type := INODETYPE.dir, data := mkEntry (List.replicate 96 65) 7 },
    blocksize := 104 }

theorem putAt_entryAt (buf : List Nat) (pos : Nat) : putAt buf pos (entryAt buf pos) = buf := by
  unfold putAt entryAt
  rw [List.length_take, List.length_drop]
  by_cases h : sizeofDIRENTRY ≤ buf.length - pos
  · rw [Nat.min_eq_left h, List.append_assoc]
    have : List.drop (pos + sizeofDIRENTRY) buf = List.drop sizeofDIRENTRY (List.drop pos buf) := by
      rw [List.drop_drop]
    rw [this, List.take_append_drop, List.take_append_drop]
  · have h1 : buf.length - pos ≤ sizeofDIRENTRY := by omega
    have h2 : List.take sizeofDIRENTRY (List.drop pos buf) = List.drop pos buf :=
      List.take_of_length_le (by rw [List.length_drop]; exact h1)
    have h3 : List.drop (pos + (buf.length - pos)) buf = [] :=
      List.drop_of_length_le (by omega)
    rw [Nat.min_eq_right h1, h2, h3, List.append_nil, List.take_append_drop]

theorem length_entryAt (buf : List Nat) (pos : Nat) (h : pos + sizeofDIRENTRY ≤ buf.length) :
    (entryAt buf pos).length = sizeofDIRENTRY := by
  unfold entryAt
  rw [List.length_take, List.length_drop]
  omega

theorem length_putAt (buf : List Nat) (pos : Nat) (src : List Nat)
    (h : pos + src.length ≤ buf.length) : (putAt buf pos src).length = buf.length := by
  unfold putAt
  simp only [List.length_append, List.length_take, List.length_drop]
  omega

theorem entryAt_block (data : List Nat) (base blocksize pos : Nat)
    (h : pos + sizeofDIRENTRY ≤ blocksize) :
    entryAt ((data.drop base).take blocksize) pos = entryAt data (base + pos) := by
  unfold entryAt
  rw [List.drop_take, List.take_take, List.drop_drop, Nat.min_eq_left (by omega)]

theorem putAt_block (data : List Nat) (base blocksize pos : Nat) (src : List Nat)
    (h : pos + src.length ≤ blocksize) :
    data.take base ++ putAt ((data.drop base).take blocksize) pos src
      ++ data.drop (base + blocksize) = putAt data (base + pos) src := by
  unfold putAt
  have e1 : List.take pos (List.take blocksize (List.drop base data))
      = List.drop base (List.take (base + pos) data) := by
    rw [List.take_take, Nat.min_eq_left (by omega), List.take_drop]
  have e2 : List.drop (pos + src.length) (List.take blocksize (List.drop base data))
      ++ List.drop (base + blocksize) data = List.drop (base + pos + src.length) data := by
    have h1 : List.drop (pos + src.length) (List.drop base data)
        = List.drop (base + pos + src.length) data := by
      rw [List.drop_drop, Nat.add_assoc]
    have h2 : List.drop (base + blocksize) data
        = List.drop (blocksize - (pos + src.length)) (List.drop (base + pos + src.length) data) := by
      rw [List.drop_drop]
      congr 1
      omega
    rw [List.drop_take, h1, h2, List.take_append_drop]
  have e3 : List.take base data ++ List.drop base (List.take (base + pos) data)
      = List.take (base + pos) data := by
    have : List.take base data = List.take base (List.take (base + pos) data) := by
      rw [List.take_take, Nat.min_eq_left (by omega)]
    rw [this, List.take_append_drop]
  rw [e1]
  simp only [List.append_assoc]
  rw [e2, ← List.append_assoc, e3]

/-! ## The scan with a searching visitor -/

theorem forEntries_search {σ : Type} (f : Visitor σ) (p : DIRENTRY → Bool) (st : σ)
    (h : Searches f p st) (data : List Nat) (base blocksize : Nat) :
    ∀ k j, (j + k) * sizeofDIRENTRY ≤ blocksize →
      forEntries f k j ((data.drop base).take blocksize) st =
        match ((List.range' j k).map fun i => base + i * sizeofDIRENTRY).find?
            (fun off => p (entryAt data off)) with
        | none => (FOREACHENTRYRET.OK, (data.drop base).take blocksize, st)
        | some off =>
          ((f st (entryAt data off)).1,
            putAt ((data.drop base).take blocksize) (off - base) (f st (entryAt data off)).2.1,
            (f st (entryAt data off)).2.2) := by
  intro k
  induction k with
  | zero => intro j _; simp [forEntries]
  | succ k ih =>
    intro j hj
    have hslot : j * sizeofDIRENTRY + sizeofDIRENTRY ≤ blocksize := by
      unfold sizeofDIRENTRY at *; omega
    rw [List.range'_succ, List.map_cons, List.find?_cons, forEntries,
      entryAt_block data base blocksize _ hslot]
    cases hp : p (entryAt data (base + j * sizeofDIRENTRY)) with
    | false =>
      rw [h.skip _ hp]
      simp only
      rw [← entryAt_block data base blocksize _ hslot, putAt_entryAt]
      exact ih (j + 1) (by unfold sizeofDIRENTRY at *; omega)
    | true =>
      have hne := h.stop _ hp
      rcases hf : f st (entryAt data (base + j * sizeofDIRENTRY)) with ⟨r, de, st1⟩
      rw [hf] at hne
      cases r with
      | OK => exact absurd rfl hne
      | QUIT => simp [Nat.add_sub_cancel_left, hf]
      | WRITEANDQUIT => simp [Nat.add_sub_cancel_left, hf]

theorem blockSlots_eq (blocksize b : Nat) :
    blockSlots blocksize b = (List.range' 0 (blocksize / sizeofDIRENTRY)).map
      fun j => b * blocksize + j * sizeofDIRENTRY := by
  rw [blockSlots, List.range_eq_range']

theorem mem_blockSlots {blocksize b off : Nat} (h : off ∈ blockSlots blocksize b) :
    b * blocksize ≤ off ∧ off + sizeofDIRENTRY ≤ b * blocksize + blocksize := by
  unfold blockSlots at h
  rw [List.mem_map] at h
  obtain ⟨j, hj, rfl⟩ := h
  rw [List.mem_range] at hj
  have h1 : blocksize / sizeofDIRENTRY * sizeofDIRENTRY ≤ blocksize := Nat.div_mul_le_self _ _
  have h2 : (j + 1) * sizeofDIRENTRY ≤ blocksize / sizeofDIRENTRY * sizeofDIRENTRY :=
    Nat.mul_le_mul_right _ hj
  constructor
  · omega
  · rw [Nat.add_mul, Nat.one_mul] at h2; omega

theorem div_of_mem_blockSlots {blocksize b off : Nat} (h : off ∈ blockSlots blocksize b) :
    off / blocksize = b := by
  have h1 := mem_blockSlots h
  have hs : 0 < sizeofDIRENTRY := by decide
  exact Nat.div_eq_of_lt_le h1.1 (by rw [Nat.add_mul, Nat.one_mul]; omega)

theorem forEntries_block {σ : Type} (f : Visitor σ) (p : DIRENTRY → Bool) (st : σ)
    (h : Searches f p st) (data : List Nat) (blocksize b : Nat) :
    forEntries f (blocksize / sizeofDIRENTRY) 0 ((data.drop (b * blocksize)).take blocksize) st =
      match (blockSlots blocksize b).find? (fun off => p (entryAt data off)) with
      | none => (FOREACHENTRYRET.OK, (data.drop (b * blocksize)).take blocksize, st)
      | some off =>
        ((f st (entryAt data off)).1,
          putAt ((data.drop (b * blocksize)).take blocksize) (off - b * blocksize)
            (f st (entryAt data off)).2.1,
          (f st (entryAt data off)).2.2) := by
  rw [blockSlots_eq]
  exact forEntries_search f p st h data (b * blocksize) blocksize _ 0
    (by rw [Nat.zero_add]; exact Nat.div_mul_le_self _ _)

theorem scanLoop_search {σ : Type} (blocksize : Nat) (hbs : 0 < blocksize) (f : Visitor σ)
    (p : DIRENTRY → Bool) (st : σ) (h : Searches f p st) (node : INODE) :
    ∀ n b fuel io rem, node.data.length = (b + n) * blocksize + rem → rem < blocksize →
      n + 1 ≤ fuel →
      scanLoop blocksize f fuel node (b * blocksize) st io =
        match ((List.range' b n).flatMap (blockSlots blocksize)).find?
            (fun off => p (entryAt node.data off)) with
        | none =>
          ⟨if rem = 0 then Status.returned else Status.assertFailed, node, st,
            io ++ fullReads blocksize b n
              ++ [IOEvent.read ((b + n) * blocksize) blocksize rem]⟩
        | some off =>
          stopOutcome f st node blocksize
            (io ++ fullReads blocksize b (off / blocksize + 1 - b)) off := by
  intro n
  induction n with
  | zero =>
    intro b fuel io rem hlen hrem hfuel
    obtain ⟨fuel, rfl⟩ : ∃ k, fuel = k + 1 := ⟨fuel - 1, by omega⟩
    have hread : (node.ReadInternal (b * blocksize) blocksize).length = rem := by
      unfold INODE.ReadInternal
      rw [List.length_take, List.length_drop, hlen]
      simp only [Nat.add_zero]
      omega
    simp only [List.range'_zero, List.flatMap_nil, List.find?_nil, fullReads, List.map_nil,
      List.append_nil, Nat.add_zero]
    unfold scanLoop
    simp only [hread]
    by_cases h0 : rem = 0
    · subst h0
      have hne : ¬ (0 = blocksize) := by omega
      simp [forEntries, hne]
    · have hno : ¬ (rem = blocksize ∨ rem = 0) := by omega
      have hne : ¬ (rem = blocksize) := by omega
      simp [h0, hne]
  | succ n ih =>
    intro b fuel io rem hlen hrem hfuel
    obtain ⟨fuel, rfl⟩ : ∃ k, fuel = k + 1 := ⟨fuel - 1, by omega⟩
    have hmul : (b + (n + 1)) * blocksize = b * blocksize + blocksize + n * blocksize := by
      simp only [Nat.add_mul, Nat.one_mul]; omega
    have hmul' : (b + 1 + n) * blocksize = b * blocksize + blocksize + n * blocksize := by
      simp only [Nat.add_mul, Nat.one_mul]
    have hlen' : node.data.length = (b + 1 + n) * blocksize + rem := by
      rw [hlen, hmul, hmul']
    have hread : (node.ReadInternal (b * blocksize) blocksize).length = blocksize := by
      unfold INODE.ReadInternal
      rw [List.length_take, List.length_drop, hlen, hmul]
      omega
    rw [List.range'_succ, List.flatMap_cons, List.find?_append]
    unfold scanLoop
    simp only [hread, true_or, if_true]
    unfold INODE.ReadInternal
    rw [forEntries_block f p st h node.data blocksize b]
    cases hfind : (blockSlots blocksize b).find? (fun off => p (entryAt node.data off)) with
    | none =>
      have hih := ih (b + 1) fuel (io ++ [IOEvent.read (b * blocksize) blocksize blocksize])
        rem hlen' hrem (by omega)
      rw [Nat.add_mul, Nat.one_mul] at hih
      simp only [Option.none_or]
      rw [hih]
      cases hrest : ((List.range' (b + 1) n).flatMap (blockSlots blocksize)).find?
          (fun off => p (entryAt node.data off)) with
      | none =>
        simp only [fullReads, List.range'_succ, List.map_cons, List.append_assoc,
          List.singleton_append]
        rw [hmul, hmul']
      | some off =>
        have hmem := List.mem_of_find?_eq_some hrest
        rw [List.mem_flatMap] at hmem
        obtain ⟨b1, hb1, hoff⟩ := hmem
        rw [List.mem_range'_1] at hb1
        have hdiv := div_of_mem_blockSlots hoff
        have hcnt : off / blocksize + 1 - b = (off / blocksize + 1 - (b + 1)) + 1 := by omega
        simp only [hcnt, fullReads, List.range'_succ, List.map_cons, List.append_assoc,
          List.singleton_append]
    | some off =>
      have hmem := List.mem_of_find?_eq_some hfind
      have hp : p (entryAt node.data off) = true :=
        List.find?_some (p := fun off => p (entryAt node.data off)) hfind
      have hdiv := div_of_mem_blockSlots hmem
      have hne := h.stop _ hp
      have hcnt : off / blocksize + 1 - b = 1 := by omega
      simp only [Option.or_some, stopOutcome, hdiv, hcnt, fullReads, INODE.ReadInternal]
      rcases hr : f st (entryAt node.data off) with ⟨ret, de, st1⟩
      rw [hr] at hne
      cases ret with
      | OK => exact absurd rfl hne
      | QUIT => simp [hr]
      | WRITEANDQUIT => simp [hr]

theorem slotOffsets_eq (blocksize size : Nat) :
    slotOffsets blocksize size
      = (List.range' 0 (size / blocksize)).flatMap (blockSlots blocksize) := by
  rw [slotOffsets, List.range_eq_range']

theorem mem_slotOffsets {blocksize size off : Nat}
    (h : off ∈ slotOffsets blocksize size) :
    off / blocksize * blocksize ≤ off
      ∧ off + sizeofDIRENTRY ≤ off / blocksize * blocksize + blocksize
      ∧ off / blocksize * blocksize + blocksize ≤ size := by
  unfold slotOffsets at h
  rw [List.mem_flatMap] at h
  obtain ⟨b, hb, hoff⟩ := h
  rw [List.mem_range] at hb
  have hdiv := div_of_mem_blockSlots hoff
  have hm := mem_blockSlots hoff
  rw [hdiv]
  refine ⟨hm.1, hm.2, ?_⟩
  have h1 : (b + 1) * blocksize ≤ size / blocksize * blocksize := Nat.mul_le_mul_right _ hb
  have h2 : size / blocksize * blocksize ≤ size := Nat.div_mul_le_self _ _
  rw [Nat.add_mul, Nat.one_mul] at h1
  omega

/-- The scan of a directory with a positive block size by a searching visitor. -/
theorem ForEachEntryNonBlocking_search {σ : Type} (dir : CDirectory)
    (hbs : 0 < dir.blocksize) (f : Visitor σ) (p : DIRENTRY → Bool) (st : σ)
    (h : Searches f p st) :
    dir.ForEachEntryNonBlocking f st =
      match firstSlot p dir.blocksize dir.dirnode.data with
      | none =>
        ⟨if dir.dirnode.size % dir.blocksize = 0 then Status.returned
          else Status.assertFailed, dir.dirnode, st,
          fullReads dir.blocksize 0 (dir.dirnode.size / dir.blocksize)
            ++ [IOEvent.read (dir.dirnode.size / dir.blocksize * dir.blocksize) dir.blocksize
                  (dir.dirnode.size % dir.blocksize)]⟩
      | some off =>
        stopOutcome f st dir.dirnode dir.blocksize
          (fullReads dir.blocksize 0 (off / dir.blocksize + 1)) off := by
  have hlen : dir.dirnode.data.length
      = (0 + dir.dirnode.size / dir.blocksize) * dir.blocksize
        + dir.dirnode.size % dir.blocksize := by
    rw [Nat.zero_add, Nat.mul_comm, Nat.div_add_mod]; rfl
  have key := scanLoop_search dir.blocksize hbs f p st h dir.dirnode
    (dir.dirnode.size / dir.blocksize) 0 (dir.dirnode.size / dir.blocksize + 1) []
    (dir.dirnode.size % dir.blocksize) hlen (Nat.mod_lt _ hbs) (Nat.le_refl _)
  rw [Nat.zero_mul] at key
  unfold CDirectory.ForEachEntryNonBlocking firstSlot
  rw [key, slotOffsets_eq]
  simp only [List.nil_append, Nat.zero_add, Nat.sub_zero]
  rfl

/-- With block size zero the loop of the scan never ends: every read returns zero bytes,
which is a full block, and no amount of fuel is enough. -/
theorem scanLoop_zero {σ : Type} (f : Visitor σ) :
    ∀ fuel (node : INODE) (ofs : Nat) (st : σ) (io : List IOEvent),
      (scanLoop 0 f fuel node ofs st io).status = Status.outOfFuel := by
  intro fuel
  induction fuel with
  | zero => intro node ofs st io; rfl
  | succ fuel ih =>
    intro node ofs st io
    unfold scanLoop
    simp only [INODE.ReadInternal, List.take_zero, List.length_nil, true_or, if_true,
      Nat.zero_div, forEntries, Nat.add_zero]
    exact ih _ _ _ _

/-- The scan of a directory with block size zero, as the model has it: out of fuel after
the first read. -/
theorem ForEachEntryNonBlocking_zero {σ : Type} (dir : CDirectory)
    (hbs : dir.blocksize = 0) (f : Visitor σ) (st : σ) :
    dir.ForEachEntryNonBlocking f st
      = ⟨Status.outOfFuel, dir.dirnode, st, [IOEvent.read 0 0 0]⟩ := by
  unfold CDirectory.ForEachEntryNonBlocking
  rw [hbs, Nat.div_zero, Nat.zero_add]
  simp [scanLoop, INODE.ReadInternal, forEntries]

/-- With a positive block size the fuel of the scan is never used up, whatever the visitor
does: the scan returns or stops at its `assert`. -/
theorem scanLoop_fuel {σ : Type} (blocksize : Nat) (hbs : 0 < blocksize) (f : Visitor σ) :
    ∀ fuel (node : INODE) (ofs : Nat) (st : σ) (io : List IOEvent),
      (node.data.length - ofs) / blocksize + 1 ≤ fuel →
      (scanLoop blocksize f fuel node ofs st io).status ≠ Status.outOfFuel := by
  intro fuel
  induction fuel with
  | zero => intro node ofs st io h; exact absurd h (Nat.not_succ_le_zero _)
  | succ fuel ih =>
    intro node ofs st io h
    have hread : (node.ReadInternal ofs blocksize).length
        = min blocksize (node.data.length - ofs) := by
      unfold INODE.ReadInternal
      rw [List.length_take, List.length_drop]
    unfold scanLoop
    simp only
    split
    · rcases hfe : forEntries f ((node.ReadInternal ofs blocksize).length / sizeofDIRENTRY) 0
        (node.ReadInternal ofs blocksize) st with ⟨r, buf1, st1⟩
      cases r with
      | QUIT => simp
      | WRITEANDQUIT => simp
      | OK =>
        simp only
        split
        · rename_i hfull
          apply ih
          rw [hfull]
          have hge : blocksize ≤ node.data.length - ofs := by
            rw [hread] at hfull; omega
          have hdiv : (node.data.length - ofs) / blocksize
              = (node.data.length - ofs - blocksize) / blocksize + 1 := by
            rw [Nat.div_eq_sub_div hbs hge]
          have : node.data.length - (ofs + blocksize) = node.data.length - ofs - blocksize := by
            omega
          rw [this]
          omega
        · simp
    · simp

/-- With a positive block size every scan returns or stops at its `assert`. -/
theorem ForEachEntryNonBlocking_ends {σ : Type} (dir : CDirectory) (hbs : 0 < dir.blocksize)
    (f : Visitor σ) (st : σ) :
    (dir.ForEachEntryNonBlocking f st).status ≠ Status.outOfFuel := by
  unfold CDirectory.ForEachEntryNonBlocking
  apply scanLoop_fuel dir.blocksize hbs
  rw [Nat.sub_zero]
  exact Nat.le_refl _

/-! ## Storage order -/

/-- The slots of a node do not overlap, and the list of their offsets is increasing. -/
theorem slotOffsets_pairwise (blocksize size : Nat) :
    (slotOffsets blocksize size).Pairwise fun a b => a + sizeofDIRENTRY ≤ b := by
  unfold slotOffsets
  rw [List.pairwise_flatMap]
  constructor
  · intro b _
    unfold blockSlots
    rw [List.pairwise_map]
    refine (List.pairwise_lt_range _).imp ?_
    intro j j' hj
    have : (j + 1) * sizeofDIRENTRY ≤ j' * sizeofDIRENTRY := Nat.mul_le_mul_right _ hj
    rw [Nat.add_mul, Nat.one_mul] at this
    omega
  · refine (List.pairwise_lt_range _).imp ?_
    intro b b' hb x hx y hy
    have h1 := mem_blockSlots hx
    have h2 := mem_blockSlots hy
    have : (b + 1) * blocksize ≤ b' * blocksize := Nat.mul_le_mul_right _ hb
    rw [Nat.add_mul, Nat.one_mul] at this
    omega

theorem find?_eq_some_of_increasing {l : List Nat} (hl : l.Pairwise (· < ·))
    (q : Nat → Bool) (x : Nat) :
    l.find? q = some x ↔ x ∈ l ∧ q x = true ∧ ∀ y ∈ l, y < x → q y = false := by
  induction l with
  | nil => simp
  | cons a l ih =>
    rw [List.pairwise_cons] at hl
    rw [List.find?_cons]
    cases hq : q a with
    | true =>
      simp only [Option.some.injEq]
      constructor
      · rintro rfl
        refine ⟨List.mem_cons_self _ _, hq, ?_⟩
        intro y hy hlt
        rcases List.mem_cons.1 hy with rfl | hy
        · exact absurd hlt (Nat.lt_irrefl _)
        · exact absurd (hl.1 y hy) (by omega)
      · rintro ⟨hx, _, hall⟩
        rcases List.mem_cons.1 hx with rfl | hx
        · rfl
        · have := hall a (List.mem_cons_self _ _) (hl.1 x hx)
          rw [hq] at this
          exact absurd this (by decide)
    | false =>
      simp only
      rw [ih hl.2]
      constructor
      · rintro ⟨hx, hqx, hall⟩
        refine ⟨List.mem_cons_of_mem _ hx, hqx, ?_⟩
        intro y hy hlt
        rcases List.mem_cons.1 hy with rfl | hy
        · exact hq
        · exact hall y hy hlt
      · rintro ⟨hx, hqx, hall⟩
        rcases List.mem_cons.1 hx with rfl | hx
        · rw [hq] at hqx; exact absurd hqx (by decide)
        · exact ⟨hx, hqx, fun y hy hlt => hall y (List.mem_cons_of_mem _ hy) hlt⟩

/-- Two different slots of a node have no byte in common. -/
theorem slots_disjoint {blocksize size o off : Nat} (ho : o ∈ slotOffsets blocksize size)
    (hoff : off ∈ slotOffsets blocksize size) (hne : o ≠ off) :
    o + sizeofDIRENTRY ≤ off ∨ off + sizeofDIRENTRY ≤ o := by
  have hpw : (slotOffsets blocksize size).Pairwise
      fun a b => a + sizeofDIRENTRY ≤ b ∨ b + sizeofDIRENTRY ≤ a :=
    (slotOffsets_pairwise blocksize size).imp fun h => Or.inl h
  exact hpw.forall (fun a b h => h.symm) ho hoff hne

/-- What `firstSlot` finds: a slot whose record satisfies `p` while the record of no slot at a
smaller offset does. -/
theorem firstSlot_eq_some_iff (p : DIRENTRY → Bool) (blocksize : Nat) (data : List Nat)
    (off : Nat) :
    firstSlot p blocksize data = some off ↔
      off ∈ slotOffsets blocksize data.length ∧ p (entryAt data off) = true
        ∧ ∀ o ∈ slotOffsets blocksize data.length, o < off → p (entryAt data o) = false := by
  unfold firstSlot
  refine find?_eq_some_of_increasing ?_ (fun off => p (entryAt data off)) off
  refine (slotOffsets_pairwise blocksize data.length).imp ?_
  intro a b hab
  have : 0 < sizeofDIRENTRY := by decide
  omega

/-- When some slot has a record that satisfies `p`, `firstSlot` finds one. -/
theorem firstSlot_of_exists (p : DIRENTRY → Bool) (blocksize : Nat) (data : List Nat)
    (h : ∃ o ∈ slotOffsets blocksize data.length, p (entryAt data o) = true) :
    ∃ off, firstSlot p blocksize data = some off := by
  obtain ⟨o, ho, hp⟩ := h
  cases hfs : firstSlot p blocksize data with
  | some off => exact ⟨off, rfl⟩
  | none =>
    unfold firstSlot at hfs
    rw [List.find?_eq_none] at hfs
    exact absurd hp (hfs o ho)

/-- When `firstSlot` finds nothing: the record of no slot satisfies `p`. -/
theorem firstSlot_eq_none_iff (p : DIRENTRY → Bool) (blocksize : Nat) (data : List Nat) :
    firstSlot p blocksize data = none ↔
      ∀ o ∈ slotOffsets blocksize data.length, p (entryAt data o) = false := by
  unfold firstSlot
  rw [List.find?_eq_none]
  simp

/-! ## Fields of a record -/

theorem length_bytesOfInt32 (v : Int) : (bytesOfInt32 v).length = 4 := rfl

theorem int32OfBytes_bytesOfInt32 (v : Int) (h1 : -2147483648 ≤ v) (h2 : v < 2147483648) :
    int32OfBytes (bytesOfInt32 v) = v := by
  unfold int32OfBytes bytesOfInt32
  simp only [List.getD_cons_zero, List.getD_cons_succ]
  split <;> omega

theorem setId_eq_putAt (de : DIRENTRY) (v : Int) :
    DIRENTRY.setId de v = putAt de NAMELEN (bytesOfInt32 v) := rfl

theorem length_setId (de : DIRENTRY) (v : Int) (h : NAMELEN + 4 ≤ de.length) :
    (DIRENTRY.setId de v).length = de.length := by
  rw [setId_eq_putAt]
  exact length_putAt _ _ _ (by rw [length_bytesOfInt32]; exact h)

theorem id_setId (de : DIRENTRY) (v : Int) (h : NAMELEN ≤ de.length) :
    DIRENTRY.id (DIRENTRY.setId de v) = int32OfBytes (bytesOfInt32 v) := by
  unfold DIRENTRY.id DIRENTRY.setId
  have hl : (List.take NAMELEN de).length = NAMELEN := by
    rw [List.length_take]; omega
  rw [List.append_assoc, List.drop_left' hl,
    List.take_left' (length_bytesOfInt32 v)]

theorem id_setId_INVALIDID (de : DIRENTRY) (h : NAMELEN ≤ de.length) :
    DIRENTRY.id (DIRENTRY.setId de INVALIDID) = INVALIDID := by
  rw [id_setId de _ h]
  decide

theorem name_setId (de : DIRENTRY) (v : Int) (h : NAMELEN ≤ de.length) :
    DIRENTRY.name (DIRENTRY.setId de v) = DIRENTRY.name de := by
  unfold DIRENTRY.name DIRENTRY.setId
  have hl : (List.take NAMELEN de).length = NAMELEN := by
    rw [List.length_take]; omega
  rw [List.append_assoc, List.take_left' hl]

theorem memcpy_whole (dst src : List Nat) (n : Nat) (hs : src.length = n)
    (hd : dst.length ≤ n) : memcpy dst src n = src := by
  unfold memcpy
  rw [List.take_of_length_le (by omega), List.drop_of_length_le hd, List.append_nil]

/-! ## The visitors search -/

theorem findVisitor_searches (s : List Nat) (e : DIRENTRY) :
    Searches (findVisitor s) (matchesName s) e := by
  constructor
  · intro de hp
    unfold findVisitor
    by_cases h1 : DIRENTRY.id de = INVALIDID
    · simp [h1]
    · simp [matchesName, isTombstone, h1] at hp
      simp [h1, hp]
  · intro de hp
    unfold findVisitor
    simp [matchesName, isTombstone] at hp
    simp [hp.1, hp.2]

theorem removeVisitor_searches (s : List Nat) (e : DIRENTRY) :
    Searches (removeVisitor s) (matchesName s) e := by
  constructor
  · intro de hp
    unfold removeVisitor
    by_cases h1 : DIRENTRY.id de = INVALIDID
    · simp [h1]
    · simp [matchesName, isTombstone, h1] at hp
      simp [h1, hp]
  · intro de hp
    unfold removeVisitor
    simp [matchesName, isTombstone] at hp
    simp [hp.1, hp.2]

theorem isEmptyVisitor_searches (empty : Bool) :
    Searches isEmptyVisitor (fun de => !isTombstone de) empty := by
  constructor
  · intro de hp
    unfold isEmptyVisitor
    simp [isTombstone] at hp
    simp [hp]
  · intro de hp
    unfold isEmptyVisitor
    simp [isTombstone] at hp
    simp [hp]

theorem addVisitor_searches (denew : DIRENTRY) (written : Bool) :
    Searches (addVisitor denew) isTombstone written := by
  constructor
  · intro de hp
    unfold addVisitor
    simp [isTombstone] at hp
    simp [hp]
  · intro de hp
    unfold addVisitor
    simp [isTombstone] at hp
    simp [hp]

/-! ## The end of a scan -/

theorem stopOutcome_quit {σ : Type} (f : Visitor σ) (st : σ) (node : INODE)
    (blocksize : Nat) (io : List IOEvent) (off : Nat) (de1 : DIRENTRY) (st1 : σ)
    (hf : f st (entryAt node.data off) = (FOREACHENTRYRET.QUIT, de1, st1)) :
    stopOutcome f st node blocksize io off = ⟨Status.returned, node, st1, io⟩ := by
  unfold stopOutcome
  simp [hf]

theorem stopOutcome_write {σ : Type} (f : Visitor σ) (st : σ) (node : INODE)
    (blocksize : Nat) (io : List IOEvent) (off : Nat) (de1 : DIRENTRY) (st1 : σ)
    (hoff : off ∈ slotOffsets blocksize node.data.length)
    (hf : f st (entryAt node.data off) = (FOREACHENTRYRET.WRITEANDQUIT, de1, st1))
    (hlen : de1.length = sizeofDIRENTRY) :
    stopOutcome f st node blocksize io off =
      ⟨Status.returned, { node with data := putAt node.data off de1 }, st1,
        io ++ [IOEvent.write (off / blocksize * blocksize) blocksize
          (putAt (node.ReadInternal (off / blocksize * blocksize) blocksize)
            (off - off / blocksize * blocksize) de1)]⟩ := by
  obtain ⟨h1, h2, h3⟩ := mem_slotOffsets hoff
  have hblock : (node.ReadInternal (off / blocksize * blocksize) blocksize).length
      = blocksize := by
    unfold INODE.ReadInternal
    rw [List.length_take, List.length_drop]
    omega
  have hbuf : (putAt (node.ReadInternal (off / blocksize * blocksize) blocksize)
      (off - off / blocksize * blocksize) de1).length = blocksize := by
    rw [length_putAt _ _ _ (by rw [hblock, hlen]; omega), hblock]
  have hdata : node.data.take (off / blocksize * blocksize)
      ++ List.replicate (off / blocksize * blocksize - node.data.length) 0
      ++ putAt (node.ReadInternal (off / blocksize * blocksize) blocksize)
          (off - off / blocksize * blocksize) de1
      ++ node.data.drop (off / blocksize * blocksize + blocksize)
      = putAt node.data off de1 := by
    have hz : off / blocksize * blocksize - node.data.length = 0 := by omega
    rw [hz, List.replicate_zero, List.append_nil]
    unfold INODE.ReadInternal
    rw [putAt_block node.data _ blocksize _ de1 (by rw [hlen]; omega)]
    congr 1
    omega
  unfold stopOutcome
  simp only [hf, if_true, INODE.WriteInternal]
  rw [List.take_of_length_le (Nat.le_of_eq hbuf), hdata]

/-! ## The operations, in terms of the first slot they stop at -/

theorem findVisitor_match (s : List Nat) (e de : DIRENTRY) (hp : matchesName s de = true)
    (hde : de.length = sizeofDIRENTRY) (he : e.length ≤ sizeofDIRENTRY) :
    findVisitor s e de = (FOREACHENTRYRET.QUIT, de, de) := by
  unfold findVisitor
  simp [matchesName, isTombstone] at hp
  simp [hp.1, hp.2, memcpy_whole e de _ hde he]

theorem removeVisitor_match (s : List Nat) (e de : DIRENTRY) (hp : matchesName s de = true)
    (hde : de.length = sizeofDIRENTRY) (he : e.length ≤ sizeofDIRENTRY) :
    removeVisitor s e de
      = (FOREACHENTRYRET.WRITEANDQUIT, DIRENTRY.setId de INVALIDID, de) := by
  unfold removeVisitor
  simp [matchesName, isTombstone] at hp
  simp [hp.1, hp.2, memcpy_whole e de _ hde he]

theorem length_setId_entry (e : DIRENTRY) (v : Int) (he : e.length = sizeofDIRENTRY) :
    (DIRENTRY.setId e v).length = sizeofDIRENTRY := by
  rw [length_setId e v (by rw [he]; decide), he]

theorem Find_eq (dir : CDirectory) (hbs : 0 < dir.blocksize) (s : List Nat) (e : DIRENTRY)
    (he : e.length = sizeofDIRENTRY) :
    dir.Find s e =
      match firstSlot (matchesName s) dir.blocksize dir.dirnode.data with
      | none => scanThrough dir (DIRENTRY.setId e INVALIDID)
      | some off =>
        ⟨Status.returned, dir.dirnode, entryAt dir.dirnode.data off,
          fullReads dir.blocksize 0 (off / dir.blocksize + 1)⟩ := by
  unfold CDirectory.Find CDirectory.ForEachEntry
  rw [ForEachEntryNonBlocking_search dir hbs _ _ _ (findVisitor_searches s _)]
  cases hfs : firstSlot (matchesName s) dir.blocksize dir.dirnode.data with
  | none => rfl
  | some off =>
    obtain ⟨hmem, hp, _⟩ := (firstSlot_eq_some_iff _ _ _ _).1 hfs
    have hl := length_entryAt dir.dirnode.data off (by have := mem_slotOffsets hmem; omega)
    exact stopOutcome_quit _ _ _ _ _ _ _ _
      (findVisitor_match s _ _ hp hl (Nat.le_of_eq (length_setId_entry e _ he)))

theorem RemoveEntry_eq (dir : CDirectory) (hbs : 0 < dir.blocksize) (s : List Nat)
    (e : DIRENTRY) (he : e.length = sizeofDIRENTRY) :
    dir.RemoveEntry s e =
      match firstSlot (matchesName s) dir.blocksize dir.dirnode.data with
      | none => scanThrough dir (DIRENTRY.setId e INVALIDID)
      | some off =>
        ⟨Status.returned,
          { dir.dirnode with
            data := putAt dir.dirnode.data off
              (DIRENTRY.setId (entryAt dir.dirnode.data off) INVALIDID) },
          entryAt dir.dirnode.data off,
          fullReads dir.blocksize 0 (off / dir.blocksize + 1)
            ++ [blockWrite dir.dirnode dir.blocksize off
                  (DIRENTRY.setId (entryAt dir.dirnode.data off) INVALIDID)]⟩ := by
  unfold CDirectory.RemoveEntry CDirectory.ForEachEntry
  rw [ForEachEntryNonBlocking_search dir hbs _ _ _ (removeVisitor_searches s _)]
  cases hfs : firstSlot (matchesName s) dir.blocksize dir.dirnode.data with
  | none => rfl
  | some off =>
    obtain ⟨hmem, hp, _⟩ := (firstSlot_eq_some_iff _ _ _ _).1 hfs
    have hl := length_entryAt dir.dirnode.data off (by have := mem_slotOffsets hmem; omega)
    exact stopOutcome_write _ _ _ _ _ _ _ _ hmem
      (removeVisitor_match s _ _ hp hl (Nat.le_of_eq (length_setId_entry e _ he)))
      (length_setId_entry _ _ hl)

theorem IsEmpty_eq (dir : CDirectory) (hbs : 0 < dir.blocksize) :
    dir.IsEmpty =
      match firstSlot (fun de => !isTombstone de) dir.blocksize dir.dirnode.data with
      | none => scanThrough dir true
      | some off =>
        ⟨Status.returned, dir.dirnode, false,
          fullReads dir.blocksize 0 (off / dir.blocksize + 1)⟩ := by
  unfold CDirectory.IsEmpty CDirectory.ForEachEntry
  rw [ForEachEntryNonBlocking_search dir hbs _ _ _ (isEmptyVisitor_searches _)]
  cases hfs : firstSlot (fun de => !isTombstone de) dir.blocksize dir.dirnode.data with
  | none => rfl
  | some off =>
    obtain ⟨_, hp, _⟩ := (firstSlot_eq_some_iff _ _ _ _).1 hfs
    refine stopOutcome_quit _ _ _ _ _ _ (entryAt dir.dirnode.data off) _ ?_
    unfold isEmptyVisitor
    simp [isTombstone] at hp
    simp [hp]

theorem AddEntry_reuse (dir : CDirectory) (hbs : 0 < dir.blocksize) (denew : DIRENTRY)
    (hnew : denew.length = sizeofDIRENTRY) (off : Nat)
    (hfs : firstSlot isTombstone dir.blocksize dir.dirnode.data = some off) :
    dir.AddEntry denew =
      ⟨Status.returned, { dir.dirnode with data := putAt dir.dirnode.data off denew }, true,
        fullReads dir.blocksize 0 (off / dir.blocksize + 1)
          ++ [blockWrite dir.dirnode dir.blocksize off denew]⟩ := by
  obtain ⟨hmem, hp, _⟩ := (firstSlot_eq_some_iff _ _ _ _).1 hfs
  have hl := length_entryAt dir.dirnode.data off (by have := mem_slotOffsets hmem; omega)
  have hv : addVisitor denew false (entryAt dir.dirnode.data off)
      = (FOREACHENTRYRET.WRITEANDQUIT, denew, true) := by
    unfold addVisitor
    simp [isTombstone] at hp
    simp [hp, memcpy_whole _ denew _ hnew (Nat.le_of_eq hl)]
  unfold CDirectory.AddEntry
  rw [ForEachEntryNonBlocking_search dir hbs _ _ _ (addVisitor_searches denew _), hfs]
  simp only
  rw [stopOutcome_write _ _ _ _ _ _ _ _ hmem hv hnew]
  simp [blockWrite]

theorem AddEntry_append (dir : CDirectory) (hbs : 0 < dir.blocksize)
    (hrec : sizeofDIRENTRY ≤ dir.blocksize) (denew : DIRENTRY)
    (hfs : firstSlot isTombstone dir.blocksize dir.dirnode.data = none)
    (hwhole : dir.dirnode.size % dir.blocksize = 0) :
    dir.AddEntry denew =
      ⟨Status.returned,
        dir.dirnode.WriteInternal (memcpy (memset 0xFF dir.blocksize) denew sizeofDIRENTRY)
          dir.dirnode.size dir.blocksize,
        false,
        (scanThrough dir false).io
          ++ [IOEvent.write dir.dirnode.size dir.blocksize
                ((memcpy (memset 0xFF dir.blocksize) denew sizeofDIRENTRY).take
                  dir.blocksize)]⟩ := by
  unfold CDirectory.AddEntry
  rw [ForEachEntryNonBlocking_search dir hbs _ _ _ (addVisitor_searches denew _), hfs]
  simp [scanThrough, hwhole, Nat.not_lt.2 hrec]

theorem AddEntry_assert (dir : CDirectory) (hbs : 0 < dir.blocksize) (denew : DIRENTRY)
    (hfs : firstSlot isTombstone dir.blocksize dir.dirnode.data = none)
    (hwhole : dir.dirnode.size % dir.blocksize ≠ 0) :
    dir.AddEntry denew = scanThrough dir false := by
  unfold CDirectory.AddEntry
  rw [ForEachEntryNonBlocking_search dir hbs _ _ _ (addVisitor_searches denew _), hfs]
  simp [scanThrough, hwhole]

/-! ## Bytes of a buffer after an overwrite -/

theorem getElem?_putAt (buf : List Nat) (pos : Nat) (src : List Nat) (i : Nat)
    (h : pos + src.length ≤ buf.length) :
    (putAt buf pos src)[i]? =
      if i < pos then buf[i]? else if i < pos + src.length then src[i - pos]? else buf[i]? := by
  unfold putAt
  have hl : (List.take pos buf).length = pos := by rw [List.length_take]; omega
  rw [List.append_assoc, List.getElem?_append, hl]
  by_cases h1 : i < pos
  · simp only [h1, if_true]
    rw [List.getElem?_take_of_lt h1]
  · simp only [h1, if_false]
    rw [List.getElem?_append]
    by_cases h2 : i < pos + src.length
    · have h3 : i - pos < src.length := by omega
      simp only [h2, h3, if_true]
    · have h3 : ¬ (i - pos < src.length) := by omega
      simp only [h2, h3, if_false]
      rw [List.getElem?_drop]
      congr 1
      omega

theorem getElem?_entryAt (buf : List Nat) (pos i : Nat) :
    (entryAt buf pos)[i]? = if i < sizeofDIRENTRY then buf[pos + i]? else none := by
  unfold entryAt
  rw [List.getElem?_take, List.getElem?_drop]

theorem entryAt_putAt_same (buf : List Nat) (pos : Nat) (de : DIRENTRY)
    (hde : de.length = sizeofDIRENTRY) (h : pos + sizeofDIRENTRY ≤ buf.length) :
    entryAt (putAt buf pos de) pos = de := by
  apply List.ext_getElem?
  intro i
  rw [getElem?_entryAt, getElem?_putAt _ _ _ _ (by omega)]
  by_cases h1 : i < sizeofDIRENTRY
  · have h2 : ¬ (pos + i < pos) := by omega
    have h3 : pos + i < pos + de.length := by omega
    simp only [h1, h2, h3, if_true, if_false]
    congr 1
    omega
  · simp only [h1, if_false]
    rw [List.getElem?_eq_none (by omega)]

theorem entryAt_putAt_other (buf : List Nat) (pos : Nat) (src : List Nat) (o : Nat)
    (h : pos + src.length ≤ buf.length)
    (ho : o + sizeofDIRENTRY ≤ pos ∨ pos + src.length ≤ o) :
    entryAt (putAt buf pos src) o = entryAt buf o := by
  apply List.ext_getElem?
  intro i
  rw [getElem?_entryAt, getElem?_entryAt, getElem?_putAt _ _ _ _ h]
  by_cases h1 : i < sizeofDIRENTRY
  · simp only [h1, if_true]
    rcases ho with ho | ho
    · have h2 : o + i < pos := by omega
      simp only [h2, if_true]
    · have h2 : ¬ (o + i < pos) := by omega
      have h3 : ¬ (o + i < pos + src.length) := by omega
      simp only [h2, h3, if_false]
  · simp only [h1, if_false]

/-- Assigning the id of the record in a slot changes the four bytes of the id field. -/
theorem putAt_setId (data : List Nat) (off : Nat) (v : Int)
    (h : off + sizeofDIRENTRY ≤ data.length) :
    putAt data off (DIRENTRY.setId (entryAt data off) v)
      = putAt data (off + NAMELEN) (bytesOfInt32 v) := by
  have hl := length_entryAt data off h
  have hs : (DIRENTRY.setId (entryAt data off) v).length = sizeofDIRENTRY :=
    length_setId_entry _ _ hl
  have hb : NAMELEN + (bytesOfInt32 v).length ≤ sizeofDIRENTRY := by
    rw [length_bytesOfInt32]; decide
  have key := putAt_block data off sizeofDIRENTRY NAMELEN (bytesOfInt32 v) hb
  rw [← key, setId_eq_putAt]
  unfold entryAt at hl ⊢
  have hlen : (putAt (List.take sizeofDIRENTRY (List.drop off data)) NAMELEN
      (bytesOfInt32 v)).length = sizeofDIRENTRY := by
    rw [length_putAt _ _ _ (by rw [hl]; exact hb), hl]
  show List.take off data ++ _ ++ List.drop (off + _) data = _
  rw [hlen]

theorem firstSlot_zero (p : DIRENTRY → Bool) (data : List Nat) : firstSlot p 0 data = none := by
  simp [firstSlot, slotOffsets]

theorem fullReads_no_write (blocksize b n : Nat) :
    ∀ ev ∈ fullReads blocksize b n, ev.isWrite = false := by
  intro ev hev
  unfold fullReads at hev
  rw [List.mem_map] at hev
  obtain ⟨i, _, rfl⟩ := hev
  rfl

theorem scanThrough_no_write {σ : Type} (dir : CDirectory) (st : σ) :
    ∀ ev ∈ (scanThrough dir st).io, ev.isWrite = false := by
  intro ev hev
  unfold scanThrough at hev
  simp only [List.mem_append, List.mem_singleton] at hev
  rcases hev with hev | rfl
  · exact fullReads_no_write _ _ _ ev hev
  · rfl

theorem scanThrough_returned_iff {σ : Type} (dir : CDirectory) (hbs : 0 < dir.blocksize)
    (st : σ) : (scanThrough dir st).status = Status.returned ↔ dir.WholeBlocks := by
  unfold scanThrough CDirectory.WholeBlocks
  rw [Nat.dvd_iff_mod_eq_zero]
  by_cases h : dir.dirnode.size % dir.blocksize = 0
  · simp [h, hbs]
  · simp [h]

theorem id_of_matchesName (s : List Nat) (de : DIRENTRY) (h : matchesName s de = true) :
    DIRENTRY.id de ≠ INVALIDID := by
  simp [matchesName, isTombstone] at h
  exact h.1

/-! ## Lookup and removal -/

theorem firstSlot_pos {p : DIRENTRY → Bool} {blocksize : Nat} {data : List Nat} {off : Nat}
    (h : firstSlot p blocksize data = some off) : 0 < blocksize := by
  rcases Nat.eq_zero_or_pos blocksize with hz | hpos
  · rw [hz, firstSlot_zero] at h; cases h
  · exact hpos

/-- A lookup that finds a live record with a matching name. -/
theorem Find_found (dir : CDirectory) (s : List Nat) (e : DIRENTRY)
    (he : e.length = sizeofDIRENTRY) (off : Nat)
    (hfs : firstSlot (matchesName s) dir.blocksize dir.dirnode.data = some off) :
    dir.Find s e = ⟨Status.returned, dir.dirnode, entryAt dir.dirnode.data off,
      fullReads dir.blocksize 0 (off / dir.blocksize + 1)⟩ := by
  rw [Find_eq dir (firstSlot_pos hfs) s e he, hfs]

/-- A lookup that finds no live record with a matching name. -/
theorem Find_not_found (dir : CDirectory) (s : List Nat) (e : DIRENTRY)
    (he : e.length = sizeofDIRENTRY)
    (hfs : firstSlot (matchesName s) dir.blocksize dir.dirnode.data = none) :
    (dir.Find s e).node = dir.dirnode ∧
    (dir.Find s e).st = DIRENTRY.setId e INVALIDID ∧
    ((dir.Find s e).status = Status.returned ↔ dir.WholeBlocks) := by
  by_cases hbs : 0 < dir.blocksize
  · rw [Find_eq dir hbs s e he, hfs]
    exact ⟨rfl, rfl, scanThrough_returned_iff dir hbs _⟩
  · have hz : dir.blocksize = 0 := by omega
    have hf : dir.Find s e
        = ⟨Status.outOfFuel, dir.dirnode, DIRENTRY.setId e INVALIDID, [IOEvent.read 0 0 0]⟩ :=
      ForEachEntryNonBlocking_zero dir hz _ _
    rw [hf]
    refine ⟨rfl, rfl, ?_⟩
    constructor
    · intro h; cases h
    · intro h; exact absurd h.1 hbs

/-- A removal that finds a live record with a matching name: the call returns the record,
the size of the node is the same, the slot is a tombstone afterwards and the record of
every other slot is the same. -/
theorem RemoveEntry_found (dir : CDirectory) (name : List Nat) (e : DIRENTRY)
    (he : e.length = sizeofDIRENTRY) (off : Nat)
    (hfs : firstSlot (matchesName name) dir.blocksize dir.dirnode.data = some off) :
    (dir.RemoveEntry name e).status = Status.returned ∧
    (dir.RemoveEntry name e).st = entryAt dir.dirnode.data off ∧
    (dir.RemoveEntry name e).node.data.length = dir.dirnode.data.length ∧
    DIRENTRY.id (entryAt (dir.RemoveEntry name e).node.data off) = INVALIDID ∧
    (∀ o ∈ slotOffsets dir.blocksize dir.dirnode.data.length, o ≠ off →
      entryAt (dir.RemoveEntry name e).node.data o = entryAt dir.dirnode.data o) := by
  obtain ⟨hmem, _, _⟩ := (firstSlot_eq_some_iff _ _ _ _).1 hfs
  have hbound : off + sizeofDIRENTRY ≤ dir.dirnode.data.length := by
    have := mem_slotOffsets hmem; omega
  have hl := length_entryAt dir.dirnode.data off hbound
  have hsl : (DIRENTRY.setId (entryAt dir.dirnode.data off) INVALIDID).length
      = sizeofDIRENTRY := length_setId_entry _ _ hl
  rw [RemoveEntry_eq dir (firstSlot_pos hfs) name e he, hfs]
  refine ⟨rfl, rfl, ?_, ?_, ?_⟩
  · show (putAt _ _ _).length = _
    rw [length_putAt _ _ _ (by rw [hsl]; exact hbound)]
  · show DIRENTRY.id (entryAt (putAt _ _ _) off) = _
    rw [entryAt_putAt_same _ _ _ hsl hbound]
    exact id_setId_INVALIDID _ (by rw [hl]; decide)
  · intro o ho hne
    refine entryAt_putAt_other _ _ _ _ (by rw [hsl]; exact hbound) ?_
    rw [hsl]
    exact slots_disjoint ho hmem hne

/-- C2. `Find(s, e)` never changes the node.  If some live record has a name matching `s`,
the call returns and `e` is a byte-for-byte copy of the record of the first such slot in
storage order, whose id is not `INVALIDID`.  If there is none, `e` keeps its bytes apart
from its id, which is `INVALIDID`, and the call returns exactly when the node is made of
whole blocks.  So `e.id` is `INVALIDID` exactly when no such record exists. -/
theorem Find_characterisation (dir : CDirectory) (s : List Nat) (e : DIRENTRY)
    (he : e.length = sizeofDIRENTRY) :
    (dir.Find s e).node = dir.dirnode ∧
    (∀ off, firstSlot (matchesName s) dir.blocksize dir.dirnode.data = some off →
      (dir.Find s e).status = Status.returned ∧
      (dir.Find s e).st = entryAt dir.dirnode.data off ∧
      DIRENTRY.id (dir.Find s e).st ≠ INVALIDID) ∧
    (firstSlot (matchesName s) dir.blocksize dir.dirnode.data = none →
      (dir.Find s e).st = DIRENTRY.setId e INVALIDID ∧
      ((dir.Find s e).status = Status.returned ↔ dir.WholeBlocks)) ∧
    (DIRENTRY.id (dir.Find s e).st = INVALIDID ↔
      firstSlot (matchesName s) dir.blocksize dir.dirnode.data = none) := by
  have hid : DIRENTRY.id (DIRENTRY.setId e INVALIDID) = INVALIDID :=
    id_setId_INVALIDID e (by rw [he]; decide)
  cases hfs : firstSlot (matchesName s) dir.blocksize dir.dirnode.data with
  | none =>
    obtain ⟨hnode, hst, hret⟩ := Find_not_found dir s e he hfs
    refine ⟨hnode, fun off h => (by cases h), fun _ => ⟨hst, hret⟩, ?_⟩
    rw [hst]
    exact ⟨fun _ => rfl, fun _ => hid⟩
  | some off =>
    have hfound := Find_found dir s e he off hfs
    have hne : DIRENTRY.id (entryAt dir.dirnode.data off) ≠ INVALIDID :=
      id_of_matchesName s _ ((firstSlot_eq_some_iff _ _ _ _).1 hfs).2.1
    rw [hfound]
    refine ⟨rfl, ?_, fun h => (by cases h), ?_⟩
    · intro off1 h1
      cases h1
      exact ⟨rfl, rfl, hne⟩
    · exact ⟨fun h => absurd h hne, fun h => (by cases h)⟩

set_option maxRecDepth 100000 in
/-- C2, on the example directory: looking for `a`, the tombstone in slot 0 is passed over
and the entry of slot 1 is returned; looking for the empty name, which the name bytes of
the tombstone in slot 0 match, nothing is returned. -/
theorem Find_characterisation_witness :
    (mkEntry [] 0).length = sizeofDIRENTRY ∧
    firstSlot (matchesName [97]) exDir.blocksize exDir.dirnode.data = some 104 ∧
    ((exDir.Find [97] (mkEntry [] 0)).status = Status.returned ∧
      (exDir.Find [97] (mkEntry [] 0)).st = entryAt exDir.dirnode.data 104 ∧
      DIRENTRY.id (exDir.Find [97] (mkEntry [] 0)).st ≠ INVALIDID) ∧
    strncmp (DIRENTRY.name (entryAt exDir.dirnode.data 0)) (c_str []) (64 + 32) = 0 ∧
    DIRENTRY.id (exDir.Find [] (mkEntry [] 0)).st = INVALIDID :=
  ⟨by decide, by decide,
    (Find_characterisation exDir [97] (mkEntry [] 0) (by decide)).2.1 104 (by decide),
    by decide,
    (Find_characterisation exDir [] (mkEntry [] 0) (by decide)).2.2.2.2 (by decide)⟩

/-- C3. `RemoveEntry` of a name that no live record matches changes nothing: the node is as
before (its size and every byte), no call made to the node is a write, and the output
entry has id `INVALIDID`.  The call returns exactly when the node is made of whole
blocks. -/
theorem RemoveEntry_absent (dir : CDirectory) (name : List Nat) (e : DIRENTRY)
    (he : e.length = sizeofDIRENTRY)
    (habs : ∀ o ∈ slotOffsets dir.blocksize dir.dirnode.size,
      matchesName name (entryAt dir.dirnode.data o) = false) :
    (dir.RemoveEntry name e).node = dir.dirnode ∧
    (∀ ev ∈ (dir.RemoveEntry name e).io, ev.isWrite = false) ∧
    DIRENTRY.id (dir.RemoveEntry name e).st = INVALIDID ∧
    ((dir.RemoveEntry name e).status = Status.returned ↔ dir.WholeBlocks) := by
  have hid : DIRENTRY.id (DIRENTRY.setId e INVALIDID) = INVALIDID :=
    id_setId_INVALIDID e (by rw [he]; decide)
  have hnone : firstSlot (matchesName name) dir.blocksize dir.dirnode.data = none :=
    (firstSlot_eq_none_iff _ _ _).2 habs
  by_cases hbs : 0 < dir.blocksize
  · rw [RemoveEntry_eq dir hbs name e he, hnone]
    exact ⟨rfl, scanThrough_no_write dir _, hid, scanThrough_returned_iff dir hbs _⟩
  · have hz : dir.blocksize = 0 := by omega
    have hf : dir.RemoveEntry name e
        = ⟨Status.outOfFuel, dir.dirnode, DIRENTRY.setId e INVALIDID, [IOEvent.read 0 0 0]⟩ :=
      ForEachEntryNonBlocking_zero dir hz _ _
    rw [hf]
    refine ⟨rfl, ?_, hid, ?_⟩
    · intro ev hev
      rw [List.mem_singleton] at hev
      rw [hev]; rfl
    · constructor
      · intro h; cases h
      · intro h; exact absurd h.1 hbs

set_option maxRecDepth 100000 in
/-- C3, on the example directory: removing `b`, which is not there. -/
theorem RemoveEntry_absent_witness :
    (mkEntry [] 0).length = sizeofDIRENTRY ∧
    (∀ o ∈ slotOffsets exDir.blocksize exDir.dirnode.size,
      matchesName [98] (entryAt exDir.dirnode.data o) = false) ∧
    exDir.WholeBlocks ∧
    (exDir.RemoveEntry [98] (mkEntry [] 0)).node = exDir.dirnode ∧
    (∀ ev ∈ (exDir.RemoveEntry [98] (mkEntry [] 0)).io, ev.isWrite = false) ∧
    DIRENTRY.id (exDir.RemoveEntry [98] (mkEntry [] 0)).st = INVALIDID ∧
    ((exDir.RemoveEntry [98] (mkEntry [] 0)).status = Status.returned ↔ exDir.WholeBlocks) :=
  ⟨by decide, by decide, by decide,
    RemoveEntry_absent exDir [98] (mkEntry [] 0) (by decide) (by decide)⟩

/-- C4. `RemoveEntry` of a name that some live record matches returns, with the output
entry a copy of the record of the first matching live slot as it was (its id, which is
not `INVALIDID`, and its name).  In the node only the four bytes of that slot's id field
change, to the bytes of `INVALIDID`: the size is the same, the slot now has id `INVALIDID`
and the name it had, the record of every other slot is the same, and so is every byte
outside the id field. -/
theorem RemoveEntry_present (dir : CDirectory) (name : List Nat) (e : DIRENTRY)
    (he : e.length = sizeofDIRENTRY)
    (hex : ∃ o ∈ slotOffsets dir.blocksize dir.dirnode.size,
      matchesName name (entryAt dir.dirnode.data o) = true) :
    ∃ off, firstSlot (matchesName name) dir.blocksize dir.dirnode.data = some off ∧
    (dir.RemoveEntry name e).status = Status.returned ∧
    (dir.RemoveEntry name e).st = entryAt dir.dirnode.data off ∧
    DIRENTRY.id (dir.RemoveEntry name e).st ≠ INVALIDID ∧
    (dir.RemoveEntry name e).node.type = dir.dirnode.type ∧
    (dir.RemoveEntry name e).node.data
      = putAt dir.dirnode.data (off + NAMELEN) (bytesOfInt32 INVALIDID) ∧
    (dir.RemoveEntry name e).node.size = dir.dirnode.size ∧
    DIRENTRY.id (entryAt (dir.RemoveEntry name e).node.data off) = INVALIDID ∧
    DIRENTRY.name (entryAt (dir.RemoveEntry name e).node.data off)
      = DIRENTRY.name (entryAt dir.dirnode.data off) ∧
    (∀ o ∈ slotOffsets dir.blocksize dir.dirnode.size, o ≠ off →
      entryAt (dir.RemoveEntry name e).node.data o = entryAt dir.dirnode.data o) ∧
    (∀ i, i < off + NAMELEN ∨ off + NAMELEN + 4 ≤ i →
      (dir.RemoveEntry name e).node.data[i]? = dir.dirnode.data[i]?) := by
  obtain ⟨off, hfs⟩ := firstSlot_of_exists _ _ _ hex
  refine ⟨off, hfs, ?_⟩
  obtain ⟨hmem, hp, _⟩ := (firstSlot_eq_some_iff _ _ _ _).1 hfs
  have hbound : off + sizeofDIRENTRY ≤ dir.dirnode.data.length := by
    have := mem_slotOffsets hmem; omega
  have hl := length_entryAt dir.dirnode.data off hbound
  have hsl : (DIRENTRY.setId (entryAt dir.dirnode.data off) INVALIDID).length
      = sizeofDIRENTRY := length_setId_entry _ _ hl
  have hput : off + NAMELEN + (bytesOfInt32 INVALIDID).length ≤ dir.dirnode.data.length := by
    rw [length_bytesOfInt32]
    have : NAMELEN + 4 ≤ sizeofDIRENTRY := by decide
    omega
  obtain ⟨f1, f2, f3, f4, f5⟩ := RemoveEntry_found dir name e he off hfs
  have hdata : (dir.RemoveEntry name e).node.data
      = putAt dir.dirnode.data (off + NAMELEN) (bytesOfInt32 INVALIDID) := by
    rw [RemoveEntry_eq dir (firstSlot_pos hfs) name e he, hfs]
    exact putAt_setId _ _ _ hbound
  have htype : (dir.RemoveEntry name e).node.type = dir.dirnode.type := by
    rw [RemoveEntry_eq dir (firstSlot_pos hfs) name e he, hfs]
  refine ⟨f1, f2, ?_, htype, hdata, f3, f4, ?_, f5, ?_⟩
  · rw [f2]; exact id_of_matchesName name _ hp
  · rw [RemoveEntry_eq dir (firstSlot_pos hfs) name e he, hfs]
    show DIRENTRY.name (entryAt (putAt _ _ _) off) = _
    rw [entryAt_putAt_same _ _ _ hsl hbound]
    exact name_setId _ _ (by rw [hl]; decide)
  · intro i hi
    rw [hdata, getElem?_putAt _ _ _ _ hput, length_bytesOfInt32]
    rcases hi with hi | hi
    · simp only [hi, if_true]
    · have h1 : ¬ (i < off + NAMELEN) := by omega
      have h2 : ¬ (i < off + NAMELEN + 4) := by omega
      simp only [h1, h2, if_false]

set_option maxRecDepth 100000 in
/-- C4, on the example directory: removing `a` tombstones slot 1 and nothing else. -/
theorem RemoveEntry_present_witness :
    (mkEntry [] 0).length = sizeofDIRENTRY ∧
    (∃ o ∈ slotOffsets exDir.blocksize exDir.dirnode.size,
      matchesName [97] (entryAt exDir.dirnode.data o) = true) ∧
    ∃ off, firstSlot (matchesName [97]) exDir.blocksize exDir.dirnode.data = some off ∧
      (exDir.RemoveEntry [97] (mkEntry [] 0)).status = Status.returned ∧
      (exDir.RemoveEntry [97] (mkEntry [] 0)).st = entryAt exDir.dirnode.data off ∧
      DIRENTRY.id (exDir.RemoveEntry [97] (mkEntry [] 0)).st ≠ INVALIDID ∧
      (exDir.RemoveEntry [97] (mkEntry [] 0)).node.type = exDir.dirnode.type ∧
      (exDir.RemoveEntry [97] (mkEntry [] 0)).node.data
        = putAt exDir.dirnode.data (off + NAMELEN) (bytesOfInt32 INVALIDID) :=
  ⟨by decide, ⟨104, by decide, by decide⟩,
    (RemoveEntry_present exDir [97] (mkEntry [] 0) (by decide)
      ⟨104, by decide, by decide⟩).imp
      fun _ h => ⟨h.1, h.2.1, h.2.2.1, h.2.2.2.1, h.2.2.2.2.1, h.2.2.2.2.2.1⟩⟩

/-! ## Construction -/

/-- C10. Constructing a `CDirectory` on a node fails with `ENOTDIR` exactly when the type of
the node is not `dir`, and fails in no other way.  On a node of type `dir` it succeeds:
the object holds the block size of the backing store and the node as it was given. -/
theorem CDirectory_new_type_check (node : INODE) (fs : SimpleFilesystem) :
    (CDirectory.new node fs = Except.error Errno.ENOTDIR ↔ node.type ≠ INODETYPE.dir) ∧
    (∀ err, CDirectory.new node fs = Except.error err → err = Errno.ENOTDIR) ∧
    (node.type = INODETYPE.dir ↔
      CDirectory.new node fs = Except.ok { dirnode := node, blocksize := fs.bio.blocksize }) := by
  unfold CDirectory.new
  by_cases h : node.type = INODETYPE.dir
  · simp [h]
  · simp [h]

/-! ## Where the slots are -/

theorem mem_slotOffsets_iff (blocksize size off : Nat) :
    off ∈ slotOffsets blocksize size ↔
      ∃ b j, b < size / blocksize ∧ j < blocksize / sizeofDIRENTRY
        ∧ off = b * blocksize + j * sizeofDIRENTRY := by
  unfold slotOffsets blockSlots
  simp only [List.mem_flatMap, List.mem_map, List.mem_range]
  constructor
  · rintro ⟨b, hb, j, hj, rfl⟩
    exact ⟨b, j, hb, hj, rfl⟩
  · rintro ⟨b, j, hb, hj, rfl⟩
    exact ⟨b, hb, j, hj, rfl⟩

theorem zero_mem_slotOffsets (blocksize size : Nat) (hbs : sizeofDIRENTRY ≤ blocksize)
    (hsize : blocksize ≤ size) : 0 ∈ slotOffsets blocksize size := by
  rw [mem_slotOffsets_iff]
  have hpos : 0 < blocksize := Nat.lt_of_lt_of_le (by decide) hbs
  refine ⟨0, 0, Nat.div_pos hsize hpos, Nat.div_pos hbs (by decide), ?_⟩
  simp

theorem slotOffsets_small (blocksize size : Nat) (h : size < blocksize) :
    slotOffsets blocksize size = [] := by
  unfold slotOffsets
  rw [Nat.div_eq_of_lt h]
  rfl

/-! ## Initialisation -/

theorem length_flatten_replicate (n : Nat) (d : List Nat) :
    (List.replicate n d).flatten.length = n * d.length := by
  induction n with
  | zero => simp
  | succ n ih =>
    rw [List.replicate_succ, List.flatten_cons, List.length_append, ih, Nat.add_mul,
      Nat.one_mul, Nat.add_comm]

theorem entryAt_flatten_replicate (d : DIRENTRY) (hd : d.length = sizeofDIRENTRY)
    (tail : List Nat) :
    ∀ n j, j < n → entryAt ((List.replicate n d).flatten ++ tail) (j * sizeofDIRENTRY) = d := by
  intro n
  induction n with
  | zero => intro j hj; omega
  | succ n ih =>
    intro j hj
    rw [List.replicate_succ, List.flatten_cons, List.append_assoc]
    cases j with
    | zero =>
      unfold entryAt
      rw [Nat.zero_mul, List.drop_zero, List.take_left' hd]
    | succ j =>
      have h := ih j (by omega)
      unfold entryAt at h ⊢
      have hsplit : (j + 1) * sizeofDIRENTRY = d.length + j * sizeofDIRENTRY := by
        rw [Nat.add_mul, Nat.one_mul, hd, Nat.add_comm]
      rw [hsplit, ← List.drop_drop, List.drop_left]
      exact h

theorem length_createBlock (blocksize : Nat) (dflt : DIRENTRY) (mem : Nat → Nat)
    (hd : dflt.length = sizeofDIRENTRY) : (createBlock blocksize dflt mem).length = blocksize := by
  unfold createBlock
  rw [List.length_append, length_flatten_replicate, List.length_map, List.length_range, hd]
  have := Nat.div_mul_le_self blocksize sizeofDIRENTRY
  omega

theorem entryAt_createBlock (blocksize : Nat) (dflt : DIRENTRY) (mem : Nat → Nat)
    (hd : dflt.length = sizeofDIRENTRY) (off : Nat) (hoff : off ∈ blockSlots blocksize 0) :
    entryAt (createBlock blocksize dflt mem) off = dflt := by
  unfold blockSlots at hoff
  rw [List.mem_map] at hoff
  obtain ⟨j, hj, rfl⟩ := hoff
  rw [List.mem_range] at hj
  rw [Nat.zero_mul, Nat.zero_add]
  exact entryAt_flatten_replicate dflt hd _ _ j hj

theorem slotOffsets_one_block (blocksize : Nat) :
    ∀ off ∈ slotOffsets blocksize blocksize, off ∈ blockSlots blocksize 0 := by
  intro off hoff
  rcases Nat.eq_zero_or_pos blocksize with hz | hpos
  · rw [hz] at hoff; simp [slotOffsets] at hoff
  · unfold slotOffsets at hoff
    rw [Nat.div_self hpos] at hoff
    simpa using hoff

/-- The node after `Create`: the block written, then what the node held behind its first
block. -/
theorem Create_data (dir : CDirectory) (dflt : DIRENTRY) (mem : Nat → Nat)
    (hd : dflt.length = sizeofDIRENTRY) :
    (dir.Create dflt mem).node.data
      = createBlock dir.blocksize dflt mem ++ dir.dirnode.data.drop dir.blocksize := by
  have htake : (createBlock dir.blocksize dflt mem).take dir.blocksize
      = createBlock dir.blocksize dflt mem :=
    List.take_of_length_le (Nat.le_of_eq (length_createBlock dir.blocksize dflt mem hd))
  show List.take 0 dir.dirnode.data ++ List.replicate (0 - dir.dirnode.data.length) 0
    ++ (createBlock dir.blocksize dflt mem).take dir.blocksize
    ++ dir.dirnode.data.drop (0 + dir.blocksize) = _
  rw [htake, Nat.zero_sub, Nat.zero_add]
  rfl

/-- After `Create` on a node that held at most one block, the node is one block of
default-constructed records. -/
theorem Create_fresh (dir : CDirectory) (dflt : DIRENTRY) (mem : Nat → Nat)
    (hd : dflt.length = sizeofDIRENTRY) (hfresh : dir.dirnode.size ≤ dir.blocksize) :
    (dir.Create dflt mem).node.data.length = dir.blocksize ∧
    ∀ off ∈ slotOffsets dir.blocksize dir.blocksize,
      entryAt (dir.Create dflt mem).node.data off = dflt := by
  have hdata : (dir.Create dflt mem).node.data = createBlock dir.blocksize dflt mem := by
    rw [Create_data dir dflt mem hd, List.drop_of_length_le hfresh, List.append_nil]
  refine ⟨by rw [hdata, length_createBlock dir.blocksize dflt mem hd], ?_⟩
  intro off hoff
  rw [hdata]
  exact entryAt_createBlock dir.blocksize dflt mem hd off (slotOffsets_one_block _ off hoff)

theorem id_of_all_zero (de : DIRENTRY) (hlen : de.length = sizeofDIRENTRY)
    (hz : ∀ b ∈ de, b = 0) : DIRENTRY.id de = 0 := by
  have h4 : (de.drop NAMELEN).take 4 = List.replicate 4 0 := by
    rw [List.eq_replicate_iff]
    constructor
    · rw [List.length_take, List.length_drop, hlen]; decide
    · intro b hb
      exact hz b (List.mem_of_mem_drop (List.mem_of_mem_take hb))
  unfold DIRENTRY.id
  rw [h4]
  decide

/-- Whatever a default-constructed record is, in blocks that hold a record the block that
`Create` writes is not both all zero and made of tombstones. -/
theorem Create_zero_or_tombstone (dir : CDirectory) (dflt : DIRENTRY) (mem : Nat → Nat)
    (hd : dflt.length = sizeofDIRENTRY) (hbs : sizeofDIRENTRY ≤ dir.blocksize)
    (hfresh : dir.dirnode.size ≤ dir.blocksize) :
    ¬ ((∀ b ∈ (dir.Create dflt mem).node.data, b = 0) ∧
        ∀ off ∈ slotOffsets dir.blocksize (dir.Create dflt mem).node.data.length,
          DIRENTRY.id (entryAt (dir.Create dflt mem).node.data off) = INVALIDID) := by
  rintro ⟨hzero, htomb⟩
  obtain ⟨hsz, hrec⟩ := Create_fresh dir dflt mem hd hfresh
  have h0 : 0 ∈ slotOffsets dir.blocksize dir.blocksize :=
    zero_mem_slotOffsets _ _ hbs (Nat.le_refl _)
  have hid := htomb 0 (by rw [hsz]; exact h0)
  have hdz : ∀ b ∈ dflt, b = 0 := by
    intro b hb
    rw [← hrec 0 h0] at hb
    unfold entryAt at hb
    exact hzero b (List.mem_of_mem_drop (List.mem_of_mem_take hb))
  rw [hrec 0 h0, id_of_all_zero dflt hd hdz] at hid
  exact absurd hid (by decide)

/-- C9, as the code has it.  `Create` makes exactly one write, at offset 0 and of the length
of a block.  The bytes written are `blocksize / sizeof(DIRENTRY)` default-constructed
records followed by the bytes that lie behind the array, and they replace the first block
of the node.  On a node that held at most one block the node afterwards holds exactly
one block, and every record in it is a default-constructed record, so that it reads back
with the id of a default-constructed record. -/
theorem Create_block (dir : CDirectory) (dflt : DIRENTRY) (mem : Nat → Nat)
    (hd : dflt.length = sizeofDIRENTRY) :
    (dir.Create dflt mem).status = Status.returned ∧
    (dir.Create dflt mem).io
      = [IOEvent.write 0 dir.blocksize (createBlock dir.blocksize dflt mem)] ∧
    (createBlock dir.blocksize dflt mem).length = dir.blocksize ∧
    (∀ off ∈ blockSlots dir.blocksize 0, entryAt (createBlock dir.blocksize dflt mem) off = dflt) ∧
    (dir.Create dflt mem).node.data
      = createBlock dir.blocksize dflt mem ++ dir.dirnode.data.drop dir.blocksize ∧
    (dir.dirnode.size ≤ dir.blocksize →
      (dir.Create dflt mem).node.size = dir.blocksize ∧
      ∀ off ∈ slotOffsets dir.blocksize (dir.Create dflt mem).node.size,
        entryAt (dir.Create dflt mem).node.data off = dflt ∧
        DIRENTRY.id (entryAt (dir.Create dflt mem).node.data off) = DIRENTRY.id dflt) := by
  have hlen := length_createBlock dir.blocksize dflt mem hd
  refine ⟨rfl, ?_, hlen, entryAt_createBlock _ _ _ hd, Create_data dir dflt mem hd, ?_⟩
  · show [IOEvent.write 0 dir.blocksize ((createBlock dir.blocksize dflt mem).take dir.blocksize)]
      = _
    rw [List.take_of_length_le (Nat.le_of_eq hlen)]
  · intro hsize
    obtain ⟨hsz, hrec⟩ := Create_fresh dir dflt mem hd hsize
    refine ⟨hsz, ?_⟩
    intro off hoff
    have hoff' : off ∈ slotOffsets dir.blocksize dir.blocksize := by
      have : (dir.Create dflt mem).node.size = dir.blocksize := hsz
      rw [this] at hoff; exact hoff
    rw [hrec off hoff']
    exact ⟨rfl, rfl⟩

set_option maxRecDepth 100000 in
/-- C9, on a new node with blocks of 208 bytes and tombstones as default records. -/
theorem Create_block_witness :
    (mkEntry [] INVALIDID).length = sizeofDIRENTRY ∧
    (exFresh.Create (mkEntry [] INVALIDID) (fun _ => 0)).io
      = [IOEvent.write 0 208 (mkEntry [] INVALIDID ++ mkEntry [] INVALIDID)] ∧
    (exFresh.Create (mkEntry [] INVALIDID) (fun _ => 0)).node.data
      = mkEntry [] INVALIDID ++ mkEntry [] INVALIDID :=
  ⟨by decide,
    (Create_block exFresh (mkEntry [] INVALIDID) (fun _ => 0) (by decide)).2.1,
    (Create_block exFresh (mkEntry [] INVALIDID) (fun _ => 0) (by decide)).2.2.2.2.1⟩

set_option maxRecDepth 100000 in
/-- C9 fails as stated.  On a new node with blocks of 208 bytes: if the default-constructed
record is all zero, the block written is all zero and its records read back with id 0,
which is not `INVALIDID`; if the default-constructed record has id `INVALIDID`, the records
read back as tombstones and the block written is not all zero. -/
theorem Create_zero_block_counterexample :
    ¬ ((∀ ev ∈ (exFresh.Create (List.replicate 104 0) (fun _ => 0)).io, ∀ b ∈ ev.bytes, b = 0) ∧
        ∀ off ∈ slotOffsets 208 (exFresh.Create (List.replicate 104 0) (fun _ => 0)).node.size,
          DIRENTRY.id (entryAt (exFresh.Create (List.replicate 104 0) (fun _ => 0)).node.data off)
            = INVALIDID) ∧
    ¬ ((∀ ev ∈ (exFresh.Create (mkEntry [] INVALIDID) (fun _ => 0)).io, ∀ b ∈ ev.bytes, b = 0) ∧
        ∀ off ∈ slotOffsets 208 (exFresh.Create (mkEntry [] INVALIDID) (fun _ => 0)).node.size,
          DIRENTRY.id (entryAt (exFresh.Create (mkEntry [] INVALIDID) (fun _ => 0)).node.data off)
            = INVALIDID) := by
  decide

/-! ## Growth -/

theorem memcpy_memset (blocksize : Nat) (denew : DIRENTRY)
    (hnew : denew.length = sizeofDIRENTRY) :
    memcpy (memset 0xFF blocksize) denew sizeofDIRENTRY
      = denew ++ List.replicate (blocksize - sizeofDIRENTRY) 0xFF := by
  unfold memcpy memset
  rw [List.take_of_length_le (Nat.le_of_eq hnew), List.drop_replicate]

theorem WriteInternal_at_end (node : INODE) (buf : List Nat) (n : Nat) (hbuf : buf.length = n) :
    (node.WriteInternal buf node.size n).data = node.data ++ buf := by
  unfold INODE.WriteInternal INODE.size
  simp only
  rw [List.take_of_length_le (Nat.le_refl _), Nat.sub_self, List.replicate_zero,
    List.append_nil, List.take_of_length_le (Nat.le_of_eq hbuf),
    List.drop_of_length_le (by omega), List.append_nil]

theorem entryAt_append_left (a b : List Nat) (pos : Nat) (h : pos + sizeofDIRENTRY ≤ a.length) :
    entryAt (a ++ b) pos = entryAt a pos := by
  unfold entryAt
  rw [List.drop_append_of_le_length (by omega),
    List.take_append_of_le_length (by rw [List.length_drop]; omega)]

theorem entryAt_append_right (a b : List Nat) (pos : Nat) :
    entryAt (a ++ b) (a.length + pos) = entryAt b pos := by
  unfold entryAt
  rw [← List.drop_drop, List.drop_left]

/-- An insert that finds no tombstone, in a node of whole blocks that hold a record: the
call returns, and a block that starts with the new entry and goes on with `0xFF` is added
at the end of the node. -/
theorem AddEntry_appended (dir : CDirectory) (denew : DIRENTRY)
    (hnew : denew.length = sizeofDIRENTRY) (hbs : sizeofDIRENTRY ≤ dir.blocksize)
    (hwhole : dir.WholeBlocks)
    (hfull : firstSlot isTombstone dir.blocksize dir.dirnode.data = none) :
    (dir.AddEntry denew).status = Status.returned ∧
    (dir.AddEntry denew).node.data
      = dir.dirnode.data ++ denew ++ List.replicate (dir.blocksize - sizeofDIRENTRY) 0xFF := by
  have hmod : dir.dirnode.size % dir.blocksize = 0 := Nat.mod_eq_zero_of_dvd hwhole.2
  have hbuflen : (denew ++ List.replicate (dir.blocksize - sizeofDIRENTRY) 0xFF).length
      = dir.blocksize := by
    rw [List.length_append, List.length_replicate, hnew]; omega
  rw [AddEntry_append dir hwhole.1 hbs denew hfull hmod,
    memcpy_memset dir.blocksize denew hnew]
  refine ⟨rfl, ?_⟩
  show (dir.dirnode.WriteInternal _ dir.dirnode.size dir.blocksize).data = _
  rw [WriteInternal_at_end _ _ _ hbuflen, List.append_assoc]

/-- The records of a node to which a block that starts with `denew` was appended. -/
theorem entryAt_appended (data : List Nat) (denew : DIRENTRY) (rest : List Nat)
    (hnew : denew.length = sizeofDIRENTRY) :
    entryAt (data ++ denew ++ rest) data.length = denew ∧
    ∀ off, off + sizeofDIRENTRY ≤ data.length →
      entryAt (data ++ denew ++ rest) off = entryAt data off := by
  constructor
  · have := entryAt_append_right data (denew ++ rest) 0
    rw [Nat.add_zero] at this
    rw [List.append_assoc, this]
    unfold entryAt
    rw [List.drop_zero, List.take_left' hnew]
  · intro off hoff
    rw [List.append_assoc]
    exact entryAt_append_left _ _ _ hoff

/-- C6. On a directory made of whole blocks, of a size that holds a record, in which no
slot is tombstoned, `AddEntry` returns after one write, of one block at the old end of the
node.  The node grows by exactly one block: its old bytes are unchanged, the new entry is
the first record of the new block, and the rest of the new block is `0xFF`. -/
theorem AddEntry_growth (dir : CDirectory) (denew : DIRENTRY)
    (hnew : denew.length = sizeofDIRENTRY) (hbs : sizeofDIRENTRY ≤ dir.blocksize)
    (hwhole : dir.WholeBlocks)
    (hnone : ∀ o ∈ slotOffsets dir.blocksize dir.dirnode.size,
      isTombstone (entryAt dir.dirnode.data o) = false) :
    (dir.AddEntry denew).status = Status.returned ∧
    (dir.AddEntry denew).node.size = dir.dirnode.size + dir.blocksize ∧
    (dir.AddEntry denew).node.data
      = dir.dirnode.data ++ denew ++ List.replicate (dir.blocksize - sizeofDIRENTRY) 0xFF ∧
    entryAt (dir.AddEntry denew).node.data dir.dirnode.size = denew ∧
    (dir.AddEntry denew).node.data.take dir.dirnode.size = dir.dirnode.data ∧
    (∀ off ∈ slotOffsets dir.blocksize dir.dirnode.size,
      entryAt (dir.AddEntry denew).node.data off = entryAt dir.dirnode.data off) ∧
    (dir.AddEntry denew).io.filter IOEvent.isWrite
      = [IOEvent.write dir.dirnode.size dir.blocksize
          (denew ++ List.replicate (dir.blocksize - sizeofDIRENTRY) 0xFF)] := by
  have hfull : firstSlot isTombstone dir.blocksize dir.dirnode.data = none :=
    (firstSlot_eq_none_iff _ _ _).2 hnone
  have hmod : dir.dirnode.size % dir.blocksize = 0 := Nat.mod_eq_zero_of_dvd hwhole.2
  have hbuflen : (denew ++ List.replicate (dir.blocksize - sizeofDIRENTRY) 0xFF).length
      = dir.blocksize := by
    rw [List.length_append, List.length_replicate, hnew]; omega
  obtain ⟨hret, hdata⟩ := AddEntry_appended dir denew hnew hbs hwhole hfull
  obtain ⟨hat, hold⟩ := entryAt_appended dir.dirnode.data denew
    (List.replicate (dir.blocksize - sizeofDIRENTRY) 0xFF) hnew
  refine ⟨hret, ?_, hdata, ?_, ?_, ?_, ?_⟩
  · unfold INODE.size
    rw [hdata, List.append_assoc, List.length_append, hbuflen]
  · rw [hdata]; exact hat
  · rw [hdata, List.append_assoc]
    exact List.take_left' rfl
  · intro off hoff
    rw [hdata]
    exact hold off (by have := mem_slotOffsets hoff; unfold INODE.size at this; omega)
  · rw [AddEntry_append dir hwhole.1 hbs denew hfull hmod,
    memcpy_memset dir.blocksize denew hnew]
    simp only [List.filter_append]
    have hnone : (scanThrough dir false).io.filter IOEvent.isWrite = [] := by
      rw [List.filter_eq_nil_iff]
      intro ev hev
      rw [scanThrough_no_write dir false ev hev]
      decide
    rw [hnone, List.take_of_length_le (Nat.le_of_eq hbuflen)]
    rfl

set_option maxRecDepth 100000 in
/-- C6, on a directory whose only slot is taken: adding `b` appends a block. -/
theorem AddEntry_growth_witness :
    (mkEntry [98] 8).length = sizeofDIRENTRY ∧ sizeofDIRENTRY ≤ exFull.blocksize ∧
    exFull.WholeBlocks ∧
    (∀ o ∈ slotOffsets exFull.blocksize exFull.dirnode.size,
      isTombstone (entryAt exFull.dirnode.data o) = false) ∧
    (exFull.AddEntry (mkEntry [98] 8)).status = Status.returned ∧
    (exFull.AddEntry (mkEntry [98] 8)).node.size = exFull.dirnode.size + exFull.blocksize ∧
    (exFull.AddEntry (mkEntry [98] 8)).node.data
      = exFull.dirnode.data ++ mkEntry [98] 8
          ++ List.replicate (exFull.blocksize - sizeofDIRENTRY) 0xFF :=
  ⟨by decide, by decide, by decide, by decide,
    (AddEntry_growth exFull (mkEntry [98] 8) (by decide) (by decide) (by decide) (by decide)).1,
    (AddEntry_growth exFull (mkEntry [98] 8) (by decide) (by decide) (by decide) (by decide)).2.1,
    (AddEntry_growth exFull (mkEntry [98] 8) (by decide) (by decide) (by decide)
      (by decide)).2.2.1⟩

/-! ## Empty directories -/

theorem IsEmpty_true_iff (dir : CDirectory) :
    dir.IsEmpty.returns true ↔
      dir.WholeBlocks
        ∧ firstSlot (fun de => !isTombstone de) dir.blocksize dir.dirnode.data = none := by
  unfold Outcome.returns
  by_cases hbs : 0 < dir.blocksize
  · rw [IsEmpty_eq dir hbs]
    cases hfs : firstSlot (fun de => !isTombstone de) dir.blocksize dir.dirnode.data with
    | none =>
      have := scanThrough_returned_iff dir hbs true
      constructor
      · intro h; exact ⟨this.1 h.1, rfl⟩
      · intro h; exact ⟨this.2 h.1, rfl⟩
    | some off =>
      constructor
      · intro h; cases h.2
      · intro h; cases h.2
  · have hz : dir.blocksize = 0 := by omega
    have hf : dir.IsEmpty = ⟨Status.outOfFuel, dir.dirnode, true, [IOEvent.read 0 0 0]⟩ :=
      ForEachEntryNonBlocking_zero dir hz _ _
    rw [hf]
    constructor
    · intro h; cases h.1
    · intro h; exact absurd h.1.1 hbs

theorem IsEmpty_false (dir : CDirectory) (off : Nat)
    (hfs : firstSlot (fun de => !isTombstone de) dir.blocksize dir.dirnode.data = some off) :
    dir.IsEmpty.returns false := by
  have hbs : 0 < dir.blocksize := by
    rcases Nat.eq_zero_or_pos dir.blocksize with hz | hpos
    · rw [hz, firstSlot_zero] at hfs; cases hfs
    · exact hpos
  unfold Outcome.returns
  rw [IsEmpty_eq dir hbs, hfs]
  exact ⟨rfl, rfl⟩

theorem entryAt_replicate (n c pos : Nat) (h : pos + sizeofDIRENTRY ≤ n) :
    entryAt (List.replicate n c) pos = List.replicate sizeofDIRENTRY c := by
  unfold entryAt
  rw [List.drop_replicate, List.take_replicate, Nat.min_eq_left (by omega)]

theorem isTombstone_of_all (dir : CDirectory)
    (h : firstSlot (fun de => !isTombstone de) dir.blocksize dir.dirnode.data = none)
    (off : Nat) (hoff : off ∈ slotOffsets dir.blocksize dir.dirnode.data.length) :
    isTombstone (entryAt dir.dirnode.data off) = true := by
  have := (firstSlot_eq_none_iff _ _ _).1 h off hoff
  simpa using this

/-- An insert into an empty directory: the new entry is in the first slot of the node and
every other slot is a tombstone. -/
theorem AddEntry_on_empty (dir : CDirectory) (denew : DIRENTRY)
    (hnew : denew.length = sizeofDIRENTRY) (hbs : sizeofDIRENTRY ≤ dir.blocksize)
    (hwhole : dir.WholeBlocks)
    (hempty : firstSlot (fun de => !isTombstone de) dir.blocksize dir.dirnode.data = none) :
    (dir.AddEntry denew).status = Status.returned ∧
    (dir.after (dir.AddEntry denew)).WholeBlocks ∧
    dir.blocksize ≤ (dir.AddEntry denew).node.data.length ∧
    entryAt (dir.AddEntry denew).node.data 0 = denew ∧
    ∀ off ∈ slotOffsets dir.blocksize (dir.AddEntry denew).node.data.length, off ≠ 0 →
      isTombstone (entryAt (dir.AddEntry denew).node.data off) = true := by
  have hpos : 0 < dir.blocksize := hwhole.1
  have hs : 0 < sizeofDIRENTRY := by decide
  rcases Nat.lt_or_ge dir.dirnode.data.length dir.blocksize with hlt | hge
  · -- the node has no block: a block is appended
    have hzero : dir.dirnode.data.length = 0 := by
      have := Nat.eq_zero_of_dvd_of_lt hwhole.2 hlt
      exact this
    have hnil : dir.dirnode.data = [] := List.length_eq_zero.1 hzero
    have hfull : firstSlot isTombstone dir.blocksize dir.dirnode.data = none := by
      unfold firstSlot; rw [slotOffsets_small _ _ hlt]; rfl
    obtain ⟨h1, h3⟩ := AddEntry_appended dir denew hnew hbs hwhole hfull
    have h4 : entryAt (dir.AddEntry denew).node.data 0 = denew := by
      have := (entryAt_appended dir.dirnode.data denew
        (List.replicate (dir.blocksize - sizeofDIRENTRY) 0xFF) hnew).1
      rw [hzero] at this
      rw [h3]; exact this
    have hlen : (dir.AddEntry denew).node.data.length = dir.blocksize := by
      rw [h3, hnil, List.nil_append, List.length_append, List.length_replicate, hnew]
      omega
    refine ⟨h1, ⟨hpos, ?_⟩, Nat.le_of_eq hlen.symm, h4, ?_⟩
    · show dir.blocksize ∣ (dir.AddEntry denew).node.data.length
      rw [hlen]
    · intro off hoff hne
      rw [hlen] at hoff
      have h0 := zero_mem_slotOffsets dir.blocksize dir.blocksize hbs (Nat.le_refl _)
      have hdis := slots_disjoint h0 hoff (Ne.symm hne)
      have hbound := mem_slotOffsets hoff
      have hoff1 : sizeofDIRENTRY ≤ off := by omega
      rw [h3, hnil, List.nil_append]
      have hsplit : off = denew.length + (off - sizeofDIRENTRY) := by omega
      rw [hsplit, entryAt_append_right, entryAt_replicate _ _ _ (by omega)]
      decide
  · -- the node has a block: its first slot is reused
    have h0 := zero_mem_slotOffsets dir.blocksize dir.dirnode.data.length hbs hge
    have hbound0 : 0 + sizeofDIRENTRY ≤ dir.dirnode.data.length := by omega
    have hfs : firstSlot isTombstone dir.blocksize dir.dirnode.data = some 0 := by
      rw [firstSlot_eq_some_iff]
      exact ⟨h0, isTombstone_of_all dir hempty 0 h0, fun o _ ho => absurd ho (Nat.not_lt_zero o)⟩
    have hdata : (dir.AddEntry denew).node.data = putAt dir.dirnode.data 0 denew := by
      rw [AddEntry_reuse dir hpos denew hnew 0 hfs]
    have hlen : (dir.AddEntry denew).node.data.length = dir.dirnode.data.length := by
      rw [hdata, length_putAt _ _ _ (by rw [hnew]; exact hbound0)]
    refine ⟨?_, ⟨hpos, ?_⟩, ?_, ?_, ?_⟩
    · rw [AddEntry_reuse dir hpos denew hnew 0 hfs]
    · show dir.blocksize ∣ (dir.AddEntry denew).node.data.length
      rw [hlen]; exact hwhole.2
    · rw [hlen]; exact hge
    · rw [hdata]; exact entryAt_putAt_same _ _ _ hnew hbound0
    · intro off hoff hne
      rw [hlen] at hoff
      have hdis := slots_disjoint h0 hoff (Ne.symm hne)
      rw [hdata, entryAt_putAt_other _ _ _ _ (by rw [hnew]; exact hbound0)
        (by rw [hnew]; omega)]
      exact isTombstone_of_all dir hempty off hoff

theorem matchesName_iff (s : List Nat) (de : DIRENTRY) :
    matchesName s de = true ↔
      DIRENTRY.id de ≠ INVALIDID ∧ strncmp (DIRENTRY.name de) (c_str s) (64 + 32) = 0 := by
  simp [matchesName, isTombstone]

theorem matchesName_of_tombstone (s : List Nat) (de : DIRENTRY) (h : isTombstone de = true) :
    matchesName s de = false := by
  simp [matchesName, h]

/-- C1. On a directory state on which `IsEmpty` returns true (blocks large enough for a
record), `AddEntry` of an entry whose name field compares equal to `N` and whose id is
`X`, followed by `Find(N)`: both calls return and the output entry of `Find` has id `X`. -/
theorem AddEntry_Find_roundtrip (dir : CDirectory) (N : List Nat) (X : Int)
    (denew e : DIRENTRY) (hnew : denew.length = sizeofDIRENTRY)
    (he : e.length = sizeofDIRENTRY) (hbs : sizeofDIRENTRY ≤ dir.blocksize)
    (hname : strncmp (DIRENTRY.name denew) (c_str N) (64 + 32) = 0)
    (hid : DIRENTRY.id denew = X)
    (hempty : dir.IsEmpty.returns true) :
    (dir.AddEntry denew).status = Status.returned ∧
    ((dir.after (dir.AddEntry denew)).Find N e).status = Status.returned ∧
    DIRENTRY.id ((dir.after (dir.AddEntry denew)).Find N e).st = X := by
  obtain ⟨hwhole, hall⟩ := (IsEmpty_true_iff dir).1 hempty
  obtain ⟨h1, h2, h3, h4, h5⟩ := AddEntry_on_empty dir denew hnew hbs hwhole hall
  have h0 : 0 ∈ slotOffsets dir.blocksize (dir.AddEntry denew).node.data.length :=
    zero_mem_slotOffsets _ _ hbs h3
  refine ⟨h1, ?_⟩
  by_cases hX : DIRENTRY.id denew = INVALIDID
  · have hfs : firstSlot (matchesName N) dir.blocksize (dir.AddEntry denew).node.data = none := by
      rw [firstSlot_eq_none_iff]
      intro o ho
      apply matchesName_of_tombstone
      by_cases ho0 : o = 0
      · rw [ho0, h4]; simp [isTombstone, hX]
      · exact h5 o ho ho0
    obtain ⟨_, hst, hret⟩ := Find_not_found (dir.after (dir.AddEntry denew)) N e he hfs
    refine ⟨hret.2 h2, ?_⟩
    rw [hst, id_setId_INVALIDID e (by rw [he]; decide), ← hid, hX]
  · have hfs : firstSlot (matchesName N) dir.blocksize (dir.AddEntry denew).node.data
        = some 0 := by
      rw [firstSlot_eq_some_iff]
      refine ⟨h0, ?_, fun o _ ho => absurd ho (Nat.not_lt_zero o)⟩
      rw [h4, matchesName_iff]
      exact ⟨hX, hname⟩
    have hfound := Find_found (dir.after (dir.AddEntry denew)) N e he 0 hfs
    rw [hfound]
    refine ⟨rfl, ?_⟩
    show DIRENTRY.id (entryAt (dir.AddEntry denew).node.data 0) = X
    rw [h4, hid]

set_option maxRecDepth 100000 in
/-- C1, on a directory just produced by `Create`: the entry `a` with id 7 is found again. -/
theorem AddEntry_Find_roundtrip_witness :
    (mkEntry [97] 7).length = sizeofDIRENTRY ∧ (mkEntry [] 0).length = sizeofDIRENTRY ∧
    sizeofDIRENTRY ≤ exCreated.blocksize ∧
    strncmp (DIRENTRY.name (mkEntry [97] 7)) (c_str [97]) (64 + 32) = 0 ∧
    DIRENTRY.id (mkEntry [97] 7) = 7 ∧
    exCreated.IsEmpty.returns true ∧
    (exCreated.AddEntry (mkEntry [97] 7)).status = Status.returned ∧
    ((exCreated.after (exCreated.AddEntry (mkEntry [97] 7))).Find [97] (mkEntry [] 0)).status
      = Status.returned ∧
    DIRENTRY.id ((exCreated.after (exCreated.AddEntry (mkEntry [97] 7))).Find [97]
      (mkEntry [] 0)).st = 7 :=
  ⟨by decide, by decide, by decide, by decide, by decide, by decide,
    AddEntry_Find_roundtrip exCreated [97] 7 (mkEntry [97] 7) (mkEntry [] 0) (by decide)
      (by decide) (by decide) (by decide) (by decide) (by decide)⟩

/-- From an empty directory: after one insert of a live entry named `N` the directory is
not empty, and after the removal of `N` it is empty again. -/
theorem lifecycle_from_empty (d0 : CDirectory) (N : List Nat) (denew e : DIRENTRY)
    (hnew : denew.length = sizeofDIRENTRY) (he : e.length = sizeofDIRENTRY)
    (hbs : sizeofDIRENTRY ≤ d0.blocksize)
    (hname : strncmp (DIRENTRY.name denew) (c_str N) (64 + 32) = 0)
    (hvalid : DIRENTRY.id denew ≠ INVALIDID)
    (hempty : d0.IsEmpty.returns true) :
    (d0.AddEntry denew).status = Status.returned ∧
    (d0.after (d0.AddEntry denew)).IsEmpty.returns false ∧
    ((d0.after (d0.AddEntry denew)).RemoveEntry N e).status = Status.returned ∧
    ((d0.after (d0.AddEntry denew)).after
      ((d0.after (d0.AddEntry denew)).RemoveEntry N e)).IsEmpty.returns true := by
  obtain ⟨hwhole, hall⟩ := (IsEmpty_true_iff d0).1 hempty
  obtain ⟨h1, h2, h3, h4, h5⟩ := AddEntry_on_empty d0 denew hnew hbs hwhole hall
  have h0 : 0 ∈ slotOffsets d0.blocksize (d0.AddEntry denew).node.data.length :=
    zero_mem_slotOffsets _ _ hbs h3
  have hlive : isTombstone (entryAt (d0.AddEntry denew).node.data 0) = false := by
    rw [h4]; simp [isTombstone, hvalid]
  have hne : firstSlot (fun de => !isTombstone de) d0.blocksize
      (d0.AddEntry denew).node.data = some 0 := by
    rw [firstSlot_eq_some_iff]
    refine ⟨h0, ?_, fun o _ ho => absurd ho (Nat.not_lt_zero o)⟩
    rw [hlive]; rfl
  have hfs : firstSlot (matchesName N) d0.blocksize (d0.AddEntry denew).node.data
      = some 0 := by
    rw [firstSlot_eq_some_iff]
    refine ⟨h0, ?_, fun o _ ho => absurd ho (Nat.not_lt_zero o)⟩
    rw [h4, matchesName_iff]
    exact ⟨hvalid, hname⟩
  obtain ⟨r1, _, r6, r7, r9⟩ :=
    RemoveEntry_found (d0.after (d0.AddEntry denew)) N e he 0 hfs
  have hsz : ((d0.after (d0.AddEntry denew)).RemoveEntry N e).node.data.length
      = (d0.AddEntry denew).node.data.length := r6
  refine ⟨h1, IsEmpty_false (d0.after (d0.AddEntry denew)) 0 hne, r1, ?_⟩
  rw [IsEmpty_true_iff]
  refine ⟨⟨h2.1, ?_⟩, ?_⟩
  · show d0.blocksize ∣ ((d0.after (d0.AddEntry denew)).RemoveEntry N e).node.data.length
    rw [hsz]; exact h2.2
  · rw [firstSlot_eq_none_iff]
    intro o ho
    have ho' : o ∈ slotOffsets d0.blocksize (d0.AddEntry denew).node.data.length := by
      have : o ∈ slotOffsets d0.blocksize
          ((d0.after (d0.AddEntry denew)).RemoveEntry N e).node.data.length := ho
      rw [hsz] at this; exact this
    have htomb : isTombstone
        (entryAt ((d0.after (d0.AddEntry denew)).RemoveEntry N e).node.data o) = true := by
      by_cases ho0 : o = 0
      · rw [ho0]; simp [isTombstone, r7]
      · rw [r9 o ho' ho0]; exact h5 o ho' ho0
    show (!isTombstone (entryAt ((d0.after (d0.AddEntry denew)).RemoveEntry N e).node.data o))
      = false
    rw [htomb]; rfl

/-- A directory just initialised by `Create`, with default-constructed records that are
tombstones, is empty. -/
theorem Create_empty (dir : CDirectory) (dflt : DIRENTRY) (mem : Nat → Nat)
    (hd : dflt.length = sizeofDIRENTRY) (hdid : DIRENTRY.id dflt = INVALIDID)
    (hpos : 0 < dir.blocksize) (hfresh : dir.dirnode.size ≤ dir.blocksize) :
    (dir.after (dir.Create dflt mem)).IsEmpty.returns true := by
  obtain ⟨hsz, hrec⟩ := Create_fresh dir dflt mem hd hfresh
  rw [IsEmpty_true_iff]
  refine ⟨⟨hpos, ?_⟩, ?_⟩
  · show dir.blocksize ∣ (dir.Create dflt mem).node.data.length
    rw [hsz]
  · rw [firstSlot_eq_none_iff]
    intro o ho
    have ho' : o ∈ slotOffsets dir.blocksize dir.blocksize := by
      have : o ∈ slotOffsets dir.blocksize (dir.Create dflt mem).node.data.length := ho
      rw [hsz] at this; exact this
    show (!isTombstone (entryAt (dir.Create dflt mem).node.data o)) = false
    rw [hrec o ho']
    simp [isTombstone, hdid]

/-- C7. With default-constructed records that are tombstones, a directory just initialised
by `Create` (on a node that held at most one block, with blocks large enough for a
record) reports empty; after one `AddEntry` of an entry named `N` with a valid id `X` it
reports non-empty; after `RemoveEntry(N)` it reports empty again.  Every call returns. -/
theorem emptiness_lifecycle (dir : CDirectory) (dflt : DIRENTRY) (mem : Nat → Nat)
    (N : List Nat) (X : Int) (denew e : DIRENTRY)
    (hd : dflt.length = sizeofDIRENTRY) (hdid : DIRENTRY.id dflt = INVALIDID)
    (hfresh : dir.dirnode.size ≤ dir.blocksize) (hbs : sizeofDIRENTRY ≤ dir.blocksize)
    (hnew : denew.length = sizeofDIRENTRY) (he : e.length = sizeofDIRENTRY)
    (hname : strncmp (DIRENTRY.name denew) (c_str N) (64 + 32) = 0)
    (hid : DIRENTRY.id denew = X) (hX : X ≠ INVALIDID) :
    ∀ d0 d1 d2 : CDirectory,
      d0 = dir.after (dir.Create dflt mem) →
      d1 = d0.after (d0.AddEntry denew) →
      d2 = d1.after (d1.RemoveEntry N e) →
      (dir.Create dflt mem).status = Status.returned ∧
      d0.IsEmpty.returns true ∧
      (d0.AddEntry denew).status = Status.returned ∧
      d1.IsEmpty.returns false ∧
      (d1.RemoveEntry N e).status = Status.returned ∧
      d2.IsEmpty.returns true := by
  intro d0 d1 d2 h0 h1 h2
  subst h0 h1 h2
  have hpos : 0 < dir.blocksize := Nat.lt_of_lt_of_le (by decide) hbs
  have hempty := Create_empty dir dflt mem hd hdid hpos hfresh
  have hvalid : DIRENTRY.id denew ≠ INVALIDID := by rw [hid]; exact hX
  obtain ⟨a1, a2, a3, a4⟩ :=
    lifecycle_from_empty (dir.after (dir.Create dflt mem)) N denew e hnew he hbs hname hvalid
      hempty
  exact ⟨rfl, hempty, a1, a2, a3, a4⟩

set_option maxRecDepth 100000 in
/-- C7, on a new node with blocks of 208 bytes and the entry `a` with id 7. -/
theorem emptiness_lifecycle_witness :
    (mkEntry [] INVALIDID).length = sizeofDIRENTRY ∧
    DIRENTRY.id (mkEntry [] INVALIDID) = INVALIDID ∧
    exFresh.dirnode.size ≤ exFresh.blocksize ∧ sizeofDIRENTRY ≤ exFresh.blocksize ∧
    (mkEntry [97] 7).length = sizeofDIRENTRY ∧ (mkEntry [] 0).length = sizeofDIRENTRY ∧
    strncmp (DIRENTRY.name (mkEntry [97] 7)) (c_str [97]) (64 + 32) = 0 ∧
    DIRENTRY.id (mkEntry [97] 7) = 7 ∧ (7 : Int) ≠ INVALIDID ∧
    ∃ d0 d1 d2 : CDirectory,
      d0 = exFresh.after (exFresh.Create (mkEntry [] INVALIDID) (fun _ => 0)) ∧
      d1 = d0.after (d0.AddEntry (mkEntry [97] 7)) ∧
      d2 = d1.after (d1.RemoveEntry [97] (mkEntry [] 0)) ∧
      d0.IsEmpty.returns true ∧ d1.IsEmpty.returns false ∧ d2.IsEmpty.returns true :=
  ⟨by decide, by decide, by decide, by decide, by decide, by decide, by decide, by decide,
    by decide, _, _, _, rfl, rfl, rfl,
    (emptiness_lifecycle exFresh (mkEntry [] INVALIDID) (fun _ => 0) [97] 7 (mkEntry [97] 7)
      (mkEntry [] 0) (by decide) (by decide) (by decide) (by decide) (by decide) (by decide)
      (by decide) (by decide) (by decide) _ _ _ rfl rfl rfl).2.1,
    (emptiness_lifecycle exFresh (mkEntry [] INVALIDID) (fun _ => 0) [97] 7 (mkEntry [97] 7)
      (mkEntry [] 0) (by decide) (by decide) (by decide) (by decide) (by decide) (by decide)
      (by decide) (by decide) (by decide) _ _ _ rfl rfl rfl).2.2.2.1,
    (emptiness_lifecycle exFresh (mkEntry [] INVALIDID) (fun _ => 0) [97] 7 (mkEntry [97] 7)
      (mkEntry [] 0) (by decide) (by decide) (by decide) (by decide) (by decide) (by decide)
      (by decide) (by decide) (by decide) _ _ _ rfl rfl rfl).2.2.2.2.2⟩

/-! ## Reuse of tombstones -/

set_option maxRecDepth 100000 in
/-- C5 fails as stated.  In the example directory slot 0 is a tombstone and slot 1, at
offset 104, holds the entry `a`.  After `RemoveEntry` of `a` and `AddEntry` of `b`, the
entry `b` is in slot 0 and not in the slot `a` held. -/
theorem tombstone_reuse_counterexample :
    firstSlot (matchesName [97]) exDir.blocksize exDir.dirnode.data = some 104 ∧
    (exDir.RemoveEntry [97] (mkEntry [] 0)).status = Status.returned ∧
    ((exDir.after (exDir.RemoveEntry [97] (mkEntry [] 0))).AddEntry (mkEntry [98] 8)).status
      = Status.returned ∧
    entryAt ((exDir.after (exDir.RemoveEntry [97] (mkEntry [] 0))).AddEntry
      (mkEntry [98] 8)).node.data 104 ≠ mkEntry [98] 8 ∧
    entryAt ((exDir.after (exDir.RemoveEntry [97] (mkEntry [] 0))).AddEntry
      (mkEntry [98] 8)).node.data 0 = mkEntry [98] 8 := by
  decide

/-- C5, as the code has it.  In a directory with a live record named `N1`, the first of
them in the slot at offset `off1`, `RemoveEntry(N1)` followed by `AddEntry` of a new entry:
both calls return, the size of the node is unchanged, and the new entry occupies the
first tombstoned slot in storage order.  That slot is at or before `off1`, and it is the
slot `N1` held exactly when no slot before it was tombstoned. -/
theorem tombstone_reuse (dir : CDirectory) (N1 : List Nat) (e denew : DIRENTRY)
    (he : e.length = sizeofDIRENTRY) (hnew : denew.length = sizeofDIRENTRY)
    (hex : ∃ o ∈ slotOffsets dir.blocksize dir.dirnode.size,
      matchesName N1 (entryAt dir.dirnode.data o) = true) :
    ∀ d1 : CDirectory, d1 = dir.after (dir.RemoveEntry N1 e) →
      ∃ off1, firstSlot (matchesName N1) dir.blocksize dir.dirnode.data = some off1 ∧
      (dir.RemoveEntry N1 e).status = Status.returned ∧
      (d1.AddEntry denew).status = Status.returned ∧
      (d1.AddEntry denew).node.size = dir.dirnode.size ∧
      ∃ off2, firstSlot isTombstone d1.blocksize d1.dirnode.data = some off2 ∧
        off2 ≤ off1 ∧
        (d1.AddEntry denew).node.data = putAt d1.dirnode.data off2 denew ∧
        entryAt (d1.AddEntry denew).node.data off2 = denew ∧
        (off2 = off1 ↔
          ∀ o ∈ slotOffsets dir.blocksize dir.dirnode.size, o < off1 →
            isTombstone (entryAt dir.dirnode.data o) = false) := by
  intro d1 hd1
  subst hd1
  obtain ⟨off1, hfs⟩ := firstSlot_of_exists _ _ _ hex
  refine ⟨off1, hfs, ?_⟩
  have hbs : 0 < dir.blocksize := firstSlot_pos hfs
  obtain ⟨hmem, hp, _⟩ := (firstSlot_eq_some_iff _ _ _ _).1 hfs
  obtain ⟨r1, _, r6, r7, r9⟩ := RemoveEntry_found dir N1 e he off1 hfs
  have hsz : (dir.RemoveEntry N1 e).node.data.length = dir.dirnode.data.length := r6
  have hlive : isTombstone (entryAt dir.dirnode.data off1) = false := by
    have := id_of_matchesName N1 _ hp
    simp [isTombstone, this]
  have htomb1 : isTombstone (entryAt (dir.RemoveEntry N1 e).node.data off1) = true := by
    simp [isTombstone, r7]
  have hmem1 : off1 ∈ slotOffsets dir.blocksize (dir.RemoveEntry N1 e).node.data.length := by
    rw [hsz]; exact hmem
  cases hfs2 : firstSlot isTombstone dir.blocksize (dir.RemoveEntry N1 e).node.data with
  | none =>
    have := (firstSlot_eq_none_iff _ _ _).1 hfs2 off1 hmem1
    rw [htomb1] at this
    cases this
  | some off2 =>
    obtain ⟨hmem2, hp2, hmin2⟩ := (firstSlot_eq_some_iff _ _ _ _).1 hfs2
    have hmem2' : off2 ∈ slotOffsets dir.blocksize dir.dirnode.data.length := by
      rw [hsz] at hmem2; exact hmem2
    have hle : off2 ≤ off1 := by
      rcases Nat.lt_or_ge off1 off2 with hlt | hge
      · have := hmin2 off1 hmem1 hlt
        rw [htomb1] at this
        cases this
      · exact hge
    have hbound2 : off2 + sizeofDIRENTRY ≤ (dir.RemoveEntry N1 e).node.data.length := by
      have := mem_slotOffsets hmem2; omega
    have hadd := AddEntry_reuse (dir.after (dir.RemoveEntry N1 e)) hbs denew hnew off2 hfs2
    have hdata : ((dir.after (dir.RemoveEntry N1 e)).AddEntry denew).node.data
        = putAt (dir.RemoveEntry N1 e).node.data off2 denew := by
      rw [hadd]; rfl
    refine ⟨r1, by rw [hadd], ?_, off2, hfs2, hle, hdata, ?_, ?_⟩
    · show ((dir.after (dir.RemoveEntry N1 e)).AddEntry denew).node.data.length
        = dir.dirnode.data.length
      rw [hdata, length_putAt _ _ _ (by rw [hnew]; exact hbound2), hsz]
    · rw [hdata]; exact entryAt_putAt_same _ _ _ hnew hbound2
    · constructor
      · intro heq o ho hlt
        have hne : o ≠ off1 := Nat.ne_of_lt hlt
        have h1 := hmin2 o (by rw [hsz]; exact ho) (by rw [heq]; exact hlt)
        rw [r9 o ho hne] at h1
        exact h1
      · intro hall
        rcases Nat.lt_or_ge off2 off1 with hlt | hge
        · have h1 := hall off2 hmem2' hlt
          rw [r9 off2 hmem2' (Nat.ne_of_lt hlt)] at hp2
          rw [hp2] at h1
          cases h1
        · omega

set_option maxRecDepth 100000 in
/-- C5, on a directory whose only slot holds `a`: after the removal of `a`, the entry `b`
takes that slot and the node keeps its size. -/
theorem tombstone_reuse_witness :
    (mkEntry [] 0).length = sizeofDIRENTRY ∧ (mkEntry [98] 8).length = sizeofDIRENTRY ∧
    (∃ o ∈ slotOffsets exFull.blocksize exFull.dirnode.size,
      matchesName [97] (entryAt exFull.dirnode.data o) = true) ∧
    ∃ d1 : CDirectory, d1 = exFull.after (exFull.RemoveEntry [97] (mkEntry [] 0)) ∧
      ∃ off1, firstSlot (matchesName [97]) exFull.blocksize exFull.dirnode.data = some off1 ∧
        (d1.AddEntry (mkEntry [98] 8)).status = Status.returned ∧
        (d1.AddEntry (mkEntry [98] 8)).node.size = exFull.dirnode.size :=
  ⟨by decide, by decide, ⟨0, by decide, by decide⟩, _, rfl,
    (tombstone_reuse exFull [97] (mkEntry [] 0) (mkEntry [98] 8) (by decide) (by decide)
      ⟨0, by decide, by decide⟩ _ rfl).imp
      fun _ h => ⟨h.1, h.2.2.1, h.2.2.2.1⟩⟩

/-! ## Filling a block -/

theorem slot_in_block (blocksize j : Nat) (hj : j < blocksize / sizeofDIRENTRY) :
    j * sizeofDIRENTRY + sizeofDIRENTRY ≤ blocksize := by
  have h1 : (j + 1) * sizeofDIRENTRY ≤ blocksize / sizeofDIRENTRY * sizeofDIRENTRY :=
    Nat.mul_le_mul_right _ hj
  have h2 := Nat.div_mul_le_self blocksize sizeofDIRENTRY
  rw [Nat.add_mul, Nat.one_mul] at h1
  omega

theorem mem_slotOffsets_one_block (blocksize off : Nat) (hpos : 0 < blocksize) :
    off ∈ slotOffsets blocksize blocksize ↔
      ∃ j, j < blocksize / sizeofDIRENTRY ∧ off = j * sizeofDIRENTRY := by
  rw [mem_slotOffsets_iff, Nat.div_self hpos]
  constructor
  · rintro ⟨b, j, hb, hj, rfl⟩
    have : b = 0 := by omega
    subst this
    exact ⟨j, hj, by simp⟩
  · rintro ⟨j, hj, rfl⟩
    exact ⟨0, j, by omega, hj, by simp⟩

theorem slot_lt_slot (j k : Nat) (h : j * sizeofDIRENTRY < k * sizeofDIRENTRY) : j < k :=
  Nat.lt_of_mul_lt_mul_right h

theorem slot_add_le (j k : Nat) (h : j < k) :
    j * sizeofDIRENTRY + sizeofDIRENTRY ≤ k * sizeofDIRENTRY := by
  have : (j + 1) * sizeofDIRENTRY ≤ k * sizeofDIRENTRY := Nat.mul_le_mul_right _ h
  rw [Nat.add_mul, Nat.one_mul] at this
  exact this

/-- One insert into a block whose first `k` slots hold the entries `ent 0`, ..., `ent (k-1)`,
all live, and whose other slots are tombstones: the entry goes to slot `k`. -/
theorem AddEntry_fill_step (d : CDirectory) (ent : Nat → DIRENTRY) (k : Nat) (denew : DIRENTRY)
    (hbs : sizeofDIRENTRY ≤ d.blocksize) (hsize : d.dirnode.data.length = d.blocksize)
    (hk : k < d.blocksize / sizeofDIRENTRY)
    (hnew : denew.length = sizeofDIRENTRY)
    (hvalid : ∀ j < k, DIRENTRY.id (ent j) ≠ INVALIDID)
    (hfilled : ∀ j < k, entryAt d.dirnode.data (j * sizeofDIRENTRY) = ent j)
    (hfree : ∀ j, k ≤ j → j < d.blocksize / sizeofDIRENTRY →
      isTombstone (entryAt d.dirnode.data (j * sizeofDIRENTRY)) = true) :
    (d.AddEntry denew).status = Status.returned ∧
    (d.AddEntry denew).node.data.length = d.blocksize ∧
    (∀ j < k, entryAt (d.AddEntry denew).node.data (j * sizeofDIRENTRY) = ent j) ∧
    entryAt (d.AddEntry denew).node.data (k * sizeofDIRENTRY) = denew ∧
    (∀ j, k + 1 ≤ j → j < d.blocksize / sizeofDIRENTRY →
      isTombstone (entryAt (d.AddEntry denew).node.data (j * sizeofDIRENTRY)) = true) := by
  have hpos : 0 < d.blocksize := Nat.lt_of_lt_of_le (by decide) hbs
  have hkb := slot_in_block d.blocksize k hk
  have hfs : firstSlot isTombstone d.blocksize d.dirnode.data = some (k * sizeofDIRENTRY) := by
    rw [firstSlot_eq_some_iff, hsize]
    refine ⟨(mem_slotOffsets_one_block _ _ hpos).2 ⟨k, hk, rfl⟩, hfree k (Nat.le_refl _) hk, ?_⟩
    intro o ho hlt
    obtain ⟨j, _, rfl⟩ := (mem_slotOffsets_one_block _ _ hpos).1 ho
    have hjk := slot_lt_slot j k hlt
    rw [hfilled j hjk]
    simp [isTombstone, hvalid j hjk]
  have hbound : k * sizeofDIRENTRY + denew.length ≤ d.dirnode.data.length := by
    rw [hnew, hsize]; exact hkb
  have hdata : (d.AddEntry denew).node.data
      = putAt d.dirnode.data (k * sizeofDIRENTRY) denew := by
    rw [AddEntry_reuse d hpos denew hnew _ hfs]
  refine ⟨by rw [AddEntry_reuse d hpos denew hnew _ hfs], ?_, ?_, ?_, ?_⟩
  · rw [hdata, length_putAt _ _ _ hbound, hsize]
  · intro j hj
    rw [hdata, entryAt_putAt_other _ _ _ _ hbound (Or.inl (slot_add_le j k hj))]
    exact hfilled j hj
  · rw [hdata]
    exact entryAt_putAt_same _ _ _ hnew (by rw [hsize]; exact hkb)
  · intro j hkj hj
    rw [hdata, entryAt_putAt_other _ _ _ _ hbound
      (Or.inr (by rw [hnew]; exact slot_add_le k j hkj))]
    exact hfree j (by omega) hj

/-- Inserting `m` live entries `ent k`, ..., `ent (k+m-1)` into such a block, with room for
all of them: every call returns and the entries take the slots `k`, ..., `k+m-1`. -/
theorem addAll_fill (ent : Nat → DIRENTRY) (blocksize : Nat)
    (hbs : sizeofDIRENTRY ≤ blocksize) :
    ∀ m k (d : CDirectory), d.blocksize = blocksize →
      d.dirnode.data.length = blocksize →
      k + m ≤ blocksize / sizeofDIRENTRY →
      (∀ j < k + m, (ent j).length = sizeofDIRENTRY) →
      (∀ j < k + m, DIRENTRY.id (ent j) ≠ INVALIDID) →
      (∀ j < k, entryAt d.dirnode.data (j * sizeofDIRENTRY) = ent j) →
      (∀ j, k ≤ j → j < blocksize / sizeofDIRENTRY →
        isTombstone (entryAt d.dirnode.data (j * sizeofDIRENTRY)) = true) →
      ∃ node, d.addAll ((List.range' k m).map ent) = some node ∧
        node.data.length = blocksize ∧
        (∀ j < k + m, entryAt node.data (j * sizeofDIRENTRY) = ent j) ∧
        (∀ j, k + m ≤ j → j < blocksize / sizeofDIRENTRY →
          isTombstone (entryAt node.data (j * sizeofDIRENTRY)) = true) := by
  intro m
  induction m with
  | zero =>
    intro k d _ hsize _ _ _ hfilled hfree
    exact ⟨d.dirnode, rfl, hsize, hfilled, hfree⟩
  | succ m ih =>
    intro k d hd hsize hroom hlen hvalid hfilled hfree
    subst hd
    obtain ⟨s1, s2, s3, s4, s5⟩ := AddEntry_fill_step d ent k (ent k) hbs hsize (by omega)
      (hlen k (by omega)) (fun j hj => hvalid j (by omega)) hfilled hfree
    have hfilled' : ∀ j < k + 1,
        entryAt (d.after (d.AddEntry (ent k))).dirnode.data (j * sizeofDIRENTRY) = ent j := by
      intro j hj
      rcases Nat.lt_or_ge j k with hlt | hge
      · exact s3 j hlt
      · have : j = k := by omega
        rw [this]; exact s4
    obtain ⟨node, n1, n2, n3, n4⟩ := ih (k + 1) (d.after (d.AddEntry (ent k))) rfl s2
      (by omega) (fun j hj => hlen j (by omega)) (fun j hj => hvalid j (by omega))
      hfilled' s5
    refine ⟨node, ?_, n2, fun j hj => n3 j (by omega), fun j hj1 hj2 => n4 j (by omega) hj2⟩
    rw [List.range'_succ, List.map_cons, CDirectory.addAll, if_pos s1]
    exact n1

theorem addAll_append (l1 l2 : List DIRENTRY) :
    ∀ d : CDirectory, d.addAll (l1 ++ l2) =
      match d.addAll l1 with
      | some node => (d.withNode node).addAll l2
      | none => none := by
  induction l1 with
  | nil => intro d; rfl
  | cons de rest ih =>
    intro d
    rw [List.cons_append, CDirectory.addAll, CDirectory.addAll]
    by_cases h : (d.AddEntry de).status = Status.returned
    · rw [if_pos h, if_pos h, ih]
      rfl
    · rw [if_neg h, if_neg h]

theorem mem_slotOffsets_two_blocks (blocksize off : Nat) (hpos : 0 < blocksize) :
    off ∈ slotOffsets blocksize (2 * blocksize) ↔
      ∃ j, j < blocksize / sizeofDIRENTRY
        ∧ (off = j * sizeofDIRENTRY ∨ off = blocksize + j * sizeofDIRENTRY) := by
  rw [mem_slotOffsets_iff, Nat.mul_div_cancel _ hpos]
  constructor
  · rintro ⟨b, j, hb, hj, rfl⟩
    rcases Nat.lt_or_ge b 1 with h0 | h1
    · have : b = 0 := by omega
      subst this
      exact ⟨j, hj, Or.inl (by simp)⟩
    · have : b = 1 := by omega
      subst this
      exact ⟨j, hj, Or.inr (by simp)⟩
  · rintro ⟨j, hj, rfl | rfl⟩
    · exact ⟨0, j, by omega, hj, by simp⟩
    · exact ⟨1, j, by omega, hj, by simp⟩

/-- Inserting one more live entry than a block holds into a block of tombstones: every call
returns, the node then has two blocks, the first filled with the entries in the order of
insertion, the second with the last entry in its first slot and tombstones after it. -/
theorem addAll_overflow (ent : Nat → DIRENTRY) (d : CDirectory)
    (hbs : sizeofDIRENTRY ≤ d.blocksize) (hsize : d.dirnode.data.length = d.blocksize)
    (hfree : ∀ j, j < d.blocksize / sizeofDIRENTRY →
      isTombstone (entryAt d.dirnode.data (j * sizeofDIRENTRY)) = true)
    (hlen : ∀ j < d.blocksize / sizeofDIRENTRY + 1, (ent j).length = sizeofDIRENTRY)
    (hvalid : ∀ j < d.blocksize / sizeofDIRENTRY + 1, DIRENTRY.id (ent j) ≠ INVALIDID) :
    ∃ node, d.addAll ((List.range (d.blocksize / sizeofDIRENTRY + 1)).map ent) = some node ∧
      node.data.length = 2 * d.blocksize ∧
      (∀ j < d.blocksize / sizeofDIRENTRY, entryAt node.data (j * sizeofDIRENTRY) = ent j) ∧
      entryAt node.data d.blocksize = ent (d.blocksize / sizeofDIRENTRY) ∧
      (∀ j, 1 ≤ j → j < d.blocksize / sizeofDIRENTRY →
        isTombstone (entryAt node.data (d.blocksize + j * sizeofDIRENTRY)) = true) := by
  have hpos : 0 < d.blocksize := Nat.lt_of_lt_of_le (by decide) hbs
  obtain ⟨node1, a1, a2, a3, _⟩ := addAll_fill ent d.blocksize hbs
    (d.blocksize / sizeofDIRENTRY) 0 d rfl hsize (by omega)
    (fun j hj => hlen j (by omega)) (fun j hj => hvalid j (by omega))
    (fun j hj => absurd hj (Nat.not_lt_zero j)) (fun j _ hj => hfree j hj)
  rw [Nat.zero_add] at a3
  have hfull : firstSlot isTombstone (d.withNode node1).blocksize
      (d.withNode node1).dirnode.data = none := by
    rw [firstSlot_eq_none_iff]
    intro o ho
    have ho' : o ∈ slotOffsets d.blocksize d.blocksize := by
      have : o ∈ slotOffsets d.blocksize node1.data.length := ho
      rw [a2] at this; exact this
    obtain ⟨j, hj, rfl⟩ := (mem_slotOffsets_one_block _ _ hpos).1 ho'
    show isTombstone (entryAt node1.data (j * sizeofDIRENTRY)) = false
    rw [a3 j hj]
    simp [isTombstone, hvalid j (by omega)]
  have hwhole : (d.withNode node1).WholeBlocks := by
    refine ⟨hpos, ?_⟩
    show d.blocksize ∣ node1.data.length
    rw [a2]
  obtain ⟨g1, g3⟩ := AddEntry_appended (d.withNode node1)
    (ent (d.blocksize / sizeofDIRENTRY)) (hlen _ (by omega)) hbs hwhole hfull
  obtain ⟨g4, g6⟩ := entryAt_appended (d.withNode node1).dirnode.data
    (ent (d.blocksize / sizeofDIRENTRY))
    (List.replicate ((d.withNode node1).blocksize - sizeofDIRENTRY) 0xFF) (hlen _ (by omega))
  rw [← g3] at g4 g6
  have hs1 : (d.withNode node1).dirnode.data.length = d.blocksize := a2
  refine ⟨((d.withNode node1).AddEntry (ent (d.blocksize / sizeofDIRENTRY))).node, ?_, ?_, ?_,
    ?_, ?_⟩
  · rw [List.range_succ, List.map_append, addAll_append, List.range_eq_range', a1]
    simp only [List.map_cons, List.map_nil, CDirectory.addAll]
    rw [if_pos g1]
    rfl
  · rw [g3, List.append_assoc, List.length_append, List.length_append,
      List.length_replicate, hlen _ (by omega), hs1]
    show d.blocksize + (sizeofDIRENTRY + (d.blocksize - sizeofDIRENTRY)) = 2 * d.blocksize
    omega
  · intro j hj
    rw [g6 _ (by rw [hs1]; exact slot_in_block d.blocksize j hj)]
    exact a3 j hj
  · rw [hs1] at g4; exact g4
  · intro j hj1 hj
    rw [g3]
    have hl : ((d.withNode node1).dirnode.data
        ++ ent (d.blocksize / sizeofDIRENTRY)).length = d.blocksize + sizeofDIRENTRY := by
      rw [List.length_append, hlen _ (by omega)]
      show node1.data.length + _ = _
      rw [a2]
    have hsl := slot_in_block d.blocksize j hj
    have hsplit : d.blocksize + j * sizeofDIRENTRY
        = ((d.withNode node1).dirnode.data ++ ent (d.blocksize / sizeofDIRENTRY)).length
          + (j * sizeofDIRENTRY - sizeofDIRENTRY) := by
      have := slot_add_le 0 j (by omega)
      rw [hl]; omega
    rw [hsplit, entryAt_append_right, entryAt_replicate _ _ _ (by
      have := slot_add_le 0 j (by omega)
      show j * sizeofDIRENTRY - sizeofDIRENTRY + sizeofDIRENTRY ≤ d.blocksize - sizeofDIRENTRY
      omega)]
    decide

/-- In a node of two blocks as `addAll_overflow` leaves it, with the name `name` matched
by the entry in slot `t` of the first block and by no other entry: `RemoveEntry(name)`
returns that entry, a following `Find(name)` finds nothing, and a following `AddEntry`
puts its entry in slot `t`. -/
theorem remove_find_add (d : CDirectory) (ent : Nat → DIRENTRY) (t : Nat) (name : List Nat)
    (e denew : DIRENTRY)
    (hbs : sizeofDIRENTRY ≤ d.blocksize) (hsize : d.dirnode.data.length = 2 * d.blocksize)
    (hfirst : ∀ j < d.blocksize / sizeofDIRENTRY,
      entryAt d.dirnode.data (j * sizeofDIRENTRY) = ent j)
    (hlast : entryAt d.dirnode.data d.blocksize = ent (d.blocksize / sizeofDIRENTRY))
    (hfree : ∀ j, 1 ≤ j → j < d.blocksize / sizeofDIRENTRY →
      isTombstone (entryAt d.dirnode.data (d.blocksize + j * sizeofDIRENTRY)) = true)
    (ht : t < d.blocksize / sizeofDIRENTRY)
    (hvalid : ∀ j < d.blocksize / sizeofDIRENTRY + 1, DIRENTRY.id (ent j) ≠ INVALIDID)
    (hmatch : ∀ j < d.blocksize / sizeofDIRENTRY + 1,
      (strncmp (DIRENTRY.name (ent j)) (c_str name) (64 + 32) = 0 ↔ j = t))
    (he : e.length = sizeofDIRENTRY) (hnew : denew.length = sizeofDIRENTRY) :
    ∀ d1 : CDirectory, d1 = d.after (d.RemoveEntry name e) →
      (d.RemoveEntry name e).status = Status.returned ∧
      (d.RemoveEntry name e).st = ent t ∧
      (d1.Find name e).status = Status.returned ∧
      DIRENTRY.id (d1.Find name e).st = INVALIDID ∧
      (d1.AddEntry denew).status = Status.returned ∧
      entryAt (d1.AddEntry denew).node.data (t * sizeofDIRENTRY) = denew ∧
      (d1.AddEntry denew).node.size = 2 * d.blocksize := by
  intro d1 hd1
  subst hd1
  have hpos : 0 < d.blocksize := Nat.lt_of_lt_of_le (by decide) hbs
  have htb := slot_in_block d.blocksize t ht
  have hslot : ∀ o ∈ slotOffsets d.blocksize (2 * d.blocksize),
      (∃ j, j < d.blocksize / sizeofDIRENTRY ∧ o = j * sizeofDIRENTRY
          ∧ entryAt d.dirnode.data o = ent j)
      ∨ (o = d.blocksize ∧ entryAt d.dirnode.data o = ent (d.blocksize / sizeofDIRENTRY))
      ∨ (d.blocksize < o ∧ isTombstone (entryAt d.dirnode.data o) = true) := by
    intro o ho
    obtain ⟨j, hj, rfl | rfl⟩ := (mem_slotOffsets_two_blocks _ _ hpos).1 ho
    · exact Or.inl ⟨j, hj, rfl, hfirst j hj⟩
    · rcases Nat.eq_zero_or_pos j with h0 | h1
      · subst h0
        rw [Nat.zero_mul, Nat.add_zero]
        exact Or.inr (Or.inl ⟨rfl, hlast⟩)
      · have hjpos : 0 < j * sizeofDIRENTRY := Nat.mul_pos h1 (by decide)
        exact Or.inr (Or.inr ⟨by omega, hfree j h1 hj⟩)
  have hnomatch : ∀ j < d.blocksize / sizeofDIRENTRY + 1, j ≠ t →
      matchesName name (ent j) = false := by
    intro j hj hne
    cases hm : matchesName name (ent j) with
    | false => rfl
    | true => exact absurd ((hmatch j hj).1 ((matchesName_iff _ _).1 hm).2) hne
  have hlive : ∀ j < d.blocksize / sizeofDIRENTRY + 1, isTombstone (ent j) = false := by
    intro j hj
    simp [isTombstone, hvalid j hj]
  have hmemt : t * sizeofDIRENTRY ∈ slotOffsets d.blocksize (2 * d.blocksize) :=
    (mem_slotOffsets_two_blocks _ _ hpos).2 ⟨t, ht, Or.inl rfl⟩
  -- the removal
  have hfs : firstSlot (matchesName name) d.blocksize d.dirnode.data
      = some (t * sizeofDIRENTRY) := by
    rw [firstSlot_eq_some_iff, hsize]
    refine ⟨hmemt, ?_, ?_⟩
    · rw [hfirst t ht, matchesName_iff]
      exact ⟨hvalid t (by omega), (hmatch t (by omega)).2 rfl⟩
    · intro o ho hlt
      rcases hslot o ho with ⟨j, hj, rfl, hent⟩ | ⟨rfl, _⟩ | ⟨hgt, _⟩
      · rw [hent]
        exact hnomatch j (by omega) (Nat.ne_of_lt (slot_lt_slot j t hlt))
      · omega
      · omega
  obtain ⟨r1, r2, r6, r7, r9⟩ :=
    RemoveEntry_found d name e he (t * sizeofDIRENTRY) hfs
  have hsz : (d.RemoveEntry name e).node.data.length = 2 * d.blocksize := by
    have : (d.RemoveEntry name e).node.data.length = d.dirnode.data.length := r6
    rw [this, hsize]
  have hsame : ∀ o ∈ slotOffsets d.blocksize (2 * d.blocksize), o ≠ t * sizeofDIRENTRY →
      entryAt (d.RemoveEntry name e).node.data o = entryAt d.dirnode.data o := by
    intro o ho hne
    exact r9 o (by rw [hsize]; exact ho) hne
  have htomb : isTombstone (entryAt (d.RemoveEntry name e).node.data (t * sizeofDIRENTRY))
      = true := by
    simp [isTombstone, r7]
  -- the lookup after it
  have hfind : firstSlot (matchesName name) d.blocksize (d.RemoveEntry name e).node.data
      = none := by
    rw [firstSlot_eq_none_iff, hsz]
    intro o ho
    by_cases hot : o = t * sizeofDIRENTRY
    · rw [hot]; exact matchesName_of_tombstone _ _ htomb
    · rw [hsame o ho hot]
      rcases hslot o ho with ⟨j, hj, rfl, hent⟩ | ⟨_, hent⟩ | ⟨_, htb⟩
      · rw [hent]
        exact hnomatch j (by omega) (fun h => hot (by rw [h]))
      · rw [hent]
        exact hnomatch _ (by omega) (by omega)
      · exact matchesName_of_tombstone _ _ htb
  obtain ⟨_, fst, fret⟩ := Find_not_found (d.after (d.RemoveEntry name e)) name e he hfind
  have hwhole : (d.after (d.RemoveEntry name e)).WholeBlocks := by
    refine ⟨hpos, ?_⟩
    show d.blocksize ∣ (d.RemoveEntry name e).node.data.length
    rw [hsz]
    exact Dvd.intro_left 2 rfl
  -- the insert after it
  have hfs2 : firstSlot isTombstone d.blocksize (d.RemoveEntry name e).node.data
      = some (t * sizeofDIRENTRY) := by
    rw [firstSlot_eq_some_iff, hsz]
    refine ⟨hmemt, htomb, ?_⟩
    intro o ho hlt
    rw [hsame o ho (Nat.ne_of_lt hlt)]
    rcases hslot o ho with ⟨j, hj, rfl, hent⟩ | ⟨rfl, _⟩ | ⟨hgt, _⟩
    · rw [hent]; exact hlive j (by omega)
    · omega
    · omega
  have hadd := AddEntry_reuse (d.after (d.RemoveEntry name e)) hpos denew hnew _ hfs2
  have hdata : ((d.after (d.RemoveEntry name e)).AddEntry denew).node.data
      = putAt (d.RemoveEntry name e).node.data (t * sizeofDIRENTRY) denew := by
    rw [hadd]; rfl
  have hbound : t * sizeofDIRENTRY + sizeofDIRENTRY ≤ (d.RemoveEntry name e).node.data.length := by
    rw [hsz]; omega
  refine ⟨r1, ?_, fret.2 hwhole, ?_, by rw [hadd], ?_, ?_⟩
  · rw [r2]; exact hfirst t ht
  · rw [fst]; exact id_setId_INVALIDID e (by rw [he]; decide)
  · rw [hdata]; exact entryAt_putAt_same _ _ _ hnew hbound
  · show ((d.after (d.RemoveEntry name e)).AddEntry denew).node.data.length = _
    rw [hdata, length_putAt _ _ _ (by rw [hnew]; exact hbound), hsz]

/-! ## The scenario of forty entries -/

/-- C8. Block size 4096, record size 104, so 39 records in a block, and default-constructed
records that are tombstones.  After `Create` on a node that held at most one block, the
`AddEntry` of 40 entries `ent 0`, ..., `ent 39` with valid ids, the entry `ent j` matching
the name `names i` exactly when `i = j`: every call returns, the node has exactly 2
blocks, `ent 0`, ..., `ent 38` are in the slots 0 to 38 of block 0 and `ent 39` is in slot
0 of block 1.  Then `RemoveEntry(names 5)` returns `ent 5`, a following `Find(names 5)`
returns with id `INVALIDID`, and a following `AddEntry` places its entry at the byte
offset of slot 5 of block 0 without changing the size of the node. -/
theorem forty_entries (dir : CDirectory) (dflt : DIRENTRY) (mem : Nat → Nat)
    (ent : Nat → DIRENTRY) (names : Nat → List Nat) (e denew : DIRENTRY)
    (hbs : dir.blocksize = 4096) (hfresh : dir.dirnode.size ≤ dir.blocksize)
    (hd : dflt.length = sizeofDIRENTRY) (hdid : DIRENTRY.id dflt = INVALIDID)
    (hlen : ∀ i < 40, (ent i).length = sizeofDIRENTRY)
    (hvalid : ∀ i < 40, DIRENTRY.id (ent i) ≠ INVALIDID)
    (hnames : ∀ i < 40, ∀ j < 40,
      (strncmp (DIRENTRY.name (ent j)) (c_str (names i)) (64 + 32) = 0 ↔ i = j))
    (he : e.length = sizeofDIRENTRY) (hnew : denew.length = sizeofDIRENTRY) :
    ∀ d0 : CDirectory, d0 = dir.after (dir.Create dflt mem) →
      ∃ node40, d0.addAll ((List.range 40).map ent) = some node40 ∧
        node40.size = 2 * 4096 ∧
        (∀ i < 39, entryAt node40.data (i * sizeofDIRENTRY) = ent i) ∧
        entryAt node40.data 4096 = ent 39 ∧
        ∀ d40 d41 : CDirectory, d40 = dir.withNode node40 →
          d41 = d40.after (d40.RemoveEntry (names 5) e) →
          (d40.RemoveEntry (names 5) e).status = Status.returned ∧
          (d40.RemoveEntry (names 5) e).st = ent 5 ∧
          (d41.Find (names 5) e).status = Status.returned ∧
          DIRENTRY.id (d41.Find (names 5) e).st = INVALIDID ∧
          (d41.AddEntry denew).status = Status.returned ∧
          entryAt (d41.AddEntry denew).node.data (5 * sizeofDIRENTRY) = denew ∧
          (d41.AddEntry denew).node.size = 2 * 4096 := by
  intro d0 hd0
  subst hd0
  have h39 : dir.blocksize / sizeofDIRENTRY = 39 := by rw [hbs]; decide
  have hbs104 : sizeofDIRENTRY ≤ dir.blocksize := by rw [hbs]; decide
  have hpos : 0 < dir.blocksize := by rw [hbs]; decide
  obtain ⟨csz, crec⟩ := Create_fresh dir dflt mem hd hfresh
  have hfree : ∀ j, j < (dir.after (dir.Create dflt mem)).blocksize / sizeofDIRENTRY →
      isTombstone (entryAt (dir.after (dir.Create dflt mem)).dirnode.data
        (j * sizeofDIRENTRY)) = true := by
    intro j hj
    have hmem : j * sizeofDIRENTRY ∈ slotOffsets dir.blocksize dir.blocksize :=
      (mem_slotOffsets_one_block _ _ hpos).2 ⟨j, hj, rfl⟩
    show isTombstone (entryAt (dir.Create dflt mem).node.data (j * sizeofDIRENTRY)) = true
    rw [crec _ hmem]
    simp [isTombstone, hdid]
  have hb0 : (dir.after (dir.Create dflt mem)).blocksize = dir.blocksize := rfl
  obtain ⟨node40, a1, a2, a3, a4, a5⟩ := addAll_overflow ent (dir.after (dir.Create dflt mem))
    hbs104 csz hfree (by rw [hb0, h39]; exact hlen) (by rw [hb0, h39]; exact hvalid)
  rw [hb0, h39] at a1 a3
  rw [hb0] at a2 a4 a5
  rw [h39] at a4
  refine ⟨node40, a1, ?_, a3, ?_, ?_⟩
  · show node40.data.length = _
    rw [a2, hbs]
  · rw [← hbs]; exact a4
  · intro d40 d41 h40 h41
    subst h40
    have hb40 : (dir.withNode node40).blocksize = dir.blocksize := rfl
    have key := remove_find_add (dir.withNode node40) ent 5 (names 5) e denew hbs104 a2
      (by rw [hb40, h39]; exact a3) (by rw [hb40, h39]; exact a4) a5
      (by rw [hb40, h39]; decide) (by rw [hb40, h39]; exact hvalid)
      (by
        rw [hb40, h39]
        intro j hj
        rw [hnames 5 (by decide) j hj]
        exact eq_comm)
      he hnew d41 h41
    rw [hb40, hbs] at key
    exact key

set_option maxRecDepth 1000000 in
/-- C8, for the forty entries `A`, `B`, ... on a new node, the new entry being `z`. -/
theorem forty_entries_witness :
    exFresh4096.blocksize = 4096 ∧ exFresh4096.dirnode.size ≤ exFresh4096.blocksize ∧
    (mkEntry [] INVALIDID).length = sizeofDIRENTRY ∧
    DIRENTRY.id (mkEntry [] INVALIDID) = INVALIDID ∧
    (∀ i < 40, (exEntry i).length = sizeofDIRENTRY) ∧
    (∀ i < 40, DIRENTRY.id (exEntry i) ≠ INVALIDID) ∧
    (∀ i < 40, ∀ j < 40,
      (strncmp (DIRENTRY.name (exEntry j)) (c_str (exName i)) (64 + 32) = 0 ↔ i = j)) ∧
    (mkEntry [] 0).length = sizeofDIRENTRY ∧ (mkEntry [122] 99).length = sizeofDIRENTRY ∧
    ∃ node40,
      (exFresh4096.after (exFresh4096.Create (mkEntry [] INVALIDID) (fun _ => 0))).addAll
        ((List.range 40).map exEntry) = some node40 ∧
      node40.size = 2 * 4096 ∧
      entryAt node40.data 4096 = exEntry 39 ∧
      ∃ d40 d41 : CDirectory, d40 = exFresh4096.withNode node40 ∧
        d41 = d40.after (d40.RemoveEntry (exName 5) (mkEntry [] 0)) ∧
        DIRENTRY.id (d41.Find (exName 5) (mkEntry [] 0)).st = INVALIDID ∧
        entryAt (d41.AddEntry (mkEntry [122] 99)).node.data (5 * sizeofDIRENTRY)
          = mkEntry [122] 99 :=
  ⟨by decide, by decide, by decide, by decide, by decide, by decide, by decide, by decide,
    by decide,
    (forty_entries exFresh4096 (mkEntry [] INVALIDID) (fun _ => 0) exEntry exName
      (mkEntry [] 0) (mkEntry [122] 99) (by decide) (by decide) (by decide) (by decide)
      (by decide) (by decide) (by decide) (by decide) (by decide) _ rfl).imp
      fun _ h => ⟨h.1, h.2.1, h.2.2.2.1, _, _, rfl, rfl,
        (h.2.2.2.2 _ _ rfl rfl).2.2.2.1, (h.2.2.2.2 _ _ rfl rfl).2.2.2.2.2.1⟩⟩

/-! ## The scan with any visitor -/

theorem block_putAt (v : List Nat) (base blocksize pos : Nat) (src : List Nat)
    (h : pos + src.length ≤ blocksize) (hv : base + blocksize ≤ v.length) :
    ((putAt v (base + pos) src).drop base).take blocksize
      = putAt ((v.drop base).take blocksize) pos src := by
  have hb : ((v.drop base).take blocksize).length = blocksize := by
    rw [List.length_take, List.length_drop]; omega
  have hl : (putAt ((v.drop base).take blocksize) pos src).length = blocksize := by
    rw [length_putAt _ _ _ (by rw [hb]; exact h), hb]
  have ht : (v.take base).length = base := by
    rw [List.length_take]; omega
  rw [← putAt_block v base blocksize pos src h, List.append_assoc, List.drop_left' ht,
    List.take_left' hl]

theorem drop_putAt (buf : List Nat) (pos : Nat) (src : List Nat) (q : Nat)
    (h : pos + src.length ≤ q) (hq : q ≤ buf.length) :
    (putAt buf pos src).drop q = buf.drop q := by
  apply List.ext_getElem?
  intro i
  rw [List.getElem?_drop, List.getElem?_drop, getElem?_putAt buf pos src (q + i) (by omega)]
  rw [if_neg (by omega), if_neg (by omega)]

theorem visitAll_cons_ok {σ : Type} (f : Visitor σ) (off : Nat) (rest v : List Nat)
    (st st1 : σ) (de : DIRENTRY) (h : f st (entryAt v off) = (FOREACHENTRYRET.OK, de, st1)) :
    visitAll f (off :: rest) v st = visitAll f rest (putAt v off de) st1 := by
  rw [visitAll, h]

theorem visitAll_cons_stop {σ : Type} (f : Visitor σ) (off : Nat) (rest v : List Nat)
    (st st1 : σ) (de : DIRENTRY) (ret : FOREACHENTRYRET)
    (h : f st (entryAt v off) = (ret, de, st1)) (hne : ret ≠ FOREACHENTRYRET.OK) :
    visitAll f (off :: rest) v st = ⟨st1, putAt v off de, some (off, ret)⟩ := by
  rw [visitAll, h]
  cases ret with
  | OK => exact absurd rfl hne
  | QUIT => rfl
  | WRITEANDQUIT => rfl

theorem visitAll_append {σ : Type} (f : Visitor σ) :
    ∀ (l1 l2 : List Nat) (v : List Nat) (st : σ),
      visitAll f (l1 ++ l2) v st =
        match (visitAll f l1 v st).stop with
        | none => visitAll f l2 (visitAll f l1 v st).view (visitAll f l1 v st).st
        | some _ => visitAll f l1 v st := by
  intro l1
  induction l1 with
  | nil => intro l2 v st; rfl
  | cons off rest ih =>
    intro l2 v st
    rw [List.cons_append]
    rcases hf : f st (entryAt v off) with ⟨r, de, st1⟩
    cases r with
    | OK =>
      rw [visitAll_cons_ok f off _ v st st1 de hf, visitAll_cons_ok f off _ v st st1 de hf]
      exact ih l2 _ _
    | QUIT =>
      rw [visitAll_cons_stop f off _ v st st1 de _ hf (by decide),
        visitAll_cons_stop f off _ v st st1 de _ hf (by decide)]
    | WRITEANDQUIT =>
      rw [visitAll_cons_stop f off _ v st st1 de _ hf (by decide),
        visitAll_cons_stop f off _ v st st1 de _ hf (by decide)]

theorem visitAll_stop {σ : Type} (f : Visitor σ) :
    ∀ (offs : List Nat) (v : List Nat) (st : σ) (off : Nat) (ret : FOREACHENTRYRET),
      (visitAll f offs v st).stop = some (off, ret) →
        off ∈ offs ∧ ret ≠ FOREACHENTRYRET.OK := by
  intro offs
  induction offs with
  | nil => intro v st off ret h; cases h
  | cons o rest ih =>
    intro v st off ret h
    rcases hf : f st (entryAt v o) with ⟨r, de, st1⟩
    cases r with
    | OK =>
      rw [visitAll_cons_ok f o _ v st st1 de hf] at h
      have := ih _ _ _ _ h
      exact ⟨List.mem_cons_of_mem _ this.1, this.2⟩
    | QUIT =>
      rw [visitAll_cons_stop f o _ v st st1 de _ hf (by decide)] at h
      simp only [Option.some.injEq, Prod.mk.injEq] at h
      obtain ⟨rfl, rfl⟩ := h
      exact ⟨List.mem_cons_self _ _, by decide⟩
    | WRITEANDQUIT =>
      rw [visitAll_cons_stop f o _ v st st1 de _ hf (by decide)] at h
      simp only [Option.some.injEq, Prod.mk.injEq] at h
      obtain ⟨rfl, rfl⟩ := h
      exact ⟨List.mem_cons_self _ _, by decide⟩

theorem visitAll_length {σ : Type} (f : Visitor σ) (hf : LengthPreserving f) :
    ∀ (offs : List Nat) (v : List Nat) (st : σ),
      (∀ o ∈ offs, o + sizeofDIRENTRY ≤ v.length) →
        (visitAll f offs v st).view.length = v.length := by
  intro offs
  induction offs with
  | nil => intro v st _; rfl
  | cons o rest ih =>
    intro v st h
    have ho := h o (List.mem_cons_self _ _)
    have hde := hf st _ (length_entryAt v o ho)
    rcases hfr : f st (entryAt v o) with ⟨r, de, st1⟩
    rw [hfr] at hde
    have hl : (putAt v o de).length = v.length := length_putAt v o de (by rw [hde]; exact ho)
    cases r with
    | OK =>
      rw [visitAll_cons_ok f o _ v st st1 de hfr,
        ih (putAt v o de) st1 (fun o1 h1 => by rw [hl]; exact h o1 (List.mem_cons_of_mem _ h1)),
        hl]
    | QUIT => rw [visitAll_cons_stop f o _ v st st1 de _ hfr (by decide)]; exact hl
    | WRITEANDQUIT => rw [visitAll_cons_stop f o _ v st st1 de _ hfr (by decide)]; exact hl

theorem visitAll_drop {σ : Type} (f : Visitor σ) (hf : LengthPreserving f) (q : Nat) :
    ∀ (offs : List Nat) (v : List Nat) (st : σ),
      (∀ o ∈ offs, o + sizeofDIRENTRY ≤ q) → q ≤ v.length →
        (visitAll f offs v st).view.drop q = v.drop q := by
  intro offs
  induction offs with
  | nil => intro v st _ _; rfl
  | cons o rest ih =>
    intro v st h hq
    have ho := h o (List.mem_cons_self _ _)
    have hde := hf st _ (length_entryAt v o (by omega))
    rcases hfr : f st (entryAt v o) with ⟨r, de, st1⟩
    rw [hfr] at hde
    have hl : (putAt v o de).length = v.length :=
      length_putAt v o de (by rw [hde]; omega)
    have hd : (putAt v o de).drop q = v.drop q :=
      drop_putAt v o de q (by rw [hde]; exact ho) hq
    cases r with
    | OK =>
      rw [visitAll_cons_ok f o _ v st st1 de hfr,
        ih (putAt v o de) st1 (fun o1 h1 => h o1 (List.mem_cons_of_mem _ h1))
          (by rw [hl]; exact hq), hd]
    | QUIT => rw [visitAll_cons_stop f o _ v st st1 de _ hfr (by decide)]; exact hd
    | WRITEANDQUIT => rw [visitAll_cons_stop f o _ v st st1 de _ hfr (by decide)]; exact hd

theorem forEntries_visitAll {σ : Type} (f : Visitor σ) (hf : LengthPreserving f)
    (base blocksize : Nat) :
    ∀ k j (v : List Nat) (st : σ), (j + k) * sizeofDIRENTRY ≤ blocksize →
      base + blocksize ≤ v.length →
      forEntries f k j ((v.drop base).take blocksize) st =
        ((visitAll f ((List.range' j k).map fun i => base + i * sizeofDIRENTRY) v st).signal,
          ((visitAll f ((List.range' j k).map fun i => base + i * sizeofDIRENTRY) v st).view.drop
            base).take blocksize,
          (visitAll f ((List.range' j k).map fun i => base + i * sizeofDIRENTRY) v st).st) := by
  intro k
  induction k with
  | zero => intro j v st _ _; rfl
  | succ k ih =>
    intro j v st hj hv
    have hslot : j * sizeofDIRENTRY + sizeofDIRENTRY ≤ blocksize := by
      unfold sizeofDIRENTRY at *; omega
    have hde := hf st _ (length_entryAt v (base + j * sizeofDIRENTRY) (by omega))
    rw [List.range'_succ, List.map_cons, forEntries,
      entryAt_block v base blocksize _ hslot]
    rcases hfr : f st (entryAt v (base + j * sizeofDIRENTRY)) with ⟨r, de, st1⟩
    rw [hfr] at hde
    have hput := block_putAt v base blocksize (j * sizeofDIRENTRY) de
      (by rw [hde]; exact hslot) hv
    have hl : (putAt v (base + j * sizeofDIRENTRY) de).length = v.length :=
      length_putAt v _ de (by rw [hde]; omega)
    cases r with
    | OK =>
      rw [visitAll_cons_ok f _ _ v st st1 de hfr]
      simp only
      rw [← hput]
      exact ih (j + 1) _ st1 (by unfold sizeofDIRENTRY at *; omega) (by rw [hl]; exact hv)
    | QUIT =>
      rw [visitAll_cons_stop f _ _ v st st1 de _ hfr (by decide)]
      simp only [Visit.signal]
      rw [hput]
    | WRITEANDQUIT =>
      rw [visitAll_cons_stop f _ _ v st st1 de _ hfr (by decide)]
      simp only [Visit.signal]
      rw [hput]

theorem forEntries_visitAll_block {σ : Type} (f : Visitor σ) (hf : LengthPreserving f)
    (blocksize b : Nat) (v : List Nat) (st : σ) (hv : b * blocksize + blocksize ≤ v.length) :
    forEntries f (blocksize / sizeofDIRENTRY) 0 ((v.drop (b * blocksize)).take blocksize) st =
      ((visitAll f (blockSlots blocksize b) v st).signal,
        ((visitAll f (blockSlots blocksize b) v st).view.drop (b * blocksize)).take blocksize,
        (visitAll f (blockSlots blocksize b) v st).st) := by
  rw [blockSlots_eq]
  exact forEntries_visitAll f hf (b * blocksize) blocksize _ 0 v st
    (by rw [Nat.zero_add]; exact Nat.div_mul_le_self _ _) hv

theorem scanLoop_visitAll {σ : Type} (blocksize : Nat) (hbs : 0 < blocksize) (f : Visitor σ)
    (hf : LengthPreserving f) (node : INODE) :
    ∀ n b fuel io rem (v : List Nat) (st : σ),
      node.data.length = (b + n) * blocksize + rem → rem < blocksize → n + 1 ≤ fuel →
      v.length = node.data.length →
      v.drop (b * blocksize) = node.data.drop (b * blocksize) →
      scanLoop blocksize f fuel node (b * blocksize) st io =
        scanOutcome node blocksize io b n rem
          (visitAll f ((List.range' b n).flatMap (blockSlots blocksize)) v st) := by
  intro n
  induction n with
  | zero =>
    intro b fuel io rem v st hlen hrem hfuel _ _
    obtain ⟨fuel, rfl⟩ : ∃ k, fuel = k + 1 := ⟨fuel - 1, by omega⟩
    have hread : (node.ReadInternal (b * blocksize) blocksize).length = rem := by
      unfold INODE.ReadInternal
      rw [List.length_take, List.length_drop, hlen]
      simp only [Nat.add_zero]
      omega
    simp only [List.range'_zero, List.flatMap_nil, visitAll, scanOutcome, fullReads,
      List.map_nil, List.append_nil, Nat.add_zero]
    unfold scanLoop
    simp only [hread]
    by_cases h0 : rem = 0
    · subst h0
      have hne : ¬ (0 = blocksize) := by omega
      simp [forEntries, hne]
    · have hno : ¬ (rem = blocksize ∨ rem = 0) := by omega
      have hne : ¬ (rem = blocksize) := by omega
      simp [h0, hne]
  | succ n ih =>
    intro b fuel io rem v st hlen hrem hfuel hvl hvd
    obtain ⟨fuel, rfl⟩ : ∃ k, fuel = k + 1 := ⟨fuel - 1, by omega⟩
    have hmul : (b + (n + 1)) * blocksize = b * blocksize + blocksize + n * blocksize := by
      simp only [Nat.add_mul, Nat.one_mul]; omega
    have hmul' : (b + 1 + n) * blocksize = b * blocksize + blocksize + n * blocksize := by
      simp only [Nat.add_mul, Nat.one_mul]
    have hlen' : node.data.length = (b + 1 + n) * blocksize + rem := by
      rw [hlen, hmul, hmul']
    have hread : (node.ReadInternal (b * blocksize) blocksize).length = blocksize := by
      unfold INODE.ReadInternal
      rw [List.length_take, List.length_drop, hlen, hmul]
      omega
    have hblock : b * blocksize + blocksize ≤ v.length := by
      rw [hvl, hlen, hmul]; omega
    have hslots : ∀ o ∈ blockSlots blocksize b, o + sizeofDIRENTRY ≤ (b + 1) * blocksize := by
      intro o ho
      rw [Nat.add_mul, Nat.one_mul]
      exact (mem_blockSlots ho).2
    have hvl1 := visitAll_length f hf (blockSlots blocksize b) v st
      (fun o ho => by have := hslots o ho; rw [Nat.add_mul, Nat.one_mul] at this; omega)
    have hvd1 := visitAll_drop f hf ((b + 1) * blocksize) (blockSlots blocksize b) v st hslots
      (by rw [Nat.add_mul, Nat.one_mul]; exact hblock)
    rw [List.range'_succ, List.flatMap_cons, visitAll_append]
    unfold scanLoop
    simp only [hread, true_or, if_true]
    unfold INODE.ReadInternal
    rw [← hvd, forEntries_visitAll_block f hf blocksize b v st hblock]
    cases hstop : (visitAll f (blockSlots blocksize b) v st).stop with
    | none =>
      have hih := ih (b + 1) fuel (io ++ [IOEvent.read (b * blocksize) blocksize blocksize])
        rem (visitAll f (blockSlots blocksize b) v st).view
        (visitAll f (blockSlots blocksize b) v st).st hlen' hrem (by omega)
        (by rw [hvl1, hvl])
        (by
          rw [hvd1]
          have h1 : (b + 1) * blocksize = b * blocksize + blocksize := by
            rw [Nat.add_mul, Nat.one_mul]
          rw [h1, ← List.drop_drop, ← List.drop_drop, hvd])
      rw [Nat.add_mul, Nat.one_mul] at hih
      simp only [Visit.signal, hstop]
      rw [hih]
      cases hrest : (visitAll f ((List.range' (b + 1) n).flatMap (blockSlots blocksize))
          (visitAll f (blockSlots blocksize b) v st).view
          (visitAll f (blockSlots blocksize b) v st).st).stop with
      | none =>
        simp only [scanOutcome, hrest, fullReads, List.range'_succ, List.map_cons,
          List.append_assoc, List.singleton_append]
        rw [hmul, hmul']
      | some s =>
        obtain ⟨off, ret⟩ := s
        have hmem := (visitAll_stop f _ _ _ _ _ hrest).1
        rw [List.mem_flatMap] at hmem
        obtain ⟨b1, hb1, hoff⟩ := hmem
        rw [List.mem_range'_1] at hb1
        have hdiv := div_of_mem_blockSlots hoff
        have hcnt : off / blocksize + 1 - b = (off / blocksize + 1 - (b + 1)) + 1 := by omega
        simp only [scanOutcome, hrest, hcnt, fullReads, List.range'_succ, List.map_cons,
          List.append_assoc, List.singleton_append]
    | some s =>
      obtain ⟨off, ret⟩ := s
      have hst := visitAll_stop f _ _ _ _ _ hstop
      have hdiv := div_of_mem_blockSlots hst.1
      have hcnt : off / blocksize + 1 - b = 1 := by omega
      simp only [Visit.signal, hstop, scanOutcome, hdiv, hcnt, fullReads]
      cases ret with
      | OK => exact absurd rfl hst.2
      | QUIT => simp
      | WRITEANDQUIT => simp [hvd]

/-- The scan of a directory with a positive block size, for any visitor that leaves records
their size: it is the reference fold over the slots of the node in storage order. -/
theorem ForEachEntryNonBlocking_visitAll {σ : Type} (dir : CDirectory)
    (hbs : 0 < dir.blocksize) (f : Visitor σ) (hf : LengthPreserving f) (st : σ) :
    dir.ForEachEntryNonBlocking f st =
      scanOutcome dir.dirnode dir.blocksize [] 0 (dir.dirnode.size / dir.blocksize)
        (dir.dirnode.size % dir.blocksize)
        (visitAll f (slotOffsets dir.blocksize dir.dirnode.size) dir.dirnode.data st) := by
  have hlen : dir.dirnode.data.length
      = (0 + dir.dirnode.size / dir.blocksize) * dir.blocksize
        + dir.dirnode.size % dir.blocksize := by
    rw [Nat.zero_add, Nat.mul_comm, Nat.div_add_mod]; rfl
  have key := scanLoop_visitAll dir.blocksize hbs f hf dir.dirnode
    (dir.dirnode.size / dir.blocksize) 0 (dir.dirnode.size / dir.blocksize + 1) []
    (dir.dirnode.size % dir.blocksize) dir.dirnode.data st hlen (Nat.mod_lt _ hbs)
    (Nat.le_refl _) rfl rfl
  rw [Nat.zero_mul] at key
  unfold CDirectory.ForEachEntryNonBlocking
  rw [key, slotOffsets_eq]

/-! ## The calls of the visitor -/

theorem logCalls_lengthPreserving {σ : Type} (f : Visitor σ) (hf : LengthPreserving f) :
    LengthPreserving (logCalls f) := fun s de h => hf s.1 de h

theorem visitedSlots_cons_stop (o : Nat) (rest : List Nat) (ret : FOREACHENTRYRET)
    (h : ∀ o1 ∈ rest, o + sizeofDIRENTRY ≤ o1) :
    visitedSlots (o :: rest) (some (o, ret)) = [o] := by
  show List.filter (fun o1 => decide (o1 ≤ o)) (o :: rest) = [o]
  rw [List.filter_cons_of_pos (by simp)]
  congr 1
  rw [List.filter_eq_nil_iff]
  intro o1 h1
  have := h o1 h1
  unfold sizeofDIRENTRY at this
  simp only [decide_eq_true_eq]
  omega

theorem visitedSlots_cons_later (o : Nat) (rest : List Nat)
    (stop : Option (Nat × FOREACHENTRYRET))
    (h : ∀ off ret, stop = some (off, ret) → o ≤ off) :
    visitedSlots (o :: rest) stop = o :: visitedSlots rest stop := by
  cases stop with
  | none => rfl
  | some s =>
    obtain ⟨off, ret⟩ := s
    show List.filter (fun o1 => decide (o1 ≤ off)) (o :: rest)
      = o :: List.filter (fun o1 => decide (o1 ≤ off)) rest
    rw [List.filter_cons_of_pos (by simpa using h off ret rfl)]

theorem visitedSlots_subset (offs : List Nat) (stop : Option (Nat × FOREACHENTRYRET)) :
    ∀ o ∈ visitedSlots offs stop, o ∈ offs := by
  intro o ho
  cases stop with
  | none => exact ho
  | some s =>
    obtain ⟨off, ret⟩ := s
    exact (List.mem_filter.mp ho).1

theorem visitAll_logCalls {σ : Type} (f : Visitor σ) (hf : LengthPreserving f) :
    ∀ (offs : List Nat) (v : List Nat) (st : σ) (log : List DIRENTRY),
      offs.Pairwise (fun a b => a + sizeofDIRENTRY ≤ b) →
      (∀ o ∈ offs, o + sizeofDIRENTRY ≤ v.length) →
      visitAll (logCalls f) offs v (st, log) =
        ⟨((visitAll f offs v st).st,
            log ++ (visitedSlots offs (visitAll f offs v st).stop).map (entryAt v)),
          (visitAll f offs v st).view, (visitAll f offs v st).stop⟩ := by
  intro offs
  induction offs with
  | nil => intro v st log _ _; simp [visitAll, visitedSlots]
  | cons o rest ih =>
    intro v st log hpw hin
    rw [List.pairwise_cons] at hpw
    have ho := hin o (List.mem_cons_self _ _)
    have hde := hf st _ (length_entryAt v o ho)
    rcases hfr : f st (entryAt v o) with ⟨r, de, st1⟩
    rw [hfr] at hde
    have hl : (putAt v o de).length = v.length := length_putAt v o de (by rw [hde]; exact ho)
    have hlog : logCalls f (st, log) (entryAt v o) = (r, de, (st1, log ++ [entryAt v o])) := by
      simp [logCalls, hfr]
    cases r with
    | OK =>
      rw [visitAll_cons_ok (logCalls f) o rest v _ _ de hlog,
        visitAll_cons_ok f o rest v st st1 de hfr,
        ih (putAt v o de) st1 _ hpw.2
          (fun o1 h1 => by rw [hl]; exact hin o1 (List.mem_cons_of_mem _ h1))]
      have hlater : ∀ off ret, (visitAll f rest (putAt v o de) st1).stop = some (off, ret) →
          o ≤ off := by
        intro off ret hs
        have := hpw.1 off (visitAll_stop f _ _ _ _ _ hs).1
        omega
      rw [visitedSlots_cons_later o rest _ hlater, List.map_cons, List.append_assoc,
        List.singleton_append]
      have hsame : (visitedSlots rest (visitAll f rest (putAt v o de) st1).stop).map
          (entryAt (putAt v o de))
          = (visitedSlots rest (visitAll f rest (putAt v o de) st1).stop).map (entryAt v) := by
        apply List.map_congr_left
        intro o1 h1
        have hmem := visitedSlots_subset _ _ o1 h1
        exact entryAt_putAt_other v o de o1 (by rw [hde]; exact ho)
          (Or.inr (by rw [hde]; exact hpw.1 o1 hmem))
      rw [hsame]
    | QUIT =>
      rw [visitAll_cons_stop (logCalls f) o rest v _ _ de _ hlog (by decide),
        visitAll_cons_stop f o rest v st st1 de _ hfr (by decide)]
      simp only [visitedSlots_cons_stop o rest _ hpw.1, List.map_cons, List.map_nil]
    | WRITEANDQUIT =>
      rw [visitAll_cons_stop (logCalls f) o rest v _ _ de _ hlog (by decide),
        visitAll_cons_stop f o rest v st st1 de _ hfr (by decide)]
      simp only [visitedSlots_cons_stop o rest _ hpw.1, List.map_cons, List.map_nil]

theorem visitAll_all_ok {σ : Type} (f : Visitor σ)
    (hok : ∀ st de, (f st de).1 = FOREACHENTRYRET.OK) :
    ∀ (offs : List Nat) (v : List Nat) (st : σ), (visitAll f offs v st).stop = none := by
  intro offs
  induction offs with
  | nil => intro v st; rfl
  | cons o rest ih =>
    intro v st
    rcases hfr : f st (entryAt v o) with ⟨r, de, st1⟩
    have := hok st (entryAt v o)
    rw [hfr] at this
    simp only at this
    subst this
    rw [visitAll_cons_ok f o rest v st st1 de hfr]
    exact ih _ _

theorem length_blockSlots (blocksize b : Nat) :
    (blockSlots blocksize b).length = blocksize / sizeofDIRENTRY := by
  simp [blockSlots]

theorem length_flatMap_blockSlots (blocksize : Nat) :
    ∀ n b, ((List.range' b n).flatMap (blockSlots blocksize)).length
      = n * (blocksize / sizeofDIRENTRY) := by
  intro n
  induction n with
  | zero => intro b; simp
  | succ n ih =>
    intro b
    rw [List.range'_succ, List.flatMap_cons, List.length_append, length_blockSlots, ih,
      Nat.succ_mul, Nat.add_comm]

theorem length_slotOffsets (blocksize size : Nat) :
    (slotOffsets blocksize size).length = size / blocksize * (blocksize / sizeofDIRENTRY) := by
  rw [slotOffsets_eq, length_flatMap_blockSlots]

/-! ## The outcome of a scan with any visitor -/

theorem scanOutcome_st {σ : Type} (node : INODE) (blocksize : Nat) (io : List IOEvent)
    (b n rem : Nat) (r : Visit σ) : (scanOutcome node blocksize io b n rem r).st = r.st := by
  unfold scanOutcome
  rcases hs : r.stop with _ | ⟨off, ret⟩
  · rfl
  · cases ret <;> rfl

theorem slot_bounds {blocksize size off : Nat} (h : off ∈ slotOffsets blocksize size) :
    off + sizeofDIRENTRY ≤ size := by
  have := mem_slotOffsets h
  omega

theorem length_visit {σ : Type} (dir : CDirectory) (f : Visitor σ) (hf : LengthPreserving f)
    (st : σ) : (dir.visit f st).view.length = dir.dirnode.data.length :=
  visitAll_length f hf _ _ _ fun _ ho => slot_bounds ho

/-- The scan by any visitor ends with the captured variables of the reference fold. -/
theorem scan_st {σ : Type} (dir : CDirectory) (hbs : 0 < dir.blocksize) (f : Visitor σ)
    (hf : LengthPreserving f) (st : σ) :
    (dir.ForEachEntryNonBlocking f st).st = (dir.visit f st).st := by
  rw [ForEachEntryNonBlocking_visitAll dir hbs f hf st, scanOutcome_st]
  rfl

/-- A scan that no call of the visitor stops. -/
theorem scan_through {σ : Type} (dir : CDirectory) (hbs : 0 < dir.blocksize) (f : Visitor σ)
    (hf : LengthPreserving f) (st : σ) (hstop : (dir.visit f st).stop = none) :
    dir.ForEachEntryNonBlocking f st = scanThrough dir (dir.visit f st).st := by
  rw [ForEachEntryNonBlocking_visitAll dir hbs f hf st]
  unfold CDirectory.visit at hstop
  unfold scanOutcome
  rw [hstop]
  simp only [List.nil_append, Nat.zero_add]
  rfl

/-- A scan that the visitor stops with `QUIT`. -/
theorem scan_quit {σ : Type} (dir : CDirectory) (hbs : 0 < dir.blocksize) (f : Visitor σ)
    (hf : LengthPreserving f) (st : σ) (off : Nat)
    (hstop : (dir.visit f st).stop = some (off, FOREACHENTRYRET.QUIT)) :
    dir.ForEachEntryNonBlocking f st =
      ⟨Status.returned, dir.dirnode, (dir.visit f st).st,
        fullReads dir.blocksize 0 (off / dir.blocksize + 1)⟩ := by
  rw [ForEachEntryNonBlocking_visitAll dir hbs f hf st]
  unfold CDirectory.visit at hstop
  unfold scanOutcome
  rw [hstop]
  simp only [List.nil_append, Nat.sub_zero]
  rfl

/-- The block of the slot at `off`, as the reference fold leaves its bytes. -/
theorem length_visit_block {σ : Type} (dir : CDirectory) (f : Visitor σ)
    (hf : LengthPreserving f) (st : σ) (off : Nat)
    (hoff : off ∈ slotOffsets dir.blocksize dir.dirnode.size) :
    (((dir.visit f st).view.drop (off / dir.blocksize * dir.blocksize)).take
      dir.blocksize).length = dir.blocksize := by
  have hm := mem_slotOffsets hoff
  rw [List.length_take, List.length_drop, length_visit dir f hf st]
  have : dir.dirnode.data.length = dir.dirnode.size := rfl
  omega

/-- A scan that the visitor stops with `WRITEANDQUIT`. -/
theorem scan_write {σ : Type} (dir : CDirectory) (hbs : 0 < dir.blocksize) (f : Visitor σ)
    (hf : LengthPreserving f) (st : σ) (off : Nat)
    (hstop : (dir.visit f st).stop = some (off, FOREACHENTRYRET.WRITEANDQUIT)) :
    dir.ForEachEntryNonBlocking f st =
      ⟨Status.returned,
        { dir.dirnode with
          data := dir.dirnode.data.take (off / dir.blocksize * dir.blocksize)
            ++ ((dir.visit f st).view.drop (off / dir.blocksize * dir.blocksize)).take
                dir.blocksize
            ++ dir.dirnode.data.drop (off / dir.blocksize * dir.blocksize + dir.blocksize) },
        (dir.visit f st).st,
        fullReads dir.blocksize 0 (off / dir.blocksize + 1)
          ++ [IOEvent.write (off / dir.blocksize * dir.blocksize) dir.blocksize
                (((dir.visit f st).view.drop (off / dir.blocksize * dir.blocksize)).take
                  dir.blocksize)]⟩ := by
  have hoff : off ∈ slotOffsets dir.blocksize dir.dirnode.size :=
    (visitAll_stop f _ _ _ _ _ hstop).1
  have hm := mem_slotOffsets hoff
  have hl := length_visit_block dir f hf st off hoff
  have hsz : dir.dirnode.data.length = dir.dirnode.size := rfl
  rw [ForEachEntryNonBlocking_visitAll dir hbs f hf st]
  unfold CDirectory.visit at hstop hl ⊢
  unfold scanOutcome
  rw [hstop]
  simp only [List.nil_append, Nat.sub_zero, if_true, INODE.WriteInternal,
    List.take_of_length_le (Nat.le_of_eq hl)]
  have h0 : off / dir.blocksize * dir.blocksize - dir.dirnode.data.length = 0 := by omega
  rw [h0, List.replicate_zero, List.append_nil]

/-! ## The scan and the reference fold -/

/-- The records on which a scan calls its visitor are those of the slots of the node, in
storage order, up to the slot at which the reference fold stops. -/
theorem scan_calls {σ : Type} (dir : CDirectory) (hbs : 0 < dir.blocksize) (f : Visitor σ)
    (hf : LengthPreserving f) (st : σ) :
    dir.calls f st =
      (visitedSlots (slotOffsets dir.blocksize dir.dirnode.size) (dir.visit f st).stop).map
        (entryAt dir.dirnode.data) := by
  unfold CDirectory.calls
  rw [scan_st dir hbs (logCalls f) (logCalls_lengthPreserving f hf)]
  unfold CDirectory.visit
  rw [visitAll_logCalls f hf (slotOffsets dir.blocksize dir.dirnode.size) dir.dirnode.data st []
    (slotOffsets_pairwise _ _) (fun _ ho => slot_bounds ho)]
  simp

theorem writesOf_fullReads (blocksize b n : Nat) : writesOf (fullReads blocksize b n) = [] := by
  unfold writesOf
  rw [List.filter_eq_nil_iff]
  intro ev hev
  rw [fullReads_no_write blocksize b n ev hev]
  decide

theorem writesOf_scanThrough {σ : Type} (dir : CDirectory) (st : σ) :
    writesOf (scanThrough dir st).io = [] := by
  unfold writesOf
  rw [List.filter_eq_nil_iff]
  intro ev hev
  rw [scanThrough_no_write dir st ev hev]
  decide

theorem writesOf_append_write (blocksize b n ofs size : Nat) (bytes : List Nat) :
    writesOf (fullReads blocksize b n ++ [IOEvent.write ofs size bytes])
      = [IOEvent.write ofs size bytes] := by
  have h := writesOf_fullReads blocksize b n
  unfold writesOf at *
  rw [List.filter_append, h]
  rfl

theorem exVisitor_lengthPreserving (ret : FOREACHENTRYRET) :
    LengthPreserving (exVisitor ret) :=
  fun _ de h => length_setId_entry de _ h

/-- C16. The scan is the reference fold over the slots of the node in storage order (block
0 slot 0, slot 1, ..., then block 1, ...).  For a node made of whole blocks and every
visitor (one that leaves records their size): the scan returns with the captured variables
of the fold; the records on which it calls the visitor are those of the slots in storage
order, once each, up to and including the first at which the visitor does not return `OK`.
When the visitor stops with `QUIT` the node is as before and nothing is written, whatever
the visitor did to the records.  When it stops with `WRITEANDQUIT` at a slot, exactly one
write is made, of one block, at the offset of the block of that slot, with the bytes of
that block as the calls of the visitor left them, and the node is as before outside that
block.  When the visitor returns `OK` at every call, the number of calls is the number of
blocks times (block size / record size), nothing is written and the node is as before. -/
theorem scan_reference_fold {σ : Type} (dir : CDirectory) (hwhole : dir.WholeBlocks)
    (f : Visitor σ) (hf : LengthPreserving f) (st : σ) :
    (dir.ForEachEntryNonBlocking f st).status = Status.returned ∧
    (dir.ForEachEntryNonBlocking f st).st = (dir.visit f st).st ∧
    dir.calls f st =
      (visitedSlots (slotOffsets dir.blocksize dir.dirnode.size) (dir.visit f st).stop).map
        (entryAt dir.dirnode.data) ∧
    (∀ off ret, (dir.visit f st).stop = some (off, ret) →
      off ∈ slotOffsets dir.blocksize dir.dirnode.size ∧ ret ≠ FOREACHENTRYRET.OK) ∧
    ((dir.visit f st).stop = none →
      (dir.ForEachEntryNonBlocking f st).node = dir.dirnode ∧
      writesOf (dir.ForEachEntryNonBlocking f st).io = []) ∧
    (∀ off, (dir.visit f st).stop = some (off, FOREACHENTRYRET.QUIT) →
      (dir.ForEachEntryNonBlocking f st).node = dir.dirnode ∧
      writesOf (dir.ForEachEntryNonBlocking f st).io = []) ∧
    (∀ off, (dir.visit f st).stop = some (off, FOREACHENTRYRET.WRITEANDQUIT) →
      writesOf (dir.ForEachEntryNonBlocking f st).io
        = [IOEvent.write (off / dir.blocksize * dir.blocksize) dir.blocksize
            (((dir.visit f st).view.drop (off / dir.blocksize * dir.blocksize)).take
              dir.blocksize)] ∧
      (((dir.visit f st).view.drop (off / dir.blocksize * dir.blocksize)).take
        dir.blocksize).length = dir.blocksize ∧
      (dir.ForEachEntryNonBlocking f st).node.data
        = dir.dirnode.data.take (off / dir.blocksize * dir.blocksize)
          ++ ((dir.visit f st).view.drop (off / dir.blocksize * dir.blocksize)).take
              dir.blocksize
          ++ dir.dirnode.data.drop (off / dir.blocksize * dir.blocksize + dir.blocksize)) ∧
    ((∀ s de, (f s de).1 = FOREACHENTRYRET.OK) →
      (dir.calls f st).length
        = dir.dirnode.size / dir.blocksize * (dir.blocksize / sizeofDIRENTRY) ∧
      (dir.ForEachEntryNonBlocking f st).node = dir.dirnode ∧
      writesOf (dir.ForEachEntryNonBlocking f st).io = []) := by
  have hbs := hwhole.1
  have hthrough : (dir.visit f st).stop = none →
      (dir.ForEachEntryNonBlocking f st).status = Status.returned ∧
      (dir.ForEachEntryNonBlocking f st).node = dir.dirnode ∧
      writesOf (dir.ForEachEntryNonBlocking f st).io = [] := by
    intro h
    rw [scan_through dir hbs f hf st h]
    exact ⟨(scanThrough_returned_iff dir hbs _).2 hwhole, rfl, writesOf_scanThrough dir _⟩
  have hstatus : (dir.ForEachEntryNonBlocking f st).status = Status.returned := by
    rcases hs : (dir.visit f st).stop with _ | ⟨off, ret⟩
    · exact (hthrough hs).1
    · cases ret with
      | OK => exact absurd rfl (visitAll_stop f _ _ _ _ _ hs).2
      | QUIT => rw [scan_quit dir hbs f hf st off hs]
      | WRITEANDQUIT => rw [scan_write dir hbs f hf st off hs]
  refine ⟨hstatus, scan_st dir hbs f hf st, scan_calls dir hbs f hf st, ?_, ?_, ?_, ?_, ?_⟩
  · intro off ret hs
    exact visitAll_stop f _ _ _ _ _ hs
  · intro h
    exact (hthrough h).2
  · intro off hs
    rw [scan_quit dir hbs f hf st off hs]
    exact ⟨rfl, writesOf_fullReads _ _ _⟩
  · intro off hs
    rw [scan_write dir hbs f hf st off hs]
    exact ⟨writesOf_append_write _ _ _ _ _ _,
      length_visit_block dir f hf st off (visitAll_stop f _ _ _ _ _ hs).1, rfl⟩
  · intro hok
    have hnone : (dir.visit f st).stop = none := visitAll_all_ok f hok _ _ _
    refine ⟨?_, (hthrough hnone).2⟩
    rw [scan_calls dir hbs f hf st, hnone, List.length_map]
    exact length_slotOffsets _ _

set_option maxRecDepth 100000 in
theorem scan_reference_fold_witness :
    exDir.WholeBlocks ∧ LengthPreserving (exVisitor FOREACHENTRYRET.WRITEANDQUIT) ∧
    (exDir.visit (exVisitor FOREACHENTRYRET.WRITEANDQUIT) 0).stop
      = some (104, FOREACHENTRYRET.WRITEANDQUIT) ∧
    exDir.calls (exVisitor FOREACHENTRYRET.WRITEANDQUIT) 0
      = [mkEntry [] INVALIDID, mkEntry [97] 7] ∧
    (exDir.ForEachEntryNonBlocking (exVisitor FOREACHENTRYRET.WRITEANDQUIT) 0).st = 2 ∧
    writesOf (exDir.ForEachEntryNonBlocking (exVisitor FOREACHENTRYRET.WRITEANDQUIT) 0).io
      = [IOEvent.write 0 208 (mkEntry [] 0 ++ mkEntry [97] 1)] ∧
    (exDir.ForEachEntryNonBlocking (exVisitor FOREACHENTRYRET.WRITEANDQUIT) 0).node.data
      = mkEntry [] 0 ++ mkEntry [97] 1 ∧
    (exDir.visit (exVisitor FOREACHENTRYRET.QUIT) 0).stop
      = some (104, FOREACHENTRYRET.QUIT) ∧
    (exDir.ForEachEntryNonBlocking (exVisitor FOREACHENTRYRET.QUIT) 0).node = exDir.dirnode ∧
    (exDir.calls (exVisitor FOREACHENTRYRET.OK) 0).length = 1 * 2 :=
  ⟨by decide, exVisitor_lengthPreserving _, by decide,
    (scan_reference_fold exDir (by decide) _ (exVisitor_lengthPreserving _) 0).2.2.1.trans
      (by decide),
    (scan_reference_fold exDir (by decide) _ (exVisitor_lengthPreserving _) 0).2.1.trans
      (by decide),
    ((scan_reference_fold exDir (by decide) _ (exVisitor_lengthPreserving _) 0).2.2.2.2.2.2.1
      104 (by decide)).1.trans (by decide),
    ((scan_reference_fold exDir (by decide) _ (exVisitor_lengthPreserving _) 0).2.2.2.2.2.2.1
      104 (by decide)).2.2.trans (by decide),
    by decide,
    ((scan_reference_fold exDir (by decide) _ (exVisitor_lengthPreserving _) 0).2.2.2.2.2.1
      104 (by decide)).1,
    ((scan_reference_fold exDir (by decide) (exVisitor FOREACHENTRYRET.OK)
      (exVisitor_lengthPreserving _) 0).2.2.2.2.2.2.2
        (fun s de => by unfold exVisitor; simp)).1⟩

/-! ## Partial reads -/

/-- One pass of the loop of the scan whose read is neither empty nor a full block. -/
theorem scanLoop_short {σ : Type} (blocksize : Nat) (f : Visitor σ) (fuel : Nat)
    (node : INODE) (ofs : Nat) (st : σ) (io : List IOEvent)
    (h0 : (node.ReadInternal ofs blocksize).length ≠ 0)
    (hb : (node.ReadInternal ofs blocksize).length ≠ blocksize) :
    scanLoop blocksize f (fuel + 1) node ofs st io =
      ⟨Status.assertFailed, node, st,
        io ++ [IOEvent.read ofs blocksize (node.ReadInternal ofs blocksize).length]⟩ := by
  unfold scanLoop
  simp [h0, hb]

/-- One pass of the loop of the scan whose read is empty, the block size being positive. -/
theorem scanLoop_empty {σ : Type} (blocksize : Nat) (hbs : 0 < blocksize) (f : Visitor σ)
    (fuel : Nat) (node : INODE) (ofs : Nat) (st : σ) (io : List IOEvent)
    (h0 : (node.ReadInternal ofs blocksize).length = 0) :
    scanLoop blocksize f (fuel + 1) node ofs st io =
      ⟨Status.returned, node, st, io ++ [IOEvent.read ofs blocksize 0]⟩ := by
  have hne : ¬ (0 = blocksize) := by omega
  unfold scanLoop
  simp [h0, hne, forEntries]

/-- The scan stops at its `assert` exactly when the node is not made of whole blocks and
no call of the visitor stops the scan before the read of the rest. -/
theorem scan_assert_iff {σ : Type} (dir : CDirectory) (hbs : 0 < dir.blocksize)
    (f : Visitor σ) (hf : LengthPreserving f) (st : σ) :
    (dir.ForEachEntryNonBlocking f st).status = Status.assertFailed ↔
      dir.dirnode.size % dir.blocksize ≠ 0 ∧ (dir.visit f st).stop = none := by
  rcases hs : (dir.visit f st).stop with _ | ⟨off, ret⟩
  · rw [scan_through dir hbs f hf st hs]
    unfold scanThrough
    by_cases hm : dir.dirnode.size % dir.blocksize = 0
    · simp [hm]
    · simp [hm]
  · cases ret with
    | OK => exact absurd rfl (visitAll_stop f _ _ _ _ _ hs).2
    | QUIT => rw [scan_quit dir hbs f hf st off hs]; simp
    | WRITEANDQUIT => rw [scan_write dir hbs f hf st off hs]; simp

/-- Every slot of a node lies in its full blocks. -/
theorem slot_in_full_blocks {blocksize size off : Nat}
    (h : off ∈ slotOffsets blocksize size) :
    off + sizeofDIRENTRY ≤ size / blocksize * blocksize := by
  have hm := mem_slotOffsets h
  have hlt : off / blocksize < size / blocksize := by
    unfold slotOffsets at h
    rw [List.mem_flatMap] at h
    obtain ⟨b, hb, hoff⟩ := h
    rw [List.mem_range] at hb
    rw [div_of_mem_blockSlots hoff]
    exact hb
  have h1 : (off / blocksize + 1) * blocksize ≤ size / blocksize * blocksize :=
    Nat.mul_le_mul_right _ hlt
  rw [Nat.add_mul, Nat.one_mul] at h1
  omega

/-- C12. A read that is neither empty nor a full block is fatal.  At every pass of the loop
of the scan, whatever the node, the offset, the visitor and its captured variables: if the
read returns a number of bytes that is neither 0 nor the block size, the scan stops at its
`assert` right there, the captured variables and the node being as they were and the read
being the last call made to the node; if the read returns 0 bytes (and the block size is
positive) the scan returns, and that read is the last call.  For a whole scan (of a
visitor that leaves records their size): it stops at the `assert` exactly when the node is
not made of whole blocks and the visitor does not stop the scan in the full blocks; then
the visitor was called on the records of the slots of the full blocks only, every one of
which ends before the offset of the short read, no call made to the node is a write, and
the last call is the short read. -/
theorem partial_read_fatal {σ : Type} (dir : CDirectory) (hbs : 0 < dir.blocksize)
    (f : Visitor σ) (hf : LengthPreserving f) (st : σ) :
    (∀ (fuel : Nat) (node : INODE) (ofs : Nat) (s : σ) (io : List IOEvent),
      ((node.ReadInternal ofs dir.blocksize).length ≠ 0 →
        (node.ReadInternal ofs dir.blocksize).length ≠ dir.blocksize →
        scanLoop dir.blocksize f (fuel + 1) node ofs s io =
          ⟨Status.assertFailed, node, s,
            io ++ [IOEvent.read ofs dir.blocksize
              (node.ReadInternal ofs dir.blocksize).length]⟩) ∧
      ((node.ReadInternal ofs dir.blocksize).length = 0 →
        scanLoop dir.blocksize f (fuel + 1) node ofs s io =
          ⟨Status.returned, node, s, io ++ [IOEvent.read ofs dir.blocksize 0]⟩)) ∧
    ((dir.ForEachEntryNonBlocking f st).status = Status.assertFailed ↔
      dir.dirnode.size % dir.blocksize ≠ 0 ∧ (dir.visit f st).stop = none) ∧
    ((dir.ForEachEntryNonBlocking f st).status = Status.assertFailed →
      (dir.ForEachEntryNonBlocking f st).node = dir.dirnode ∧
      (dir.ForEachEntryNonBlocking f st).st = (dir.visit f st).st ∧
      dir.calls f st
        = (slotOffsets dir.blocksize dir.dirnode.size).map (entryAt dir.dirnode.data) ∧
      (∀ o ∈ slotOffsets dir.blocksize dir.dirnode.size,
        o + sizeofDIRENTRY ≤ dir.dirnode.size / dir.blocksize * dir.blocksize) ∧
      writesOf (dir.ForEachEntryNonBlocking f st).io = [] ∧
      (dir.ForEachEntryNonBlocking f st).io
        = fullReads dir.blocksize 0 (dir.dirnode.size / dir.blocksize)
          ++ [IOEvent.read (dir.dirnode.size / dir.blocksize * dir.blocksize) dir.blocksize
                (dir.dirnode.size % dir.blocksize)]) ∧
    (dir.dirnode.size % dir.blocksize = 0 → (dir.visit f st).stop = none →
      (dir.ForEachEntryNonBlocking f st).status = Status.returned ∧
      (dir.ForEachEntryNonBlocking f st).io
        = fullReads dir.blocksize 0 (dir.dirnode.size / dir.blocksize)
          ++ [IOEvent.read dir.dirnode.size dir.blocksize 0]) := by
  refine ⟨fun fuel node ofs s io =>
      ⟨scanLoop_short dir.blocksize f fuel node ofs s io,
        scanLoop_empty dir.blocksize hbs f fuel node ofs s io⟩,
    scan_assert_iff dir hbs f hf st, ?_, ?_⟩
  · intro h
    have hs := ((scan_assert_iff dir hbs f hf st).1 h).2
    refine ⟨?_, scan_st dir hbs f hf st, ?_, fun o ho => slot_in_full_blocks ho, ?_, ?_⟩
    · rw [scan_through dir hbs f hf st hs]; rfl
    · rw [scan_calls dir hbs f hf st, hs]; rfl
    · rw [scan_through dir hbs f hf st hs]; exact writesOf_scanThrough dir _
    · rw [scan_through dir hbs f hf st hs]; rfl
  · intro hm hs
    rw [scan_through dir hbs f hf st hs]
    unfold scanThrough
    have hsz : dir.dirnode.size / dir.blocksize * dir.blocksize = dir.dirnode.size :=
      Nat.div_mul_cancel (Nat.dvd_of_mod_eq_zero hm)
    simp only [hm, if_true, hsz, and_self]

set_option maxRecDepth 100000 in
theorem partial_read_fatal_witness :
    0 < exShort.blocksize ∧ LengthPreserving (exVisitor FOREACHENTRYRET.OK) ∧
    (exShort.dirnode.ReadInternal 208 exShort.blocksize).length = 3 ∧
    exShort.ForEachEntryNonBlocking (exVisitor FOREACHENTRYRET.OK) 0
      = ⟨Status.assertFailed, exShort.dirnode, 2,
          [IOEvent.read 0 208 208, IOEvent.read 208 208 3]⟩ ∧
    exShort.calls (exVisitor FOREACHENTRYRET.OK) 0
      = [mkEntry [] INVALIDID, mkEntry [97] 7] ∧
    scanLoop exDir.blocksize (exVisitor FOREACHENTRYRET.OK) 1 exDir.dirnode 208 2
        [IOEvent.read 0 208 208]
      = ⟨Status.returned, exDir.dirnode, 2, [IOEvent.read 0 208 208, IOEvent.read 208 208 0]⟩ :=
  ⟨by decide, exVisitor_lengthPreserving _, by decide, rfl,
    ((partial_read_fatal exShort (by decide) (exVisitor FOREACHENTRYRET.OK)
      (exVisitor_lengthPreserving _) 0).2.2.1 (by decide)).2.2.1.trans (by decide),
    ((partial_read_fatal exDir (by decide) (exVisitor FOREACHENTRYRET.OK)
      (exVisitor_lengthPreserving _) 0).1 0 exDir.dirnode 208 2 [IOEvent.read 0 208 208]).2
      (by decide)⟩

/-! ## Whole blocks -/

theorem slotOffsets_of_size_zero (blocksize : Nat) : slotOffsets blocksize 0 = [] := by
  simp [slotOffsets]

/-- No call that `IsEmpty` makes to the node is a write, and the node is as before. -/
theorem IsEmpty_no_write (dir : CDirectory) :
    writesOf dir.IsEmpty.io = [] ∧ dir.IsEmpty.node = dir.dirnode := by
  rcases Nat.eq_zero_or_pos dir.blocksize with hz | hbs
  · have : dir.IsEmpty = ⟨Status.outOfFuel, dir.dirnode, true, [IOEvent.read 0 0 0]⟩ :=
      ForEachEntryNonBlocking_zero dir hz _ _
    rw [this]
    exact ⟨rfl, rfl⟩
  · rw [IsEmpty_eq dir hbs]
    cases firstSlot (fun de => !isTombstone de) dir.blocksize dir.dirnode.data with
    | none => exact ⟨writesOf_scanThrough dir _, rfl⟩
    | some off => exact ⟨writesOf_fullReads _ _ _, rfl⟩

/-- C15. On a directory whose node is made of whole blocks, so that every read of a scan is
well formed, `IsEmpty` returns, and it returns true exactly when the record of every slot
of every block of the node has id `INVALIDID`; in particular it returns true on a node
without blocks.  No call it makes to the node is a write, and the node is as before. -/
theorem IsEmpty_characterisation (dir : CDirectory) (hwhole : dir.WholeBlocks) :
    dir.IsEmpty.status = Status.returned ∧
    (dir.IsEmpty.st = true ↔
      ∀ o ∈ slotOffsets dir.blocksize dir.dirnode.size,
        DIRENTRY.id (entryAt dir.dirnode.data o) = INVALIDID) ∧
    (dir.dirnode.size = 0 → dir.IsEmpty.st = true) ∧
    writesOf dir.IsEmpty.io = [] ∧ dir.IsEmpty.node = dir.dirnode := by
  have hiff : dir.IsEmpty.status = Status.returned ∧ (dir.IsEmpty.st = true ↔
      ∀ o ∈ slotOffsets dir.blocksize dir.dirnode.size,
        DIRENTRY.id (entryAt dir.dirnode.data o) = INVALIDID) := by
    rw [IsEmpty_eq dir hwhole.1]
    cases hfs : firstSlot (fun de => !isTombstone de) dir.blocksize dir.dirnode.data with
    | none =>
      refine ⟨(scanThrough_returned_iff dir hwhole.1 _).2 hwhole, ?_⟩
      constructor
      · intro _ o ho
        have := isTombstone_of_all dir hfs o ho
        simpa [isTombstone] using this
      · intro _; rfl
    | some off =>
      refine ⟨rfl, ?_⟩
      obtain ⟨hmem, hp, _⟩ := (firstSlot_eq_some_iff _ _ _ _).1 hfs
      constructor
      · intro h; cases h
      · intro h
        have := h off hmem
        simp [isTombstone, this] at hp
  refine ⟨hiff.1, hiff.2, ?_, IsEmpty_no_write dir⟩
  intro hz
  rw [hiff.2, hz, slotOffsets_of_size_zero]
  intro o ho
  cases ho

set_option maxRecDepth 100000 in
theorem IsEmpty_characterisation_witness :
    exCreated.WholeBlocks ∧ exFresh.WholeBlocks ∧ exDir.WholeBlocks ∧
    (∀ o ∈ slotOffsets exCreated.blocksize exCreated.dirnode.size,
      DIRENTRY.id (entryAt exCreated.dirnode.data o) = INVALIDID) ∧
    exCreated.IsEmpty.st = true ∧ exFresh.IsEmpty.st = true ∧
    DIRENTRY.id (entryAt exDir.dirnode.data 104) ≠ INVALIDID ∧
    exDir.IsEmpty.st ≠ true ∧ exDir.IsEmpty.status = Status.returned :=
  ⟨by decide, by decide, by decide, by decide,
    (IsEmpty_characterisation exCreated (by decide)).2.1.2 (by decide),
    (IsEmpty_characterisation exFresh (by decide)).2.2.1 (by decide),
    by decide,
    fun h => absurd ((IsEmpty_characterisation exDir (by decide)).2.1.1 h 104 (by decide))
      (by decide),
    (IsEmpty_characterisation exDir (by decide)).1⟩

/-- C17. `IsEmpty` stops at the first record.  On a directory whose node has a first record
(blocks large enough for a record, and at least one block) with an id other than
`INVALIDID`, `IsEmpty` returns false and the only call it makes to the node is one read, of
block 0; this holds however many blocks the node has, and whatever follows the first
record. -/
theorem IsEmpty_short_circuit (dir : CDirectory) (hbs : sizeofDIRENTRY ≤ dir.blocksize)
    (hsize : dir.blocksize ≤ dir.dirnode.size)
    (hlive : DIRENTRY.id (entryAt dir.dirnode.data 0) ≠ INVALIDID) :
    dir.IsEmpty.returns false ∧
    dir.IsEmpty.io = [IOEvent.read 0 dir.blocksize dir.blocksize] ∧
    (readsOf dir.IsEmpty.io).length ≤ 1 ∧
    dir.IsEmpty.node = dir.dirnode := by
  have hpos : 0 < dir.blocksize := Nat.lt_of_lt_of_le (by decide) hbs
  have hfs : firstSlot (fun de => !isTombstone de) dir.blocksize dir.dirnode.data = some 0 := by
    rw [firstSlot_eq_some_iff]
    refine ⟨zero_mem_slotOffsets _ _ hbs hsize, by simp [isTombstone, hlive], ?_⟩
    intro o _ h
    exact absurd h (Nat.not_lt_zero _)
  rw [IsEmpty_eq dir hpos, hfs]
  refine ⟨⟨rfl, rfl⟩, ?_, ?_, rfl⟩
  · simp [fullReads]
  · simp [fullReads, readsOf, IOEvent.isWrite]

set_option maxRecDepth 100000 in
theorem IsEmpty_short_circuit_witness :
    sizeofDIRENTRY ≤ exFull.blocksize ∧ exFull.blocksize ≤ exFull.dirnode.size ∧
    DIRENTRY.id (entryAt exFull.dirnode.data 0) ≠ INVALIDID ∧
    exFull.IsEmpty.returns false ∧ exFull.IsEmpty.io = [IOEvent.read 0 104 104] ∧
    (exFull.after (exFull.AddEntry (mkEntry [98] 8))).dirnode.size = 2 * 104 ∧
    (exFull.after (exFull.AddEntry (mkEntry [98] 8))).IsEmpty.io
      = [IOEvent.read 0 104 104] :=
  ⟨by decide, by decide, by decide,
    (IsEmpty_short_circuit exFull (by decide) (by decide) (by decide)).1,
    (IsEmpty_short_circuit exFull (by decide) (by decide) (by decide)).2.1,
    by decide,
    (IsEmpty_short_circuit (exFull.after (exFull.AddEntry (mkEntry [98] 8))) (by decide)
      (by decide) (by decide)).2.1⟩

/-! ## Reuse of a slot and the other records -/

theorem find?_ext {α : Type} (p q : α → Bool) :
    ∀ l : List α, (∀ a ∈ l, p a = q a) → l.find? p = l.find? q := by
  intro l
  induction l with
  | nil => intro _; rfl
  | cons a l ih =>
    intro h
    rw [List.find?_cons, List.find?_cons, h a (List.mem_cons_self _ _),
      ih fun b hb => h b (List.mem_cons_of_mem _ hb)]

/-- Overwriting the record of a slot by one that `p` tells apart no better leaves the
first slot whose record satisfies `p` where it was. -/
theorem firstSlot_putAt (p : DIRENTRY → Bool) (blocksize : Nat) (data : List Nat) (off : Nat)
    (de : DIRENTRY) (hde : de.length = sizeofDIRENTRY)
    (hoff : off ∈ slotOffsets blocksize data.length)
    (hp : p de = p (entryAt data off)) :
    firstSlot p blocksize (putAt data off de) = firstSlot p blocksize data := by
  have hb : off + de.length ≤ data.length := by rw [hde]; exact slot_bounds hoff
  unfold firstSlot
  rw [length_putAt data off de hb]
  apply find?_ext
  intro o ho
  by_cases hne : o = off
  · subst hne
    rw [entryAt_putAt_same data o de hde (slot_bounds hoff), hp]
  · rw [entryAt_putAt_other data off de o hb]
    rw [hde]
    exact slots_disjoint ho hoff hne

/-- Overwriting the record of a slot that does not match `M` by one that does not match
`M` either does not change how `Find(M)` ends, nor its output entry. -/
theorem Find_putAt (dir : CDirectory) (hbs : 0 < dir.blocksize) (M : List Nat) (e : DIRENTRY)
    (he : e.length = sizeofDIRENTRY) (off : Nat) (de : DIRENTRY)
    (hde : de.length = sizeofDIRENTRY)
    (hoff : off ∈ slotOffsets dir.blocksize dir.dirnode.data.length)
    (hold : matchesName M (entryAt dir.dirnode.data off) = false)
    (hnewp : matchesName M de = false) :
    ((dir.withNode { dir.dirnode with data := putAt dir.dirnode.data off de }).Find
      M e).status = (dir.Find M e).status ∧
    ((dir.withNode { dir.dirnode with data := putAt dir.dirnode.data off de }).Find
      M e).st = (dir.Find M e).st := by
  have hb : off + de.length ≤ dir.dirnode.data.length := by rw [hde]; exact slot_bounds hoff
  have hlen : (putAt dir.dirnode.data off de).length = dir.dirnode.data.length :=
    length_putAt _ _ _ hb
  have hfs1 : firstSlot (matchesName M)
      (dir.withNode { dir.dirnode with data := putAt dir.dirnode.data off de }).blocksize
      (dir.withNode { dir.dirnode with data := putAt dir.dirnode.data off de }).dirnode.data
      = firstSlot (matchesName M) dir.blocksize dir.dirnode.data :=
    firstSlot_putAt (matchesName M) dir.blocksize dir.dirnode.data off de hde hoff
      (by rw [hold, hnewp])
  have h1 := Find_eq (dir.withNode { dir.dirnode with data := putAt dir.dirnode.data off de })
    hbs M e he
  have h2 := Find_eq dir hbs M e he
  rw [hfs1] at h1
  cases hf : firstSlot (matchesName M) dir.blocksize dir.dirnode.data with
  | none =>
    rw [hf] at h1 h2
    rw [h1, h2]
    refine ⟨?_, rfl⟩
    show (if (putAt dir.dirnode.data off de).length % dir.blocksize = 0 then Status.returned
      else Status.assertFailed) = _
    rw [hlen]
    rfl
  | some offM =>
    rw [hf] at h1 h2
    rw [h1, h2]
    refine ⟨rfl, ?_⟩
    obtain ⟨hmemM, hpM, _⟩ := (firstSlot_eq_some_iff _ _ _ _).1 hf
    have hne : offM ≠ off := by
      intro h
      rw [h, hold] at hpM
      cases hpM
    refine entryAt_putAt_other _ _ _ _ hb ?_
    rw [hde]
    exact slots_disjoint hmemM hoff hne

/-- C18. `AddEntry` reuses the first tombstone and disturbs nothing else.  On a directory
with a slot whose record has id `INVALIDID`, there is a first such slot in storage order,
at offset `off`; `AddEntry` returns, the node afterwards is the node before with the bytes
of that slot overwritten by the whole new record, so the size of the node and the record of
every other slot are unchanged, and for every name `M` that the name field of the new entry
does not compare equal to, `Find(M)` ends in the same way and with the same output entry
before and after. -/
theorem AddEntry_reuse_frame (dir : CDirectory) (denew e : DIRENTRY)
    (hnew : denew.length = sizeofDIRENTRY) (he : e.length = sizeofDIRENTRY)
    (hex : ∃ o ∈ slotOffsets dir.blocksize dir.dirnode.size,
      DIRENTRY.id (entryAt dir.dirnode.data o) = INVALIDID) :
    ∃ off, off ∈ slotOffsets dir.blocksize dir.dirnode.size ∧
      DIRENTRY.id (entryAt dir.dirnode.data off) = INVALIDID ∧
      (∀ o ∈ slotOffsets dir.blocksize dir.dirnode.size, o < off →
        DIRENTRY.id (entryAt dir.dirnode.data o) ≠ INVALIDID) ∧
      (dir.AddEntry denew).status = Status.returned ∧
      (dir.AddEntry denew).node.data = putAt dir.dirnode.data off denew ∧
      (dir.AddEntry denew).node.size = dir.dirnode.size ∧
      entryAt (dir.AddEntry denew).node.data off = denew ∧
      (∀ o ∈ slotOffsets dir.blocksize dir.dirnode.size, o ≠ off →
        entryAt (dir.AddEntry denew).node.data o = entryAt dir.dirnode.data o) ∧
      (∀ M : List Nat, strncmp (DIRENTRY.name denew) (c_str M) (64 + 32) ≠ 0 →
        ((dir.after (dir.AddEntry denew)).Find M e).status = (dir.Find M e).status ∧
        ((dir.after (dir.AddEntry denew)).Find M e).st = (dir.Find M e).st) := by
  have hex1 : ∃ o ∈ slotOffsets dir.blocksize dir.dirnode.data.length,
      isTombstone (entryAt dir.dirnode.data o) = true := by
    obtain ⟨o, ho, hid⟩ := hex
    exact ⟨o, ho, by simp [isTombstone, hid]⟩
  obtain ⟨off, hfs⟩ := firstSlot_of_exists _ _ _ hex1
  have hbs : 0 < dir.blocksize := firstSlot_pos hfs
  obtain ⟨hmem, hp, hbefore⟩ := (firstSlot_eq_some_iff _ _ _ _).1 hfs
  have hbound : off + sizeofDIRENTRY ≤ dir.dirnode.data.length := slot_bounds hmem
  have hb : off + denew.length ≤ dir.dirnode.data.length := by rw [hnew]; exact hbound
  have hlen : (putAt dir.dirnode.data off denew).length = dir.dirnode.data.length :=
    length_putAt _ _ _ hb
  have hother : ∀ o ∈ slotOffsets dir.blocksize dir.dirnode.size, o ≠ off →
      entryAt (putAt dir.dirnode.data off denew) o = entryAt dir.dirnode.data o := by
    intro o ho hne
    refine entryAt_putAt_other _ _ _ _ hb ?_
    rw [hnew]
    exact slots_disjoint ho hmem hne
  refine ⟨off, hmem, by simpa [isTombstone] using hp, ?_, ?_⟩
  · intro o ho hlt
    have := hbefore o ho hlt
    simpa [isTombstone] using this
  rw [AddEntry_reuse dir hbs denew hnew off hfs]
  refine ⟨rfl, rfl, hlen, entryAt_putAt_same _ _ _ hnew hbound, hother, ?_⟩
  intro M hM
  exact Find_putAt dir hbs M e he off denew hnew hmem (matchesName_of_tombstone M _ hp)
    (by simp [matchesName, hM])

set_option maxRecDepth 100000 in
theorem AddEntry_reuse_frame_witness :
    (mkEntry [98] 8).length = sizeofDIRENTRY ∧ (mkEntry [] 0).length = sizeofDIRENTRY ∧
    (∃ o ∈ slotOffsets exDir.blocksize exDir.dirnode.size,
      DIRENTRY.id (entryAt exDir.dirnode.data o) = INVALIDID) ∧
    strncmp (DIRENTRY.name (mkEntry [98] 8)) (c_str [97]) (64 + 32) ≠ 0 ∧
    (exDir.AddEntry (mkEntry [98] 8)).node.data = mkEntry [98] 8 ++ mkEntry [97] 7 ∧
    ((exDir.after (exDir.AddEntry (mkEntry [98] 8))).Find [97] (mkEntry [] 0)).st
      = mkEntry [97] 7 ∧
    (exDir.Find [97] (mkEntry [] 0)).st = mkEntry [97] 7 :=
  ⟨by decide, by decide, ⟨0, by decide, by decide⟩, by decide, by decide,
    (AddEntry_reuse_frame exDir (mkEntry [98] 8) (mkEntry [] 0) (by decide) (by decide)
      ⟨0, by decide, by decide⟩).elim
      fun _ h => (h.2.2.2.2.2.2.2.2 [97] (by decide)).2.trans (by decide),
    by decide⟩

/-! ## The block that `AddEntry` appends -/

set_option maxRecDepth 100000 in
/-- C19, as stated, fails in two ways.  With blocks of one record (block size 104) and a
node whose only slot is live, `AddEntry` appends a block that has no slot 1, and a second
`AddEntry` appends one more block: the size of the node changes.  With blocks of two
records and an entry whose id is `INVALIDID`, the entry that `AddEntry` appends is itself a
tombstone, and a second `AddEntry` overwrites it in slot 0 of the new block and leaves slot
1 as it was. -/
theorem appended_block_counterexample :
    (∀ o ∈ slotOffsets exFull.blocksize exFull.dirnode.size,
      DIRENTRY.id (entryAt exFull.dirnode.data o) ≠ INVALIDID) ∧
    (exFull.AddEntry (mkEntry [98] 8)).status = Status.returned ∧
    (exFull.AddEntry (mkEntry [98] 8)).node.size = 2 * 104 ∧
    ((exFull.after (exFull.AddEntry (mkEntry [98] 8))).AddEntry (mkEntry [99] 9)).status
      = Status.returned ∧
    ((exFull.after (exFull.AddEntry (mkEntry [98] 8))).AddEntry (mkEntry [99] 9)).node.size
      = 3 * 104 ∧
    (∀ o ∈ slotOffsets exFull2.blocksize exFull2.dirnode.size,
      DIRENTRY.id (entryAt exFull2.dirnode.data o) ≠ INVALIDID) ∧
    (exFull2.AddEntry (mkEntry [99] INVALIDID)).status = Status.returned ∧
    ((exFull2.after (exFull2.AddEntry (mkEntry [99] INVALIDID))).AddEntry
      (mkEntry [100] 10)).status = Status.returned ∧
    entryAt ((exFull2.after (exFull2.AddEntry (mkEntry [99] INVALIDID))).AddEntry
      (mkEntry [100] 10)).node.data 208 = mkEntry [100] 10 ∧
    entryAt ((exFull2.after (exFull2.AddEntry (mkEntry [99] INVALIDID))).AddEntry
      (mkEntry [100] 10)).node.data (208 + 104) ≠ mkEntry [100] 10 := by
  decide

theorem mem_slotOffsets_extended (blocksize size off : Nat) (hpos : 0 < blocksize)
    (hdvd : blocksize ∣ size) :
    off ∈ slotOffsets blocksize (size + blocksize) ↔
      off ∈ slotOffsets blocksize size
        ∨ ∃ j, j < blocksize / sizeofDIRENTRY ∧ off = size + j * sizeofDIRENTRY := by
  rw [mem_slotOffsets_iff, mem_slotOffsets_iff, Nat.add_div_right _ hpos]
  have hsz : size / blocksize * blocksize = size := Nat.div_mul_cancel hdvd
  constructor
  · rintro ⟨b, j, hb, hj, rfl⟩
    rcases Nat.lt_or_ge b (size / blocksize) with hlt | hge
    · exact Or.inl ⟨b, j, hlt, hj, rfl⟩
    · have : b = size / blocksize := by omega
      subst this
      exact Or.inr ⟨j, hj, by rw [hsz]⟩
  · rintro (⟨b, j, hb, hj, rfl⟩ | ⟨j, hj, rfl⟩)
    · exact ⟨b, j, Nat.lt_succ_of_lt hb, hj, rfl⟩
    · exact ⟨size / blocksize, j, Nat.lt_succ_self _, hj, by rw [hsz]⟩

theorem id_of_all_FF : DIRENTRY.id (List.replicate sizeofDIRENTRY 0xFF) = INVALIDID := by
  decide

/-- C19, as the code has it.  On a directory of whole blocks, each large enough for a
record, with no tombstoned slot, `AddEntry` returns and appends one block: the new entry
is in its slot 0, every byte of the block behind that slot is `0xFF`, and every other slot
of the block holds 104 bytes `0xFF` and reads back with id `INVALIDID`.  When a block has
room for two records and the id of the entry just added is not `INVALIDID`, a second
`AddEntry` right afterwards returns, places its entry in slot 1 of that block and does
not change the size of the node. -/
theorem appended_block_tombstoned (dir : CDirectory) (denew denew2 : DIRENTRY)
    (hnew : denew.length = sizeofDIRENTRY) (hnew2 : denew2.length = sizeofDIRENTRY)
    (hbs : sizeofDIRENTRY ≤ dir.blocksize) (hwhole : dir.WholeBlocks)
    (hnone : ∀ o ∈ slotOffsets dir.blocksize dir.dirnode.size,
      DIRENTRY.id (entryAt dir.dirnode.data o) ≠ INVALIDID) :
    ∀ d1 : CDirectory, d1 = dir.after (dir.AddEntry denew) →
      (dir.AddEntry denew).status = Status.returned ∧
      d1.dirnode.size = dir.dirnode.size + dir.blocksize ∧
      entryAt d1.dirnode.data dir.dirnode.size = denew ∧
      (∀ i, dir.dirnode.size + sizeofDIRENTRY ≤ i → i < dir.dirnode.size + dir.blocksize →
        d1.dirnode.data[i]? = some 0xFF) ∧
      (∀ j, 1 ≤ j → j < dir.blocksize / sizeofDIRENTRY →
        entryAt d1.dirnode.data (dir.dirnode.size + j * sizeofDIRENTRY)
          = List.replicate sizeofDIRENTRY 0xFF ∧
        DIRENTRY.id (entryAt d1.dirnode.data (dir.dirnode.size + j * sizeofDIRENTRY))
          = INVALIDID) ∧
      (2 * sizeofDIRENTRY ≤ dir.blocksize → DIRENTRY.id denew ≠ INVALIDID →
        (d1.AddEntry denew2).status = Status.returned ∧
        (d1.AddEntry denew2).node.data
          = putAt d1.dirnode.data (dir.dirnode.size + sizeofDIRENTRY) denew2 ∧
        entryAt (d1.AddEntry denew2).node.data (dir.dirnode.size + sizeofDIRENTRY) = denew2 ∧
        (d1.AddEntry denew2).node.size = d1.dirnode.size) := by
  intro d1 hd1
  subst hd1
  have hpos := hwhole.1
  have hfull : firstSlot isTombstone dir.blocksize dir.dirnode.data = none := by
    rw [firstSlot_eq_none_iff]
    intro o ho
    simp [isTombstone, hnone o ho]
  obtain ⟨hst, hdata⟩ := AddEntry_appended dir denew hnew hbs hwhole hfull
  have hsz : dir.dirnode.data.length = dir.dirnode.size := rfl
  have hd1 : (dir.after (dir.AddEntry denew)).dirnode.data
      = dir.dirnode.data ++ denew ++ List.replicate (dir.blocksize - sizeofDIRENTRY) 0xFF :=
    hdata
  have hlen1 : (dir.after (dir.AddEntry denew)).dirnode.data.length
      = dir.dirnode.size + dir.blocksize := by
    rw [hd1, List.length_append, List.length_append, List.length_replicate, hnew, hsz]
    omega
  have hslot0 : entryAt (dir.after (dir.AddEntry denew)).dirnode.data dir.dirnode.size
      = denew := by
    rw [hd1]
    exact (entryAt_appended dir.dirnode.data denew _ hnew).1
  have hold : ∀ o, o + sizeofDIRENTRY ≤ dir.dirnode.size →
      entryAt (dir.after (dir.AddEntry denew)).dirnode.data o = entryAt dir.dirnode.data o := by
    intro o ho
    rw [hd1]
    exact (entryAt_appended dir.dirnode.data denew _ hnew).2 o ho
  have hfree : ∀ j, 1 ≤ j → j < dir.blocksize / sizeofDIRENTRY →
      entryAt (dir.after (dir.AddEntry denew)).dirnode.data
        (dir.dirnode.size + j * sizeofDIRENTRY) = List.replicate sizeofDIRENTRY 0xFF := by
    intro j h1 hj
    have hjb := slot_in_block dir.blocksize j hj
    have h1s := slot_add_le 0 j h1
    rw [Nat.zero_mul, Nat.zero_add] at h1s
    have hpos2 : dir.dirnode.size + j * sizeofDIRENTRY
        = (dir.dirnode.data ++ denew).length + (j * sizeofDIRENTRY - sizeofDIRENTRY) := by
      rw [List.length_append, hnew, hsz]; omega
    rw [hd1, hpos2, entryAt_append_right]
    exact entryAt_replicate _ _ _ (by omega)
  refine ⟨hst, hlen1, hslot0, ?_, fun j h1 hj => ⟨hfree j h1 hj, ?_⟩, ?_⟩
  · intro i hlo hhi
    rw [hd1, List.getElem?_append_right (by rw [List.length_append, hnew, hsz]; exact hlo)]
    rw [List.getElem?_replicate]
    rw [if_pos (by rw [List.length_append, hnew, hsz]; omega)]
  · rw [hfree j h1 hj]; exact id_of_all_FF
  · intro h2 hvalid
    have hnd : 1 < dir.blocksize / sizeofDIRENTRY :=
      (Nat.le_div_iff_mul_le (by decide : 0 < sizeofDIRENTRY)).2 h2
    have hmem1 : dir.dirnode.size + sizeofDIRENTRY
        ∈ slotOffsets dir.blocksize (dir.dirnode.size + dir.blocksize) :=
      (mem_slotOffsets_extended _ _ _ hpos hwhole.2).2
        (Or.inr ⟨1, hnd, by rw [Nat.one_mul]⟩)
    have hfs : firstSlot isTombstone (dir.after (dir.AddEntry denew)).blocksize
        (dir.after (dir.AddEntry denew)).dirnode.data
          = some (dir.dirnode.size + sizeofDIRENTRY) := by
      rw [firstSlot_eq_some_iff, hlen1]
      refine ⟨hmem1, ?_, ?_⟩
      · have := hfree 1 (Nat.le_refl _) hnd
        rw [Nat.one_mul] at this
        rw [this]
        decide
      · intro o ho hlt
        rcases (mem_slotOffsets_extended _ _ _ hpos hwhole.2).1 ho with hin | ⟨j, hj, rfl⟩
        · rw [hold o (slot_bounds hin)]
          simp [isTombstone, hnone o hin]
        · have hj0 : j = 0 := by
            rcases Nat.eq_zero_or_pos j with h | h
            · exact h
            · have := slot_add_le 0 j h
              rw [Nat.zero_mul, Nat.zero_add] at this
              omega
          subst hj0
          rw [Nat.zero_mul, Nat.add_zero, hslot0]
          simp [isTombstone, hvalid]
    have hb : dir.dirnode.size + sizeofDIRENTRY + denew2.length
        ≤ (dir.after (dir.AddEntry denew)).dirnode.data.length := by
      rw [hlen1, hnew2]; unfold sizeofDIRENTRY at *; omega
    rw [AddEntry_reuse (dir.after (dir.AddEntry denew)) hpos denew2 hnew2 _ hfs]
    refine ⟨rfl, rfl, ?_, ?_⟩
    · exact entryAt_putAt_same _ _ _ hnew2 (by rw [hnew2] at hb; exact hb)
    · exact length_putAt _ _ _ hb

set_option maxRecDepth 100000 in
theorem appended_block_tombstoned_witness :
    (mkEntry [99] 9).length = sizeofDIRENTRY ∧ (mkEntry [100] 10).length = sizeofDIRENTRY ∧
    sizeofDIRENTRY ≤ exFull2.blocksize ∧ exFull2.WholeBlocks ∧
    (∀ o ∈ slotOffsets exFull2.blocksize exFull2.dirnode.size,
      DIRENTRY.id (entryAt exFull2.dirnode.data o) ≠ INVALIDID) ∧
    2 * sizeofDIRENTRY ≤ exFull2.blocksize ∧ DIRENTRY.id (mkEntry [99] 9) ≠ INVALIDID ∧
    entryAt (exFull2.after (exFull2.AddEntry (mkEntry [99] 9))).dirnode.data 312
      = List.replicate 104 0xFF ∧
    ((exFull2.after (exFull2.AddEntry (mkEntry [99] 9))).AddEntry (mkEntry [100] 10)).node.data
      = mkEntry [97] 7 ++ mkEntry [98] 8 ++ mkEntry [99] 9 ++ mkEntry [100] 10 :=
  ⟨by decide, by decide, by decide, by decide, by decide, by decide, by decide,
    ((appended_block_tombstoned exFull2 (mkEntry [99] 9) (mkEntry [100] 10) (by decide)
      (by decide) (by decide) (by decide) (by decide) _ rfl).2.2.2.2.1 1 (by decide)
      (by decide)).1,
    ((appended_block_tombstoned exFull2 (mkEntry [99] 9) (mkEntry [100] 10) (by decide)
      (by decide) (by decide) (by decide) (by decide) _ rfl).2.2.2.2.2 (by decide)
      (by decide)).2.1.trans (by decide)⟩

/-! ## Names -/

theorem cString_cons (x : Nat) (t : List Nat) (n : Nat) :
    cString (x :: t) (n + 1) = if x ≠ 0 then x :: cString t n else [] := by
  unfold cString
  rw [List.take_succ_cons, List.takeWhile_cons]
  by_cases hx : x = 0
  · simp [hx]
  · simp [hx]

theorem cString_nil (n : Nat) : cString [] n = [] := by
  simp [cString]

theorem cString_zero (a : List Nat) : cString a 0 = [] := by
  simp [cString]

/-- The libc `strncmp` returns 0 exactly when its arguments hold the same C string in their
first `n` bytes. -/
theorem strncmp_eq_zero_iff : ∀ (n : Nat) (a b : List Nat),
    strncmp a b n = 0 ↔ cString a n = cString b n := by
  intro n
  induction n with
  | zero => intro a b; simp [strncmp, cString_zero]
  | succ n ih =>
    intro a b
    unfold strncmp
    cases a with
    | nil =>
      cases b with
      | nil => simp [cString_nil]
      | cons y b =>
        simp only [List.headD_nil, List.headD_cons, cString_nil, cString_cons]
        by_cases hy : y = 0
        · simp [hy]
        · have : (0 : Nat) ≠ y := fun h => hy h.symm
          simp only [this, ne_eq, not_false_eq_true, if_true, hy]
          constructor
          · intro h; omega
          · intro h; cases h
    | cons x a =>
      cases b with
      | nil =>
        simp only [List.headD_nil, List.headD_cons, cString_nil, cString_cons]
        by_cases hx : x = 0
        · simp [hx]
        · simp only [hx, ne_eq, not_false_eq_true, if_true]
          constructor
          · intro h; omega
          · intro h; cases h
      | cons y b =>
        simp only [List.headD_cons, List.tail_cons, cString_cons]
        by_cases hxy : x = y
        · subst hxy
          by_cases hx : x = 0
          · simp [hx]
          · simp only [ne_eq, not_true_eq_false, if_false, hx, not_false_eq_true, if_true,
              List.cons.injEq, true_and]
            exact ih a b
        · simp only [ne_eq, hxy, not_false_eq_true, if_true]
          constructor
          · intro h; omega
          · intro h
            exfalso
            by_cases hx : x = 0
            · by_cases hy : y = 0
              · exact hxy (hx.trans hy.symm)
              · simp [hx, hy] at h
            · by_cases hy : y = 0
              · simp [hx, hy] at h
              · simp [hx, hy] at h
                exact hxy h.1

/-- Zero bytes behind a name do not change the C string it holds. -/
theorem cString_append_zeros : ∀ (s : List Nat) (n m : Nat),
    cString (s ++ List.replicate m 0) n = cString s n := by
  intro s
  induction s with
  | nil =>
    intro n m
    rw [List.nil_append, cString_nil]
    cases n with
    | zero => exact cString_zero _
    | succ n =>
      cases m with
      | zero => exact cString_nil _
      | succ m => rw [List.replicate_succ, cString_cons]; simp
  | cons x t ih =>
    intro n m
    cases n with
    | zero => rw [cString_zero, cString_zero]
    | succ n => rw [List.cons_append, cString_cons, cString_cons, ih]

theorem cString_c_str (s : List Nat) (n : Nat) : cString (c_str s) n = cString s n :=
  cString_append_zeros s n 1

theorem cString_take (s : List Nat) (n : Nat) : cString (s.take n) n = cString s n := by
  unfold cString
  rw [List.take_take, Nat.min_self]

theorem cString_nameBlock (s : List Nat) : cString (nameBlock s) NAMELEN = cString s NAMELEN := by
  unfold nameBlock
  rw [cString_take, cString_append_zeros]

theorem cString_of_no_zero (s : List Nat) (n : Nat) (h : ∀ c ∈ s, c ≠ 0) :
    cString s n = s.take n := by
  unfold cString
  rw [List.takeWhile_eq_self_iff]
  intro c hc
  simpa using h c (List.mem_of_mem_take hc)

theorem nameBlock_of_take (s1 s2 : List Nat) (h : s1.take NAMELEN = s2.take NAMELEN) :
    nameBlock s1 = nameBlock s2 := by
  unfold nameBlock
  have hl : min NAMELEN s1.length = min NAMELEN s2.length := by
    have := congrArg List.length h
    rwa [List.length_take, List.length_take] at this
  rw [List.take_append_eq_append_take, List.take_append_eq_append_take, h]
  congr 1
  rw [List.take_replicate, List.take_replicate]
  congr 1
  omega

/-- How `Find` and `RemoveEntry` test a record against a name. -/
theorem matchesName_iff_cString (s : List Nat) (de : DIRENTRY) :
    matchesName s de = true ↔
      DIRENTRY.id de ≠ INVALIDID
        ∧ cString (DIRENTRY.name de) NAMELEN = cString s NAMELEN := by
  rw [matchesName_iff]
  have : (64 + 32 : Nat) = NAMELEN := rfl
  rw [this, strncmp_eq_zero_iff, cString_c_str]

theorem findVisitor_quit_iff (s : List Nat) (e de : DIRENTRY) :
    (findVisitor s e de).1 = FOREACHENTRYRET.QUIT ↔ matchesName s de = true := by
  rw [matchesName_iff]
  unfold findVisitor
  by_cases hid : DIRENTRY.id de = INVALIDID
  · simp [hid]
  · by_cases hcmp : strncmp (DIRENTRY.name de) (c_str s) (64 + 32) = 0
    · simp [hid, hcmp]
    · simp [hid, hcmp]

theorem removeVisitor_write_iff (s : List Nat) (e de : DIRENTRY) :
    (removeVisitor s e de).1 = FOREACHENTRYRET.WRITEANDQUIT ↔ matchesName s de = true := by
  rw [matchesName_iff]
  unfold removeVisitor
  by_cases hid : DIRENTRY.id de = INVALIDID
  · simp [hid]
  · by_cases hcmp : strncmp (DIRENTRY.name de) (c_str s) (64 + 32) = 0
    · simp [hid, hcmp]
    · simp [hid, hcmp]

/-- The comparison of a name field with a name looks at the first `NAMELEN` bytes of the
name only. -/
theorem strncmp_c_str_take (a s1 s2 : List Nat) (h : s1.take NAMELEN = s2.take NAMELEN) :
    (strncmp a (c_str s1) (64 + 32) = 0) = (strncmp a (c_str s2) (64 + 32) = 0) := by
  have h96 : (64 + 32 : Nat) = NAMELEN := rfl
  apply propext
  rw [h96, strncmp_eq_zero_iff, strncmp_eq_zero_iff, cString_c_str, cString_c_str,
    ← cString_take s1, ← cString_take s2, h]

theorem findVisitor_take (s1 s2 : List Nat) (h : s1.take NAMELEN = s2.take NAMELEN) :
    findVisitor s1 = findVisitor s2 := by
  funext e de
  unfold findVisitor
  simp only [strncmp_c_str_take (DIRENTRY.name de) s1 s2 h]

theorem removeVisitor_take (s1 s2 : List Nat) (h : s1.take NAMELEN = s2.take NAMELEN) :
    removeVisitor s1 = removeVisitor s2 := by
  funext e de
  unfold removeVisitor
  simp only [strncmp_c_str_take (DIRENTRY.name de) s1 s2 h]

set_option maxRecDepth 100000 in
/-- C14 fails as stated: the comparison is that of C strings and stops at a zero byte.  The
record of the first example holds the name field `a`, zero, `b`, zeros, which is not the
name `a` as a block of 96 bytes, and `Find` and `RemoveEntry` of the name `a` take it as
matching.  The record of the second example holds the name field `a`, zeros, which is not
the name `a`, zero, `b` as a block of 96 bytes, and `Find` and `RemoveEntry` of that name
take it as matching. -/
theorem name_block_counterexample :
    DIRENTRY.id (entryAt exJunk.dirnode.data 0) ≠ INVALIDID ∧
    DIRENTRY.name (entryAt exJunk.dirnode.data 0) ≠ nameBlock [97] ∧
    (findVisitor [97] (mkEntry [] 0) (entryAt exJunk.dirnode.data 0)).1
      = FOREACHENTRYRET.QUIT ∧
    (exJunk.Find [97] (mkEntry [] 0)).st = entryAt exJunk.dirnode.data 0 ∧
    (exJunk.RemoveEntry [97] (mkEntry [] 0)).st = entryAt exJunk.dirnode.data 0 ∧
    DIRENTRY.id (entryAt exFull.dirnode.data 0) ≠ INVALIDID ∧
    DIRENTRY.name (entryAt exFull.dirnode.data 0) ≠ nameBlock [97, 0, 98] ∧
    (exFull.Find [97, 0, 98] (mkEntry [] 0)).st = entryAt exFull.dirnode.data 0 ∧
    (exFull.RemoveEntry [97, 0, 98] (mkEntry [] 0)).st = entryAt exFull.dirnode.data 0 := by
  decide

/-- C14, as the code has it.  `Find` and `RemoveEntry` take a record as matching the name
`s` (their visitors stop at it) exactly when its id is not `INVALIDID` and the name field
and `s` hold the same C string in their first 96 bytes: they agree up to the first zero
byte, or on all 96 bytes when there is none.  When the name field is a name without a zero
byte cut or zero-padded to 96 bytes and `s` has no zero byte, that is when the name field
equals `s` as one block of 96 bytes.  Two names that agree on their first 96 bytes give
the same visitors, so `Find` and `RemoveEntry` do the same with both on every directory. -/
theorem name_matching (s : List Nat) (e de : DIRENTRY) :
    ((findVisitor s e de).1 = FOREACHENTRYRET.QUIT ↔
      DIRENTRY.id de ≠ INVALIDID
        ∧ cString (DIRENTRY.name de) NAMELEN = cString s NAMELEN) ∧
    ((removeVisitor s e de).1 = FOREACHENTRYRET.WRITEANDQUIT ↔
      DIRENTRY.id de ≠ INVALIDID
        ∧ cString (DIRENTRY.name de) NAMELEN = cString s NAMELEN) ∧
    (∀ n0 : List Nat, (∀ c ∈ n0, c ≠ 0) → DIRENTRY.name de = nameBlock n0 →
      (∀ c ∈ s, c ≠ 0) →
      ((findVisitor s e de).1 = FOREACHENTRYRET.QUIT ↔
        DIRENTRY.id de ≠ INVALIDID ∧ DIRENTRY.name de = nameBlock s) ∧
      ((removeVisitor s e de).1 = FOREACHENTRYRET.WRITEANDQUIT ↔
        DIRENTRY.id de ≠ INVALIDID ∧ DIRENTRY.name de = nameBlock s)) ∧
    (∀ s2 : List Nat, s.take NAMELEN = s2.take NAMELEN →
      (findVisitor s e de).1 = (findVisitor s2 e de).1 ∧
      (removeVisitor s e de).1 = (removeVisitor s2 e de).1 ∧
      ∀ dir : CDirectory,
        dir.Find s e = dir.Find s2 e ∧ dir.RemoveEntry s e = dir.RemoveEntry s2 e) := by
  have hblock : ∀ n0 : List Nat, (∀ c ∈ n0, c ≠ 0) → DIRENTRY.name de = nameBlock n0 →
      (∀ c ∈ s, c ≠ 0) →
      (matchesName s de = true ↔
        DIRENTRY.id de ≠ INVALIDID ∧ DIRENTRY.name de = nameBlock s) := by
    intro n0 hn0 hname hs
    rw [matchesName_iff_cString, hname, cString_nameBlock]
    constructor
    · rintro ⟨hid, hc⟩
      rw [cString_of_no_zero n0 _ hn0, cString_of_no_zero s _ hs] at hc
      exact ⟨hid, nameBlock_of_take n0 s hc⟩
    · rintro ⟨hid, hb⟩
      refine ⟨hid, ?_⟩
      rw [← cString_nameBlock n0, hb, cString_nameBlock]
  refine ⟨?_, ?_, ?_, ?_⟩
  · rw [findVisitor_quit_iff, matchesName_iff_cString]
  · rw [removeVisitor_write_iff, matchesName_iff_cString]
  · intro n0 hn0 hname hs
    rw [findVisitor_quit_iff, removeVisitor_write_iff]
    exact ⟨hblock n0 hn0 hname hs, hblock n0 hn0 hname hs⟩
  · intro s2 h
    refine ⟨by rw [findVisitor_take s s2 h], by rw [removeVisitor_take s s2 h], ?_⟩
    intro dir
    unfold CDirectory.Find CDirectory.RemoveEntry
    rw [findVisitor_take s s2 h, removeVisitor_take s s2 h]
    exact ⟨rfl, rfl⟩

set_option maxRecDepth 100000 in
theorem name_matching_witness :
    (∀ c ∈ [97], c ≠ 0) ∧ DIRENTRY.name (mkEntry [97] 7) = nameBlock [97] ∧
    (List.replicate 96 65 ++ [66]).take NAMELEN = (List.replicate 96 65 ++ [67]).take NAMELEN ∧
    (findVisitor [97] (mkEntry [] 0) (mkEntry [97] 7)).1 = FOREACHENTRYRET.QUIT ∧
    (exLong.Find (List.replicate 96 65 ++ [66]) (mkEntry [] 0)).st
      = entryAt exLong.dirnode.data 0 ∧
    exLong.Find (List.replicate 96 65 ++ [66]) (mkEntry [] 0)
      = exLong.Find (List.replicate 96 65 ++ [67]) (mkEntry [] 0) :=
  ⟨by decide, by decide, by decide,
    ((name_matching [97] (mkEntry [] 0) (mkEntry [97] 7)).2.2.1 [97] (by decide) (by decide)
      (by decide)).1.2 ⟨by decide, by decide⟩,
    by decide,
    ((name_matching (List.replicate 96 65 ++ [66]) (mkEntry [] 0) []).2.2.2
      (List.replicate 96 65 ++ [67]) (by decide)).2.2 exLong |>.1⟩

/-! ## Creation of directories and files -/

theorem forEntries_no_write {σ : Type} (f : Visitor σ)
    (hq : ∀ st de, (f st de).1 ≠ FOREACHENTRYRET.WRITEANDQUIT) :
    ∀ k j (buf : List Nat) (st : σ),
      (forEntries f k j buf st).1 ≠ FOREACHENTRYRET.WRITEANDQUIT := by
  intro k
  induction k with
  | zero => intro j buf st; simp [forEntries]
  | succ k ih =>
    intro j buf st
    unfold forEntries
    have := hq st (entryAt buf (j * sizeofDIRENTRY))
    rcases hfr : f st (entryAt buf (j * sizeofDIRENTRY)) with ⟨r, de, st1⟩
    rw [hfr] at this
    cases r with
    | OK => exact ih _ _ _
    | QUIT => simp
    | WRITEANDQUIT => exact absurd rfl this

/-- A scan whose visitor never returns `WRITEANDQUIT` leaves the node as it was. -/
theorem scanLoop_node {σ : Type} (blocksize : Nat) (f : Visitor σ)
    (hq : ∀ st de, (f st de).1 ≠ FOREACHENTRYRET.WRITEANDQUIT) :
    ∀ fuel (node : INODE) (ofs : Nat) (st : σ) (io : List IOEvent),
      (scanLoop blocksize f fuel node ofs st io).node = node := by
  intro fuel
  induction fuel with
  | zero => intro node ofs st io; rfl
  | succ fuel ih =>
    intro node ofs st io
    unfold scanLoop
    simp only
    split
    · have hne := forEntries_no_write f hq
        ((node.ReadInternal ofs blocksize).length / sizeofDIRENTRY) 0
        (node.ReadInternal ofs blocksize) st
      rcases hfe : forEntries f ((node.ReadInternal ofs blocksize).length / sizeofDIRENTRY) 0
        (node.ReadInternal ofs blocksize) st with ⟨r, buf1, st1⟩
      rw [hfe] at hne
      cases r with
      | QUIT => rfl
      | WRITEANDQUIT => exact absurd rfl hne
      | OK =>
        simp only
        split
        · exact ih _ _ _ _
        · rfl
    · rfl

/-- The procedure `Find` leaves the node as it was, whatever the directory. -/
theorem Find_node (dir : CDirectory) (s : List Nat) (e : DIRENTRY) :
    (dir.Find s e).node = dir.dirnode := by
  unfold CDirectory.Find CDirectory.ForEachEntry CDirectory.ForEachEntryNonBlocking
  apply scanLoop_node
  intro st de
  unfold findVisitor
  split
  · simp
  · split
    · simp
    · simp

/-- C11. Duplicate names are rejected.  For every directory, every name and every creation
routine of the filesystem: `MakeDirectory` throws `EEXIST` exactly when `Find` of the name
returns with an output entry whose id is not `INVALIDID`, and when it throws, the creation
routine of the filesystem has not been called, no value is returned and the node is as it
was before the call.  The same holds of `MakeFile`. -/
theorem duplicate_rejection (dir : CDirectory)
    (fsMake : CDirectory → List Nat → INODE × Int) (e : DIRENTRY) (name : List Nat) :
    ((dir.MakeDirectory fsMake e name).thrown = some Errno.EEXIST ↔
      (dir.Find name e).status = Status.returned
        ∧ DIRENTRY.id (dir.Find name e).st ≠ INVALIDID) ∧
    ((dir.MakeDirectory fsMake e name).thrown = some Errno.EEXIST →
      (dir.MakeDirectory fsMake e name).fsCalls = [] ∧
      (dir.MakeDirectory fsMake e name).value = none ∧
      (dir.MakeDirectory fsMake e name).node = dir.dirnode) ∧
    ((dir.MakeFile fsMake e name).thrown = some Errno.EEXIST ↔
      (dir.Find name e).status = Status.returned
        ∧ DIRENTRY.id (dir.Find name e).st ≠ INVALIDID) ∧
    ((dir.MakeFile fsMake e name).thrown = some Errno.EEXIST →
      (dir.MakeFile fsMake e name).fsCalls = [] ∧
      (dir.MakeFile fsMake e name).value = none ∧
      (dir.MakeFile fsMake e name).node = dir.dirnode) := by
  have hnode := Find_node dir name e
  unfold CDirectory.MakeDirectory CDirectory.MakeFile
  by_cases hst : (dir.Find name e).status = Status.returned
  · by_cases hid : DIRENTRY.id (dir.Find name e).st = INVALIDID
    · simp [hst, hid]
    · simp [hst, hid, hnode]
  · simp [hst]

set_option maxRecDepth 100000 in
theorem duplicate_rejection_witness :
    (exDir.Find [97] (mkEntry [] 0)).status = Status.returned ∧
    DIRENTRY.id (exDir.Find [97] (mkEntry [] 0)).st ≠ INVALIDID ∧
    (exDir.MakeDirectory (fun d _ => (d.dirnode, 5)) (mkEntry [] 0) [97]).thrown
      = some Errno.EEXIST ∧
    (exDir.MakeDirectory (fun d _ => (d.dirnode, 5)) (mkEntry [] 0) [97]).fsCalls = [] ∧
    (exDir.MakeFile (fun d _ => (d.dirnode, 5)) (mkEntry [] 0) [97]).node = exDir.dirnode ∧
    DIRENTRY.id (exDir.Find [98] (mkEntry [] 0)).st = INVALIDID ∧
    (exDir.MakeDirectory (fun d _ => (d.dirnode, 5)) (mkEntry [] 0) [98]).thrown = none ∧
    (exDir.MakeDirectory (fun d _ => (d.dirnode, 5)) (mkEntry [] 0) [98]).value = some 5 ∧
    (exDir.MakeDirectory (fun d _ => (d.dirnode, 5)) (mkEntry [] 0) [98]).fsCalls = [[98]] :=
  ⟨by decide, by decide,
    (duplicate_rejection exDir (fun d _ => (d.dirnode, 5)) (mkEntry [] 0) [97]).1.2
      ⟨by decide, by decide⟩,
    ((duplicate_rejection exDir (fun d _ => (d.dirnode, 5)) (mkEntry [] 0) [97]).2.1
      (by decide)).1,
    ((duplicate_rejection exDir (fun d _ => (d.dirnode, 5)) (mkEntry [] 0) [97]).2.2.2
      (by decide)).2.2,
    by decide, by decide, by decide, by decide⟩

end CoverFS
